import Mathlib

/-!
# ZstdEncoder: property configuration and the streaming encode driver

A shallow embedding of `CPP/7zip/Compress/ZstdEncoder.cpp`
(`NCompress::NZSTD::CEncoder`): the constructor, `SetNumberOfThreads`,
`SetCoderProperties` and `Code`.

Machine integers are natural numbers or integers with the wrap-around written
out: `UInt32` values are `Nat` reduced modulo `2^32`, the `Int32` tuning fields
are `Int` (with the sentinel `-1`), the 64-bit progress counters are `Nat`
reduced modulo `2^64`.

The compression engine, the allocator, the input source, the output sink and
the progress sink are external collaborators.  The engine is an arbitrary
state-passing oracle; the streams are concrete records with a script of result
codes.  Every interaction is appended to a trace of events.
-/

namespace NCompress
namespace NZSTD

/-! ## Result codes and variants -/

/-- Result code of a COM-style method: zero is success, anything else a failure. -/
abbrev HRESULT := Nat

/-- Success. -/
def S_OK : HRESULT := 0
/-- Unspecified failure. -/
def E_FAIL : HRESULT := 0x80004005
/-- Allocation failure. -/
def E_OUTOFMEMORY : HRESULT := 0x8007000E
/-- Invalid argument. -/
def E_INVALIDARG : HRESULT := 0x80070057

/-- Variant type tag of an unsigned 32-bit value. -/
def VT_UI4 : Nat := 19

/-- Conversion of an integer to `UInt32` (reduction modulo `2^32`). -/
def toUInt32 (x : Int) : Nat := (x % 4294967296).toNat

/-- Conversion of an unsigned value to `Int32` (two's complement). -/
def toInt32 (n : Nat) : Int :=
  if n % 4294967296 < 2147483648 then ((n % 4294967296 : Nat) : Int)
  else ((n % 4294967296 : Nat) : Int) - 4294967296

/-- Conversion of an unsigned value to `Byte` (reduction modulo `256`). -/
def toByte (n : Nat) : Nat := n % 256

/-- A property value: the variant tag `vt` and the bits read through the
`ulVal` member of the union (read whatever the tag is). -/
structure PROPVARIANT where
  vt : Nat
  ulVal : Nat
deriving DecidableEq, Repr

/-- Property identifiers.  The cases of the `switch` in `SetCoderProperties`
are the named constructors; every other identifier value is `other id` and
reaches the `default:` label. -/
inductive PROPID where
  | kLevel
  | kNumThreads
  | kStrategy
  | kWindowLog
  | kHashLog
  | kChainLog
  | kSearchLog
  | kSearchLength
  | kTargetLen
  | kOverlapLog
  | kLong
  | kLdmHashLog
  | kLdmSearchLength
  | kLdmBucketSizeLog
  | kLdmHashEveryLog
  | other (id : Nat)
deriving DecidableEq, Repr

/-! ## Engine and platform constants -/

/-- Constants that the source takes from headers outside the translated file:
the engine limits (`ZSTD_*`, non-negative `int` macros), the level and thread
limits, the recommended chunk sizes, the processor count reported by the
system, and the compression level that `CProps::clear` leaves in the header
record. -/
structure Consts where
  ZSTD_LEVEL_MAX : Nat
  ZSTD_THREAD_MAX : Nat
  ZSTD_WINDOWLOG_MIN : Nat
  ZSTD_WINDOWLOG_MAX : Nat
  ZSTD_HASHLOG_MIN : Nat
  ZSTD_HASHLOG_MAX : Nat
  ZSTD_CHAINLOG_MIN : Nat
  ZSTD_CHAINLOG_MAX : Nat
  ZSTD_SEARCHLOG_MIN : Nat
  ZSTD_SEARCHLOG_MAX : Nat
  ZSTD_SEARCHLENGTH_MIN : Nat
  ZSTD_SEARCHLENGTH_MAX : Nat
  ZSTD_TARGETLENGTH_MIN : Nat
  ZSTD_TARGETLENGTH_MAX : Nat
  ZSTD_LDM_MINMATCH_MIN : Nat
  ZSTD_LDM_MINMATCH_MAX : Nat
  ZSTD_LDM_BUCKETSIZELOG_MAX : Nat
  ZSTD_CStreamInSize : Nat
  ZSTD_CStreamOutSize : Nat
  GetNumberOfProcessors : Nat
  clearLevel : Nat
deriving DecidableEq, Repr

/-- Sample values of the constants, of the size a 64-bit build of the engine
has, on a machine with four processors; used where a concrete instance is
evaluated. -/
def zstdConsts : Consts where
  ZSTD_LEVEL_MAX := 22
  ZSTD_THREAD_MAX := 128
  ZSTD_WINDOWLOG_MIN := 10
  ZSTD_WINDOWLOG_MAX := 31
  ZSTD_HASHLOG_MIN := 6
  ZSTD_HASHLOG_MAX := 30
  ZSTD_CHAINLOG_MIN := 6
  ZSTD_CHAINLOG_MAX := 30
  ZSTD_SEARCHLOG_MIN := 1
  ZSTD_SEARCHLOG_MAX := 30
  ZSTD_SEARCHLENGTH_MIN := 3
  ZSTD_SEARCHLENGTH_MAX := 7
  ZSTD_TARGETLENGTH_MIN := 1
  ZSTD_TARGETLENGTH_MAX := 999
  ZSTD_LDM_MINMATCH_MIN := 4
  ZSTD_LDM_MINMATCH_MAX := 4096
  ZSTD_LDM_BUCKETSIZELOG_MAX := 8
  ZSTD_CStreamInSize := 131072
  ZSTD_CStreamOutSize := 131591
  GetNumberOfProcessors := 4
  clearLevel := 3

/-! ## The encoder object -/

/-- The header record `_props`; only its `_level` byte is touched by the
translated file. -/
structure CProps where
  _level : Nat
deriving DecidableEq, Repr

/-- Result of `CProps::clear`. -/
def CProps.clear (K : Consts) : CProps := { _level := toByte K.clearLevel }

/-- The members of `CEncoder`.  Pointers are kept as "non-null" flags; the
mutex is kept as the number of times the driver currently holds it. -/
structure CEncoder where
  _props : CProps
  _ctx : Bool
  _srcBuf : Bool
  _dstBuf : Bool
  _srcBufSize : Nat
  _dstBufSize : Nat
  _processedIn : Nat
  _processedOut : Nat
  _numThreads : Nat
  _hMutex : Nat
  _Long : Int
  _Strategy : Int
  _WindowLog : Int
  _HashLog : Int
  _ChainLog : Int
  _SearchLog : Int
  _SearchLength : Int
  _TargetLen : Int
  _OverlapLog : Int
  _LdmHashLog : Int
  _LdmSearchLength : Int
  _LdmBucketSizeLog : Int
  _LdmHashEveryLog : Int
deriving DecidableEq, Repr

/-- The constructor `CEncoder::CEncoder`. -/
def CEncoder.new (K : Consts) : CEncoder where
  _props := CProps.clear K
  _ctx := false
  _srcBuf := false
  _dstBuf := false
  _srcBufSize := K.ZSTD_CStreamInSize
  _dstBufSize := K.ZSTD_CStreamOutSize
  _processedIn := 0
  _processedOut := 0
  _numThreads := K.GetNumberOfProcessors % 4294967296
  _hMutex := 0
  _Long := -1
  _Strategy := -1
  _WindowLog := -1
  _HashLog := -1
  _ChainLog := -1
  _SearchLog := -1
  _SearchLength := -1
  _TargetLen := -1
  _OverlapLog := -1
  _LdmHashLog := -1
  _LdmSearchLength := -1
  _LdmBucketSizeLog := -1
  _LdmHashEveryLog := -1

/-- The method `CEncoder::SetNumberOfThreads`. -/
def SetNumberOfThreads (K : Consts) (e : CEncoder) (numThreads : Nat) : HRESULT × CEncoder :=
  let kNumThreadsMax := K.ZSTD_THREAD_MAX % 4294967296
  let numThreads := if numThreads < 1 then 1 else numThreads
  let numThreads := if numThreads > kNumThreadsMax then kNumThreadsMax else numThreads
  (S_OK, { e with _numThreads := numThreads })

/-- The two guarded assignments `if (v < lo) v = lo; if (v > hi) v = hi;`. -/
def clampStmts (lo hi v : Nat) : Nat :=
  let v := if v < lo then lo else v
  let v := if v > hi then hi else v
  v

/-- One iteration of the property loop of `SetCoderProperties`: `none` when the
iteration falls through to the next property, `some hr` when it returns. -/
def SetCoderProperties.body (K : Consts) (e : CEncoder) (propID : PROPID) (prop : PROPVARIANT) :
    Option HRESULT × CEncoder :=
  let v := prop.ulVal % 4294967296
  match propID with
  | .kLevel =>
    if prop.vt ≠ VT_UI4 then (some E_INVALIDARG, e)
    else
      let level := toByte prop.ulVal
      let mylevel := toByte K.ZSTD_LEVEL_MAX
      let level := if level > mylevel then mylevel else level
      (none, { e with _props := { e._props with _level := level } })
  | .kNumThreads => (none, (SetNumberOfThreads K e v).2)
  | .kStrategy => (none, { e with _Strategy := toInt32 (clampStmts 1 8 v) })
  | .kWindowLog =>
    (none, { e with _WindowLog := toInt32 (clampStmts K.ZSTD_WINDOWLOG_MIN K.ZSTD_WINDOWLOG_MAX v) })
  | .kHashLog =>
    (none, { e with _HashLog := toInt32 (clampStmts K.ZSTD_HASHLOG_MIN K.ZSTD_HASHLOG_MAX v) })
  | .kChainLog =>
    (none, { e with _ChainLog := toInt32 (clampStmts K.ZSTD_CHAINLOG_MIN K.ZSTD_CHAINLOG_MAX v) })
  | .kSearchLog =>
    (none, { e with _SearchLog := toInt32 (clampStmts K.ZSTD_SEARCHLOG_MIN K.ZSTD_SEARCHLOG_MAX v) })
  | .kSearchLength =>
    (none, { e with
      _SearchLength := toInt32 (clampStmts K.ZSTD_SEARCHLENGTH_MIN K.ZSTD_SEARCHLENGTH_MAX v) })
  | .kTargetLen =>
    let _v := clampStmts K.ZSTD_TARGETLENGTH_MIN K.ZSTD_TARGETLENGTH_MAX v
    (none, { e with _TargetLen := 0 })
  | .kOverlapLog => (none, { e with _OverlapLog := toInt32 (clampStmts 0 9 v) })
  | .kLong =>
    let e := { e with _Long := 1 }
    if v = 0 then (none, { e with _WindowLog := 27 })
    else if v < 10 then (none, { e with _WindowLog := 10 })
    else if v > K.ZSTD_WINDOWLOG_MAX then
      (none, { e with _WindowLog := (K.ZSTD_WINDOWLOG_MAX : Int) })
    else (none, e)
  | .kLdmHashLog =>
    (none, { e with _LdmHashLog := toInt32 (clampStmts K.ZSTD_HASHLOG_MIN K.ZSTD_HASHLOG_MAX v) })
  | .kLdmSearchLength =>
    (none, { e with
      _LdmSearchLength := toInt32 (clampStmts K.ZSTD_LDM_MINMATCH_MIN K.ZSTD_LDM_MINMATCH_MAX v) })
  | .kLdmBucketSizeLog =>
    (none, { e with _LdmBucketSizeLog := toInt32 (clampStmts 1 K.ZSTD_LDM_BUCKETSIZELOG_MAX v) })
  | .kLdmHashEveryLog =>
    (none, { e with
      _LdmHashEveryLog := toInt32 (clampStmts 0
        (toUInt32 ((K.ZSTD_WINDOWLOG_MAX : Int) - (K.ZSTD_HASHLOG_MIN : Int))) v) })
  | .other _ => (none, e)

/-- The property loop `for (i = 0; i < numProps; i++)` over the paired arrays
`propIDs` and `coderProps`. -/
def SetCoderProperties.loop (K : Consts) : CEncoder → List (PROPID × PROPVARIANT) → HRESULT × CEncoder
  | e, [] => (S_OK, e)
  | e, (propID, prop) :: rest =>
    match SetCoderProperties.body K e propID prop with
    | (some hr, e1) => (hr, e1)
    | (none, e1) => SetCoderProperties.loop K e1 rest

/-- The method `CEncoder::SetCoderProperties`. -/
def SetCoderProperties (K : Consts) (e : CEncoder) (props : List (PROPID × PROPVARIANT)) :
    HRESULT × CEncoder :=
  SetCoderProperties.loop K { e with _props := CProps.clear K } props

/-! ## External collaborators of `Code` -/

/-- Advanced parameters of the engine that `Code` pushes. -/
inductive ZSTD_cParameter where
  | ZSTD_p_compressionLevel
  | ZSTD_p_nbWorkers
  | ZSTD_p_contentSizeFlag
  | ZSTD_p_enableLongDistanceMatching
  | ZSTD_p_compressionStrategy
  | ZSTD_p_windowLog
  | ZSTD_p_hashLog
  | ZSTD_p_chainLog
  | ZSTD_p_searchLog
  | ZSTD_p_minMatch
  | ZSTD_p_targetLength
  | ZSTD_p_overlapSizeLog
  | ZSTD_p_ldmHashLog
  | ZSTD_p_ldmMinMatch
  | ZSTD_p_ldmBucketSizeLog
  | ZSTD_p_ldmHashEveryLog
deriving DecidableEq, Repr

/-- Directive passed to the engine with every compress call. -/
inductive ZSTD_EndDirective where
  | ZSTD_e_continue
  | ZSTD_e_flush
  | ZSTD_e_end
deriving DecidableEq, Repr

/-- Input descriptor handed to the engine: `src` is `none` for a null pointer
and otherwise the bytes at `src[0 .. size)`. -/
structure ZSTD_inBuffer where
  src : Option (List Nat)
  size : Nat
  pos : Nat
deriving DecidableEq, Repr

/-- What one call of `ZSTD_compress_generic` leaves behind: the returned
`size_t`, the new `inBuff.pos`, and the bytes it put at `dst[0 .. outBuff.pos)`
(so `outBuff.pos` is the length of `dst`). -/
structure CompressResult where
  err : Nat
  inPos : Nat
  dst : List Nat
deriving DecidableEq, Repr

/-- The compression engine as a state-passing oracle over an arbitrary state
type: no assumption is made on what it answers. -/
structure Engine (ε : Type) where
  ZSTD_createCCtx : ε → Bool × ε
  ZSTD_CCtx_setParameter : ε → ZSTD_cParameter → Nat → Nat × ε
  ZSTD_isError : Nat → Bool
  ZSTD_compress_generic : ε → Nat → ZSTD_inBuffer → ZSTD_EndDirective → CompressResult × ε

/-- Observable interactions of the driver, in the order they happen. -/
inductive Event where
  | createCCtx (ok : Bool)
  | alloc (size : Nat) (ok : Bool)
  | setParameter (param : ZSTD_cParameter) (value : Nat) (err : Nat)
  | read (size : Nat) (hr : HRESULT) (processed : Nat)
  | wait
  | release
  | processedIn (total : Nat)
  | processedOut (total : Nat)
  | compress (inBuff : ZSTD_inBuffer) (todo : ZSTD_EndDirective) (res : CompressResult)
  | write (data : List Nat) (hr : HRESULT)
  | setRatioInfo (inSize outSize : Nat) (hr : HRESULT)
deriving DecidableEq, Repr

/-- Everything outside the encoder object: the engine state, the results of
the coming `MyAlloc` calls (`true` is success; an exhausted script succeeds),
the bytes the input source has not delivered yet, the bytes the output sink
has accepted, the scripted result codes of the coming reads, writes and
progress reports (an exhausted script answers `S_OK`), and the trace. -/
structure World (ε : Type) where
  engine : ε
  heap : List Bool
  inStream : List Nat
  readResults : List HRESULT
  outStream : List Nat
  writeResults : List HRESULT
  progressResults : List HRESULT
  trace : List Event

/-- The encoder object together with its surroundings. -/
structure St (ε : Type) where
  enc : CEncoder
  world : World ε

/-- Appends an event to the trace. -/
def St.emit {ε : Type} (st : St ε) (ev : Event) : St ε :=
  { st with world := { st.world with trace := st.world.trace ++ [ev] } }

/-- Head of a script of result codes, `S_OK` once the script is exhausted. -/
def scriptHead (rs : List HRESULT) : HRESULT := rs.headD S_OK

/-- Modelled from the spec: `ReadStream` of the stream utilities, which are not
in the source tree.  A successful read delivers up to one buffer's worth of the
remaining input (zero bytes exactly at end of input); a failing read delivers
nothing and returns the failure code of the source. -/
def ReadStream {ε : Type} (st : St ε) (size : Nat) : HRESULT × List Nat × St ε :=
  let hr := scriptHead st.world.readResults
  let w := { st.world with readResults := st.world.readResults.tail }
  if hr ≠ S_OK then
    (hr, [], St.emit { st with world := w } (.read size hr 0))
  else
    let data := w.inStream.take size
    (S_OK, data,
      St.emit { st with world := { w with inStream := w.inStream.drop size } }
        (.read size S_OK data.length))

/-- Modelled from the spec: `WriteStream` of the stream utilities, which are
not in the source tree.  A successful write appends the whole block to the
sink; a failing write returns the failure code of the sink. -/
def WriteStream {ε : Type} (st : St ε) (data : List Nat) : HRESULT × St ε :=
  let hr := scriptHead st.world.writeResults
  let w := { st.world with writeResults := st.world.writeResults.tail }
  if hr ≠ S_OK then
    (hr, St.emit { st with world := w } (.write data hr))
  else
    (S_OK, St.emit { st with world := { w with outStream := w.outStream ++ data } }
      (.write data S_OK))

/-- The call `progress->SetRatioInfo(&_processedIn, &_processedOut)`. -/
def SetRatioInfo {ε : Type} (st : St ε) : HRESULT × St ε :=
  let hr := scriptHead st.world.progressResults
  let w := { st.world with progressResults := st.world.progressResults.tail }
  (hr, St.emit { st with world := w } (.setRatioInfo st.enc._processedIn st.enc._processedOut hr))

/-- The call `MyAlloc(size)`: whether the returned pointer is non-null. -/
def MyAlloc {ε : Type} (st : St ε) (size : Nat) : Bool × St ε :=
  let ok := st.world.heap.headD true
  (ok, St.emit { st with world := { st.world with heap := st.world.heap.tail } } (.alloc size ok))

/-- The call `WaitForSingleObject(_hMutex, INFINITE)`. -/
def WaitForSingleObject {ε : Type} (st : St ε) : St ε :=
  St.emit { st with enc := { st.enc with _hMutex := st.enc._hMutex + 1 } } .wait

/-- The call `ReleaseMutex(_hMutex)`. -/
def ReleaseMutex {ε : Type} (st : St ε) : St ε :=
  St.emit { st with enc := { st.enc with _hMutex := st.enc._hMutex - 1 } } .release

/-! ## `Code`: lazy session construction -/

/-- A statement of `Code` that may return: `some hr` is `return hr`, `none`
falls through to the next statement. -/
abbrev Stmt (ε : Type) := St ε → Option HRESULT × St ε

/-- Runs statements in order up to the first one that returns. -/
def runStmts {ε : Type} : List (Stmt ε) → Stmt ε
  | [], st => (none, st)
  | s :: rest, st =>
    match s st with
    | (some hr, st1) => (some hr, st1)
    | (none, st1) => runStmts rest st1

/-- The statements `_ctx = ZSTD_createCCtx(); if (!_ctx) return E_OUTOFMEMORY;`. -/
def Code.createCtx {ε : Type} (eng : Engine ε) : Stmt ε := fun st =>
  let r := eng.ZSTD_createCCtx st.world.engine
  let st1 : St ε := St.emit
    { enc := { st.enc with _ctx := r.1 }, world := { st.world with engine := r.2 } }
    (.createCCtx r.1)
  if !r.1 then (some E_OUTOFMEMORY, st1) else (none, st1)

/-- The statements `_srcBuf = MyAlloc(_srcBufSize); if (!_srcBuf) return E_OUTOFMEMORY;`. -/
def Code.allocSrc {ε : Type} : Stmt ε := fun st =>
  let r := MyAlloc st st.enc._srcBufSize
  let st1 : St ε := { r.2 with enc := { r.2.enc with _srcBuf := r.1 } }
  if !r.1 then (some E_OUTOFMEMORY, st1) else (none, st1)

/-- The statements `_dstBuf = MyAlloc(_dstBufSize); if (!_dstBuf) return E_OUTOFMEMORY;`. -/
def Code.allocDst {ε : Type} : Stmt ε := fun st =>
  let r := MyAlloc st st.enc._dstBufSize
  let st1 : St ε := { r.2 with enc := { r.2.enc with _dstBuf := r.1 } }
  if !r.1 then (some E_OUTOFMEMORY, st1) else (none, st1)

/-- The statements `err = ZSTD_CCtx_setParameter(_ctx, param, value);
if (ZSTD_isError(err)) return E_INVALIDARG;` with the value read from the
encoder at that moment. -/
def Code.push {ε : Type} (eng : Engine ε) (param : ZSTD_cParameter) (value : CEncoder → Nat) :
    Stmt ε := fun st =>
  let r := eng.ZSTD_CCtx_setParameter st.world.engine param (value st.enc)
  let st1 : St ε := St.emit { st with world := { st.world with engine := r.2 } }
    (.setParameter param (value st.enc) r.1)
  if eng.ZSTD_isError r.1 then (some E_INVALIDARG, st1) else (none, st1)

/-- A guarded push: `if (cond) { err = ...; if (ZSTD_isError(err)) return E_INVALIDARG; }`. -/
def Code.pushIf {ε : Type} (eng : Engine ε) (cond : CEncoder → Bool) (param : ZSTD_cParameter)
    (value : CEncoder → Nat) : Stmt ε := fun st =>
  if cond st.enc then Code.push eng param value st else (none, st)

/-- The statement `if (_WindowLog > 27 && _Long == 0) _Long = 1;`. -/
def Code.resolveLong {ε : Type} : Stmt ε := fun st =>
  if st.enc._WindowLog > 27 ∧ st.enc._Long = 0 then
    (none, { st with enc := { st.enc with _Long := 1 } })
  else (none, st)

/-- Allocation part of the block guarded by `if (!_ctx)`. -/
def Code.allocStmts {ε : Type} (eng : Engine ε) : List (Stmt ε) :=
  [Code.createCtx eng, Code.allocSrc, Code.allocDst]

/-- Parameter part of the block guarded by `if (!_ctx)`, statement by statement. -/
def Code.paramStmts {ε : Type} (eng : Engine ε) : List (Stmt ε) :=
  [ Code.push eng .ZSTD_p_compressionLevel (fun e => e._props._level),
    Code.push eng .ZSTD_p_nbWorkers (fun e => e._numThreads),
    Code.push eng .ZSTD_p_contentSizeFlag (fun _ => 1),
    Code.resolveLong,
    Code.pushIf eng (fun e => decide (e._Long = 1)) .ZSTD_p_enableLongDistanceMatching
      (fun e => toUInt32 e._Long),
    Code.pushIf eng (fun e => decide (e._Strategy ≠ -1)) .ZSTD_p_compressionStrategy
      (fun e => toUInt32 e._Strategy),
    Code.pushIf eng (fun e => decide (e._WindowLog ≠ -1)) .ZSTD_p_windowLog
      (fun e => toUInt32 e._WindowLog),
    Code.pushIf eng (fun e => decide (e._HashLog ≠ -1)) .ZSTD_p_hashLog
      (fun e => toUInt32 e._HashLog),
    Code.pushIf eng (fun e => decide (e._ChainLog ≠ -1)) .ZSTD_p_chainLog
      (fun e => toUInt32 e._ChainLog),
    Code.pushIf eng (fun e => decide (e._SearchLog ≠ -1)) .ZSTD_p_searchLog
      (fun e => toUInt32 e._SearchLog),
    Code.pushIf eng (fun e => decide (e._SearchLength ≠ -1)) .ZSTD_p_minMatch
      (fun e => toUInt32 e._SearchLength),
    Code.pushIf eng (fun e => decide (e._TargetLen ≠ -1)) .ZSTD_p_targetLength
      (fun e => toUInt32 e._TargetLen),
    Code.pushIf eng (fun e => decide (e._OverlapLog ≠ -1)) .ZSTD_p_overlapSizeLog
      (fun e => toUInt32 e._OverlapLog),
    Code.pushIf eng (fun e => decide (e._LdmHashLog ≠ -1)) .ZSTD_p_ldmHashLog
      (fun e => toUInt32 e._LdmHashLog),
    Code.pushIf eng (fun e => decide (e._LdmSearchLength ≠ -1)) .ZSTD_p_ldmMinMatch
      (fun e => toUInt32 e._LdmSearchLength),
    Code.pushIf eng (fun e => decide (e._LdmBucketSizeLog ≠ -1)) .ZSTD_p_ldmBucketSizeLog
      (fun e => toUInt32 e._LdmBucketSizeLog),
    Code.pushIf eng (fun e => decide (e._LdmHashEveryLog ≠ -1)) .ZSTD_p_ldmHashEveryLog
      (fun e => toUInt32 e._LdmHashEveryLog) ]

/-- The block `if (!_ctx) { ... }` at the head of `Code`. -/
def Code.session {ε : Type} (eng : Engine ε) : Stmt ε := fun st =>
  if !st.enc._ctx then runStmts (Code.allocStmts eng ++ Code.paramStmts eng) st
  else (none, st)

/-! ## `Code`: the streaming loop -/

/-- Local variables of `Code` that live across loop iterations: the
directive, the size of the current chunk and the bytes `_srcBuf[0 .. srcSize)`
delivered by the last read. -/
structure Locals where
  ZSTD_todo : ZSTD_EndDirective
  srcSize : Nat
  srcBuf : List Nat
deriving DecidableEq, Repr

/-- The locals at entry of `Code`. -/
def Locals.entry : Locals := { ZSTD_todo := .ZSTD_e_continue, srcSize := 0, srcBuf := [] }

/-- The statements of the outer loop before the inner loop: read a chunk,
switch the directive at end of input, add the chunk size to `_processedIn`
under the mutex.  Returns `some hr` when `RINOK` returns. -/
def Code.readChunk {ε : Type} (L : Locals) (st : St ε) : Option HRESULT × Locals × St ε :=
  match ReadStream st st.enc._srcBufSize with
  | (hr, data, st1) =>
    if hr ≠ S_OK then (some hr, L, st1)
    else
      let srcSize := data.length
      let todo := if srcSize = 0 then ZSTD_EndDirective.ZSTD_e_end else L.ZSTD_todo
      let st2 := WaitForSingleObject st1
      let total := (st2.enc._processedIn + srcSize) % 18446744073709551616
      let st3 := St.emit { st2 with enc := { st2.enc with _processedIn := total } }
        (.processedIn total)
      let st4 := ReleaseMutex st3
      (none, { ZSTD_todo := todo, srcSize := srcSize, srcBuf := data }, st4)

/-- The input descriptor set up at the head of the inner loop. -/
def Code.inBuff (L : Locals) : ZSTD_inBuffer :=
  if L.ZSTD_todo = .ZSTD_e_continue then { src := some L.srcBuf, size := L.srcSize, pos := 0 }
  else { src := none, size := L.srcSize, pos := 0 }

/-- The block `if (outBuff.pos) { ... }` of the inner loop: write the output,
add it to `_processedOut` under the mutex and report progress. -/
def Code.writeOutput {ε : Type} (dst : List Nat) : Stmt ε := fun st =>
  if dst.length ≠ 0 then
    match WriteStream st dst with
    | (hr, st1) =>
      if hr ≠ S_OK then (some hr, st1)
      else
        let st2 := WaitForSingleObject st1
        let total := (st2.enc._processedOut + dst.length) % 18446744073709551616
        let st3 := St.emit { st2 with enc := { st2.enc with _processedOut := total } }
          (.processedOut total)
        match SetRatioInfo st3 with
        | (hr2, st4) =>
          if hr2 ≠ S_OK then (some hr2, st4)
          else (none, ReleaseMutex st4)
  else (none, st)

/-- Where the inner loop goes after one pass. -/
inductive Next where
  | ret (hr : HRESULT)
  | again
  | more
deriving DecidableEq, Repr

/-- The call `ZSTD_compress_generic(_ctx, &outBuff, &inBuff, ZSTD_todo)` of one
pass of the inner loop, on a fresh output descriptor of full capacity. -/
def Code.callEngine {ε : Type} (eng : Engine ε) (L : Locals) (st : St ε) : CompressResult × ε :=
  eng.ZSTD_compress_generic st.world.engine st.enc._dstBufSize (Code.inBuff L) L.ZSTD_todo

/-- The two tests at the foot of the inner loop: `done` and `need more input`. -/
def Code.next (L : Locals) (res : CompressResult) : Next :=
  if L.ZSTD_todo = .ZSTD_e_end ∧ res.err = 0 then .ret S_OK
  else if res.inPos = (Code.inBuff L).size then .more
  else .again

/-- One pass of the inner loop: call the engine on the current chunk, write
what it produced, then return (`ret`), repeat the inner loop (`again`) or
leave it for the next read (`more`). -/
def Code.compressChunk {ε : Type} (eng : Engine ε) (L : Locals) (st : St ε) : Next × St ε :=
  let r := Code.callEngine eng L st
  let st1 : St ε := St.emit { st with world := { st.world with engine := r.2 } }
    (.compress (Code.inBuff L) L.ZSTD_todo r.1)
  if eng.ZSTD_isError r.1.err then (.ret E_FAIL, st1)
  else
    match Code.writeOutput r.1.dst st1 with
    | (some hr, st2) => (.ret hr, st2)
    | (none, st2) => (Code.next L r.1, st2)

/-- The two nested `for (;;)` loops of `Code`.  The flag `inner` tells whether
control is at the head of the inner loop (`true`) or of the outer loop
(`false`); every read and every engine call takes one unit of fuel, and the
result is `none` when the fuel runs out first. -/
def Code.loop {ε : Type} (eng : Engine ε) : Nat → Bool → Locals → St ε → Option HRESULT × St ε
  | 0, _, _, st => (none, st)
  | fuel + 1, false, L, st =>
    match Code.readChunk L st with
    | (some hr, _, st1) => (some hr, st1)
    | (none, L1, st1) => Code.loop eng fuel true L1 st1
  | fuel + 1, true, L, st =>
    match Code.compressChunk eng L st with
    | (.ret hr, st1) => (some hr, st1)
    | (.more, st1) => Code.loop eng fuel false L st1
    | (.again, st1) => Code.loop eng fuel true L st1

/-- The method `CEncoder::Code`. -/
def Code {ε : Type} (eng : Engine ε) (fuel : Nat) (st : St ε) : Option HRESULT × St ε :=
  match Code.session eng st with
  | (some hr, st1) => (some hr, st1)
  | (none, st1) => Code.loop eng fuel false Locals.entry st1

/-! ## Concrete collaborators used to exercise the model -/

/-- An engine that accepts every parameter, consumes each chunk whole, emits
one byte per call and finishes at the first end directive. -/
def echoEngine : Engine Nat where
  ZSTD_createCCtx := fun s => (true, s)
  ZSTD_CCtx_setParameter := fun s _ _ => (0, s)
  ZSTD_isError := fun err => decide (err > 1000)
  ZSTD_compress_generic := fun s _ inBuff _ => ({ err := 0, inPos := inBuff.size, dst := [s] }, s + 1)

/-- A world around `echoEngine` with the given input and nothing scripted. -/
def echoWorld (input : List Nat) : World Nat where
  engine := 0
  heap := []
  inStream := input
  readResults := []
  outStream := []
  writeResults := []
  progressResults := []
  trace := []

/-- An engine like `echoEngine` that refuses the worker-thread parameter (a
single-threaded build). -/
def singleThreadEngine : Engine Nat where
  ZSTD_createCCtx := fun s => (true, s)
  ZSTD_CCtx_setParameter := fun s param _ =>
    (if param = ZSTD_cParameter.ZSTD_p_nbWorkers then 2000 else 0, s)
  ZSTD_isError := fun err => decide (err > 1000)
  ZSTD_compress_generic := fun s _ inBuff _ => ({ err := 0, inPos := inBuff.size, dst := [s] }, s + 1)

/-- The input descriptor of a finish call on an empty chunk: null source, size
zero. -/
def finishBuff : ZSTD_inBuffer := { src := none, size := 0, pos := 0 }

/-- One engine call with the end directive on the empty chunk and an output
capacity of `cap`. -/
def Engine.finishCall {ε : Type} (eng : Engine ε) (cap : Nat) (s : ε) : CompressResult × ε :=
  eng.ZSTD_compress_generic s cap finishBuff .ZSTD_e_end

/-- Engine state after `n` such calls. -/
def Engine.finishState {ε : Type} (eng : Engine ε) (cap : Nat) : Nat → ε → ε
  | 0, s => s
  | n + 1, s => Engine.finishState eng cap n (eng.finishCall cap s).2

/-- Concatenated output of the first `n` such calls. -/
def Engine.finishOutput {ε : Type} (eng : Engine ε) (cap : Nat) : Nat → ε → List Nat
  | 0, _ => []
  | n + 1, s => (eng.finishCall cap s).1.dst ++ Engine.finishOutput eng cap n (eng.finishCall cap s).2

/-- An engine that keeps two bytes of frame overhead back: its first finish
call emits one byte and reports work remaining, its second emits the other and
reports completion. -/
def lazyEngine : Engine Nat where
  ZSTD_createCCtx := fun s => (true, s)
  ZSTD_CCtx_setParameter := fun s _ _ => (0, s)
  ZSTD_isError := fun err => decide (err > 1000)
  ZSTD_compress_generic := fun s _ inBuff _ =>
    ({ err := 1 - s, inPos := inBuff.size, dst := [40 + s] }, s + 1)

/-! ## Specification-side vocabulary -/

/-- The plain range-checked properties: those whose case of the `switch` is two
guarded assignments followed by a store of `v` into one field. -/
inductive RangeField where
  | strategy
  | windowLog
  | hashLog
  | chainLog
  | searchLog
  | searchLength
  | overlapLog
  | ldmHashLog
  | ldmSearchLength
  | ldmBucketSizeLog
  | ldmHashEveryLog
deriving DecidableEq, Repr

/-- Property identifier of a range-checked property. -/
def RangeField.propID : RangeField → PROPID
  | .strategy => .kStrategy
  | .windowLog => .kWindowLog
  | .hashLog => .kHashLog
  | .chainLog => .kChainLog
  | .searchLog => .kSearchLog
  | .searchLength => .kSearchLength
  | .overlapLog => .kOverlapLog
  | .ldmHashLog => .kLdmHashLog
  | .ldmSearchLength => .kLdmSearchLength
  | .ldmBucketSizeLog => .kLdmBucketSizeLog
  | .ldmHashEveryLog => .kLdmHashEveryLog

/-- Lower bound of the documented range of a range-checked property. -/
def RangeField.lo (K : Consts) : RangeField → Nat
  | .strategy => 1
  | .windowLog => K.ZSTD_WINDOWLOG_MIN
  | .hashLog => K.ZSTD_HASHLOG_MIN
  | .chainLog => K.ZSTD_CHAINLOG_MIN
  | .searchLog => K.ZSTD_SEARCHLOG_MIN
  | .searchLength => K.ZSTD_SEARCHLENGTH_MIN
  | .overlapLog => 0
  | .ldmHashLog => K.ZSTD_HASHLOG_MIN
  | .ldmSearchLength => K.ZSTD_LDM_MINMATCH_MIN
  | .ldmBucketSizeLog => 1
  | .ldmHashEveryLog => 0

/-- Upper bound of the documented range of a range-checked property. -/
def RangeField.hi (K : Consts) : RangeField → Nat
  | .strategy => 8
  | .windowLog => K.ZSTD_WINDOWLOG_MAX
  | .hashLog => K.ZSTD_HASHLOG_MAX
  | .chainLog => K.ZSTD_CHAINLOG_MAX
  | .searchLog => K.ZSTD_SEARCHLOG_MAX
  | .searchLength => K.ZSTD_SEARCHLENGTH_MAX
  | .overlapLog => 9
  | .ldmHashLog => K.ZSTD_HASHLOG_MAX
  | .ldmSearchLength => K.ZSTD_LDM_MINMATCH_MAX
  | .ldmBucketSizeLog => K.ZSTD_LDM_BUCKETSIZELOG_MAX
  | .ldmHashEveryLog => K.ZSTD_WINDOWLOG_MAX - K.ZSTD_HASHLOG_MIN

/-- The encoder field that holds a range-checked property. -/
def RangeField.get : RangeField → CEncoder → Int
  | .strategy, e => e._Strategy
  | .windowLog, e => e._WindowLog
  | .hashLog, e => e._HashLog
  | .chainLog, e => e._ChainLog
  | .searchLog, e => e._SearchLog
  | .searchLength, e => e._SearchLength
  | .overlapLog, e => e._OverlapLog
  | .ldmHashLog, e => e._LdmHashLog
  | .ldmSearchLength, e => e._LdmSearchLength
  | .ldmBucketSizeLog, e => e._LdmBucketSizeLog
  | .ldmHashEveryLog, e => e._LdmHashEveryLog

/-- Events of lazy session construction: context creation, buffer allocation
and parameter pushes. -/
def Event.isSetup : Event → Bool
  | .createCCtx _ => true
  | .alloc _ _ => true
  | .setParameter _ _ _ => true
  | _ => false

/-- Parameter pushes. -/
def Event.isParam : Event → Bool
  | .setParameter _ _ _ => true
  | _ => false

/-- Parameter pushes that the engine answered with an error code. -/
def Event.isRejected {ε : Type} (eng : Engine ε) : Event → Bool
  | .setParameter _ _ err => eng.ZSTD_isError err
  | _ => false

/-- Reads of the input source. -/
def Event.isRead : Event → Bool
  | .read _ _ _ => true
  | _ => false

/-- Engine compress calls. -/
def Event.isCompress : Event → Bool
  | .compress _ _ _ => true
  | _ => false

/-- Writes to the output sink. -/
def Event.isWrite : Event → Bool
  | .write _ _ => true
  | _ => false

/-- The engine compress calls of a trace: the input descriptor and the
directive of each, in order. -/
def compressCalls : List Event → List (ZSTD_inBuffer × ZSTD_EndDirective)
  | [] => []
  | .compress inBuff todo _ :: rest => (inBuff, todo) :: compressCalls rest
  | _ :: rest => compressCalls rest

/-- The trace of the second state extends the trace of the first by `evs`. -/
def Extends {ε : Type} (st st1 : St ε) (evs : List Event) : Prop :=
  st1.world.trace = st.world.trace ++ evs

/-- What the allocation statements guarantee: only setup events that are not
parameter pushes, and no failure other than `E_OUTOFMEMORY`. -/
def AllocSpec {ε : Type} (st : St ε) (r : Option HRESULT) (st1 : St ε) : Prop :=
  (∃ evs, Extends st st1 evs ∧ ∀ ev ∈ evs, ev.isSetup = true ∧ ev.isParam = false) ∧
  (r = none ∨ r = some E_OUTOFMEMORY)

/-- What the parameter statements guarantee: only parameter pushes, none of
them rejected when the statements fall through, and no failure other than
`E_INVALIDARG`. -/
def ParamSpec {ε : Type} (eng : Engine ε) (st : St ε) (r : Option HRESULT) (st1 : St ε) : Prop :=
  (∃ evs, Extends st st1 evs ∧ (∀ ev ∈ evs, ev.isSetup = true) ∧
    (r = none → ∀ ev ∈ evs, ev.isRejected eng = false)) ∧
  (r = none ∨ r = some E_INVALIDARG)

/-- What session construction leaves alone: the streams, their scripts, the
progress counters and the buffer sizes. -/
def SessionFrame {ε : Type} (st : St ε) (_r : Option HRESULT) (st1 : St ε) : Prop :=
  st1.world.inStream = st.world.inStream ∧
  st1.world.readResults = st.world.readResults ∧
  st1.world.outStream = st.world.outStream ∧
  st1.world.writeResults = st.world.writeResults ∧
  st1.world.progressResults = st.world.progressResults ∧
  st1.enc._processedIn = st.enc._processedIn ∧
  st1.enc._processedOut = st.enc._processedOut ∧
  st1.enc._srcBufSize = st.enc._srcBufSize ∧
  st1.enc._dstBufSize = st.enc._dstBufSize ∧
  (∃ evs, Extends st st1 evs ∧ ∀ ev ∈ evs, ev.isSetup = true)

/-- The state is ready for the finish phase on an exhausted input: nothing
left to read, no failure scripted for the source or the sinks, and the engine
answers its first `k` finish calls with work remaining and call number `k`
(counted from zero) with zero, none of them with an error. -/
def FinishReady {ε : Type} (eng : Engine ε) (k : Nat) (st : St ε) : Prop :=
  st.world.inStream = [] ∧
  (∀ hr ∈ st.world.readResults, hr = S_OK) ∧
  (∀ hr ∈ st.world.writeResults, hr = S_OK) ∧
  (∀ hr ∈ st.world.progressResults, hr = S_OK) ∧
  st.enc._processedIn < 18446744073709551616 ∧
  (∀ j, j ≤ k → eng.ZSTD_isError (eng.finishCall st.enc._dstBufSize
    (eng.finishState st.enc._dstBufSize j st.world.engine)).1.err = false) ∧
  (∀ j, j < k → (eng.finishCall st.enc._dstBufSize
    (eng.finishState st.enc._dstBufSize j st.world.engine)).1.err ≠ 0) ∧
  (eng.finishCall st.enc._dstBufSize
    (eng.finishState st.enc._dstBufSize k st.world.engine)).1.err = 0

/-- The outcome of a finish phase of `n` engine calls started in `st`: success,
the consumed counter untouched, the produced counter and the sink advanced by
the output of the `n` calls, and exactly `n` engine calls, each with the end
directive on the empty chunk. -/
def FinishSpec {ε : Type} (eng : Engine ε) (n : Nat) (st : St ε) (r : Option HRESULT × St ε) :
    Prop :=
  r.1 = some S_OK ∧
  r.2.enc._processedIn = st.enc._processedIn ∧
  (st.enc._processedOut < 18446744073709551616 →
    r.2.enc._processedOut =
      (st.enc._processedOut + (eng.finishOutput st.enc._dstBufSize n st.world.engine).length)
        % 18446744073709551616) ∧
  r.2.world.outStream =
    st.world.outStream ++ eng.finishOutput st.enc._dstBufSize n st.world.engine ∧
  ∃ evs, Extends st r.2 evs ∧
    compressCalls evs = List.replicate n (finishBuff, ZSTD_EndDirective.ZSTD_e_end)

/-- An engine that accepts every parameter, never reports an error or
remaining work and emits nothing; its first compress call consumes at most two
bytes of the chunk it is shown, every later call the whole chunk. -/
def stingyEngine : Engine Nat where
  ZSTD_createCCtx := fun s => (true, s)
  ZSTD_CCtx_setParameter := fun s _ _ => (0, s)
  ZSTD_isError := fun err => decide (err > 1000)
  ZSTD_compress_generic := fun s _ inBuff _ =>
    ({ err := 0, inPos := if s = 0 then min 2 inBuff.size else inBuff.size, dst := [] }, s + 1)

/-- The bytes the engine consumed over a trace: for every compress call the
first `inPos` bytes of the chunk it was shown. -/
def consumedBytes : List Event → List Nat
  | [] => []
  | .compress inBuff _ res :: rest => (inBuff.src.getD []).take res.inPos ++ consumedBytes rest
  | _ :: rest => consumedBytes rest

/-- The result code with which `Code` returns after one pass of the inner loop,
`none` when it goes on. -/
def Next.result : Next → Option HRESULT
  | .ret hr => some hr
  | .again => none
  | .more => none

/-- The failure an event of the streaming loop stands for: the code of a failed
read, write or progress report, `E_FAIL` for an engine call that reported an
error, `none` for everything else. -/
def Event.failure {ε : Type} (eng : Engine ε) : Event → Option HRESULT
  | .read _ hr _ => if hr ≠ S_OK then some hr else none
  | .write _ hr => if hr ≠ S_OK then some hr else none
  | .setRatioInfo _ _ hr => if hr ≠ S_OK then some hr else none
  | .compress _ _ res => if eng.ZSTD_isError res.err then some E_FAIL else none
  | _ => none

/-- The bytes of the successful writes of a trace, in order. -/
def writtenBytes : List Event → List Nat
  | [] => []
  | .write data hr :: rest => (if hr = S_OK then data else []) ++ writtenBytes rest
  | _ :: rest => writtenBytes rest

/-- First-failure discipline between two states: the sink has grown by exactly
the successful writes of the events in between, and either none of these
events is a failure, or the last one is the only failure and its code is the
result. -/
def FailFast {ε : Type} (eng : Engine ε) (st : St ε) (r : Option HRESULT) (st1 : St ε) : Prop :=
  ∃ evs, Extends st st1 evs ∧
    st1.world.outStream = st.world.outStream ++ writtenBytes evs ∧
    ((∀ ev ∈ evs, ev.failure eng = none) ∨
     (∃ pre ev hr, evs = pre ++ [ev] ∧ (∀ e ∈ pre, e.failure eng = none) ∧
        ev.failure eng = some hr ∧ r = some hr))

/-- A run in which the sink accepts the first block and refuses the second:
three bytes in chunks of two through `echoEngine`. -/
def refusedWriteRun : St Nat :=
  ⟨{ CEncoder.new zstdConsts with _srcBufSize := 2 },
    { echoWorld [1, 2, 3] with writeResults := [S_OK, 2147942405] }⟩

/-- The events of one read step: a failed read alone, or a successful read
followed by the update of the consumed counter under the mutex. -/
def readShape : List Event → Bool
  | [.read _ hr _] => decide (hr ≠ S_OK)
  | [.read _ hr _, .wait, .processedIn _, .release] => decide (hr = S_OK)
  | _ => false

/-- The events of one pass of the inner loop.  An engine call that reported an
error or produced nothing stands alone.  An engine call that produced output
is followed by the write of that output; when the write succeeded, by the
update of the produced counter under the mutex and the progress report of that
total; and when the report succeeded, by the release of the mutex. -/
def passShape (isError : Nat → Bool) : List Event → Bool
  | [.compress _ _ res] => isError res.err || decide (res.dst = [])
  | [.compress _ _ res, .write d hr] =>
    !isError res.err && decide (res.dst ≠ [] ∧ d = res.dst ∧ hr ≠ S_OK)
  | [.compress _ _ res, .write d hr, .wait, .processedOut o, .setRatioInfo _ o2 hr2] =>
    !isError res.err && decide (res.dst ≠ [] ∧ d = res.dst ∧ hr = S_OK ∧ o2 = o ∧ hr2 ≠ S_OK)
  | [.compress _ _ res, .write d hr, .wait, .processedOut o, .setRatioInfo _ o2 hr2, .release] =>
    !isError res.err && decide (res.dst ≠ [] ∧ d = res.dst ∧ hr = S_OK ∧ o2 = o ∧ hr2 = S_OK)
  | _ => false

/-- The events of a pass after which `Code` returns `S_OK`: an engine call
with the end directive that reported zero remaining work without error, and
whose output, if any, was written and reported without failure. -/
def doneShape (isError : Nat → Bool) : List Event → Bool
  | [.compress _ todo res] =>
    !isError res.err && decide (todo = .ZSTD_e_end ∧ res.err = 0 ∧ res.dst = [])
  | [.compress _ todo res, .write d hr, .wait, .processedOut _, .setRatioInfo _ _ hr2, .release] =>
    !isError res.err &&
      decide (todo = .ZSTD_e_end ∧ res.err = 0 ∧ res.dst ≠ [] ∧ d = res.dst ∧ hr = S_OK ∧ hr2 = S_OK)
  | _ => false

/-- The streaming loop between two states went step by step: its events are
the concatenation of blocks, each the events of a read step or of a pass of
the inner loop, and the result is `S_OK` exactly when the last block has the
done shape. -/
def Blocks {ε : Type} (eng : Engine ε) (st : St ε) (r : Option HRESULT) (st1 : St ε) : Prop :=
  ∃ blocks : List (List Event), Extends st st1 blocks.flatten ∧
    (∀ blk ∈ blocks, readShape blk = true ∨ passShape eng.ZSTD_isError blk = true) ∧
    (r = some S_OK ↔ ∃ blk, blocks.getLast? = some blk ∧ doneShape eng.ZSTD_isError blk = true)

/-- A run that completes: three bytes in chunks of two through `echoEngine`. -/
def chunkedRun : St Nat :=
  ⟨{ CEncoder.new zstdConsts with _srcBufSize := 2 }, echoWorld [1, 2, 3]⟩

/-- The input is exhausted for the driver: it asks for no bytes or no byte is
left. -/
def Ended {ε : Type} (st : St ε) : Prop :=
  st.enc._srcBufSize = 0 ∨ st.world.inStream = []

/-- The number of bytes of the latest successful read of a trace, `last` when
the trace has none. -/
def lastRead : Option Nat → List Event → Option Nat
  | last, [] => last
  | last, .read _ hr n :: rest => lastRead (if hr = S_OK then some n else last) rest
  | last, _ :: rest => lastRead last rest

/-- Directive discipline along a trace: every engine call comes after a
successful read, is shown a chunk of the size that read delivered, and carries
the continue directive when that size is positive and the end directive when it
is zero. -/
def directivesOk : Option Nat → List Event → Bool
  | _, [] => true
  | last, .read _ hr n :: rest => directivesOk (if hr = S_OK then some n else last) rest
  | last, .compress inBuff todo _ :: rest =>
    (match last with
      | some n => decide (inBuff.size = n ∧
          todo = if n = 0 then ZSTD_EndDirective.ZSTD_e_end else ZSTD_EndDirective.ZSTD_e_continue)
      | none => false) && directivesOk last rest
  | last, _ :: rest => directivesOk last rest

/-- Every read of the trace delivers zero bytes and every engine call is a
finish call on the empty chunk. -/
def afterEnd : List Event → Bool
  | [] => true
  | .read _ _ n :: rest => decide (n = 0) && afterEnd rest
  | .compress inBuff todo _ :: rest =>
    decide (inBuff = finishBuff ∧ todo = ZSTD_EndDirective.ZSTD_e_end) && afterEnd rest
  | _ :: rest => afterEnd rest

/-- After the first successful read of zero bytes, every read delivers zero
bytes and every engine call is a finish call on the empty chunk. -/
def endDiscipline : List Event → Bool
  | [] => true
  | .read _ hr n :: rest => if hr = S_OK ∧ n = 0 then afterEnd rest else endDiscipline rest
  | _ :: rest => endDiscipline rest

/-- What the locals and the state satisfy at the head of the inner loop
(`inner = true`) and of the outer loop (`inner = false`) of a `Code` call. -/
def DirectiveInv {ε : Type} (inner : Bool) (last : Option Nat) (L : Locals) (st : St ε) : Prop :=
  (inner = true →
    last = some L.srcSize ∧
    L.ZSTD_todo = (if L.srcSize = 0 then ZSTD_EndDirective.ZSTD_e_end
      else ZSTD_EndDirective.ZSTD_e_continue) ∧
    (L.srcSize = 0 → Ended st)) ∧
  (inner = false →
    L.ZSTD_todo = ZSTD_EndDirective.ZSTD_e_continue ∨
    (L.ZSTD_todo = ZSTD_EndDirective.ZSTD_e_end ∧ Ended st))

/-- What the events of the streaming loop satisfy, started from locals `L`. -/
def DirectiveSpec (last : Option Nat) (L : Locals) (evs : List Event) : Prop :=
  directivesOk last evs = true ∧
  (compressCalls evs).Pairwise
    (fun c d => c.2 = ZSTD_EndDirective.ZSTD_e_end → d.2 = ZSTD_EndDirective.ZSTD_e_end) ∧
  (L.ZSTD_todo = ZSTD_EndDirective.ZSTD_e_end → afterEnd evs = true) ∧
  endDiscipline evs = true

/-- Events that are neither reads nor engine calls. -/
def Event.isQuiet : Event → Bool
  | .read _ _ _ => false
  | .compress _ _ _ => false
  | _ => true

/-- A fresh encoder on an empty input. -/
def emptyRun : St Nat := ⟨CEncoder.new zstdConsts, echoWorld []⟩

/-- The parameters pushed to the engine over a trace, with their values, in
order. -/
def pushedParams : List Event → List (ZSTD_cParameter × Nat)
  | [] => []
  | .setParameter param value _ :: rest => (param, value) :: pushedParams rest
  | _ :: rest => pushedParams rest

/-- The push of a tuning field: made when the field differs from the
"unspecified" value `-1` the constructor gives it, with the value of the
field. -/
def pushWhenSet (param : ZSTD_cParameter) (field : Int) : List (ZSTD_cParameter × Nat) :=
  if field ≠ -1 then [(param, toUInt32 field)] else []

/-- The long-distance toggle as resolved at first use. -/
def resolvedLong (e : CEncoder) : Int :=
  if e._WindowLog > 27 ∧ e._Long = 0 then 1 else e._Long

/-- The sequence of pushes the first `Code` call is to make for an encoder:
level, worker threads, content-size flag 1, "enable long-distance matching"
when the toggle resolved to on, then each tuning field that was set, in the
order strategy, window log, hash log, chain log, search log, minimum match,
target length, overlap log and the four long-distance details. -/
def expectedPushes (e : CEncoder) : List (ZSTD_cParameter × Nat) :=
  [(.ZSTD_p_compressionLevel, e._props._level), (.ZSTD_p_nbWorkers, e._numThreads),
    (.ZSTD_p_contentSizeFlag, 1)]
  ++ (if resolvedLong e = 1 then [(.ZSTD_p_enableLongDistanceMatching, 1)] else [])
  ++ pushWhenSet .ZSTD_p_compressionStrategy e._Strategy
  ++ pushWhenSet .ZSTD_p_windowLog e._WindowLog
  ++ pushWhenSet .ZSTD_p_hashLog e._HashLog
  ++ pushWhenSet .ZSTD_p_chainLog e._ChainLog
  ++ pushWhenSet .ZSTD_p_searchLog e._SearchLog
  ++ pushWhenSet .ZSTD_p_minMatch e._SearchLength
  ++ pushWhenSet .ZSTD_p_targetLength e._TargetLen
  ++ pushWhenSet .ZSTD_p_overlapSizeLog e._OverlapLog
  ++ pushWhenSet .ZSTD_p_ldmHashLog e._LdmHashLog
  ++ pushWhenSet .ZSTD_p_ldmMinMatch e._LdmSearchLength
  ++ pushWhenSet .ZSTD_p_ldmBucketSizeLog e._LdmBucketSizeLog
  ++ pushWhenSet .ZSTD_p_ldmHashEveryLog e._LdmHashEveryLog

/-- What a statement of the session block does when it falls through: the
pushes it makes, as a function of the encoder, and the encoder it leaves. -/
structure PushSpec where
  pushes : CEncoder → List (ZSTD_cParameter × Nat)
  after : CEncoder → CEncoder

/-- A statement meets a push description. -/
def StmtPushes {ε : Type} (s : Stmt ε) (d : PushSpec) : Prop :=
  ∀ st, (s st).1 = none →
    (s st).2.enc = d.after st.enc ∧ ∃ evs, Extends st (s st).2 evs ∧ pushedParams evs = d.pushes st.enc

/-- The pushes of a run of statements, from their descriptions. -/
def pushesOf : List PushSpec → CEncoder → List (ZSTD_cParameter × Nat)
  | [], _ => []
  | d :: rest, e => d.pushes e ++ pushesOf rest (d.after e)

/-- Description of a statement that pushes nothing and leaves the encoder as
`after` says. -/
def PushSpec.silent (after : CEncoder → CEncoder) : PushSpec :=
  { pushes := fun _ => [], after := after }

/-- Description of an unguarded push. -/
def PushSpec.always (param : ZSTD_cParameter) (value : CEncoder → Nat) : PushSpec :=
  { pushes := fun e => [(param, value e)], after := fun e => e }

/-- Description of a guarded push. -/
def PushSpec.guarded (cond : CEncoder → Bool) (param : ZSTD_cParameter)
    (value : CEncoder → Nat) : PushSpec :=
  { pushes := fun e => if cond e then [(param, value e)] else [], after := fun e => e }

/-- The descriptions of the statements of the session block, in order. -/
def sessionPushSpecs : List PushSpec :=
  [ PushSpec.silent (fun e => { e with _ctx := true }),
    PushSpec.silent (fun e => { e with _srcBuf := true }),
    PushSpec.silent (fun e => { e with _dstBuf := true }),
    PushSpec.always .ZSTD_p_compressionLevel (fun e => e._props._level),
    PushSpec.always .ZSTD_p_nbWorkers (fun e => e._numThreads),
    PushSpec.always .ZSTD_p_contentSizeFlag (fun _ => 1),
    PushSpec.silent (fun e => if e._WindowLog > 27 ∧ e._Long = 0 then { e with _Long := 1 } else e),
    PushSpec.guarded (fun e => decide (e._Long = 1)) .ZSTD_p_enableLongDistanceMatching
      (fun e => toUInt32 e._Long),
    PushSpec.guarded (fun e => decide (e._Strategy ≠ -1)) .ZSTD_p_compressionStrategy
      (fun e => toUInt32 e._Strategy),
    PushSpec.guarded (fun e => decide (e._WindowLog ≠ -1)) .ZSTD_p_windowLog
      (fun e => toUInt32 e._WindowLog),
    PushSpec.guarded (fun e => decide (e._HashLog ≠ -1)) .ZSTD_p_hashLog
      (fun e => toUInt32 e._HashLog),
    PushSpec.guarded (fun e => decide (e._ChainLog ≠ -1)) .ZSTD_p_chainLog
      (fun e => toUInt32 e._ChainLog),
    PushSpec.guarded (fun e => decide (e._SearchLog ≠ -1)) .ZSTD_p_searchLog
      (fun e => toUInt32 e._SearchLog),
    PushSpec.guarded (fun e => decide (e._SearchLength ≠ -1)) .ZSTD_p_minMatch
      (fun e => toUInt32 e._SearchLength),
    PushSpec.guarded (fun e => decide (e._TargetLen ≠ -1)) .ZSTD_p_targetLength
      (fun e => toUInt32 e._TargetLen),
    PushSpec.guarded (fun e => decide (e._OverlapLog ≠ -1)) .ZSTD_p_overlapSizeLog
      (fun e => toUInt32 e._OverlapLog),
    PushSpec.guarded (fun e => decide (e._LdmHashLog ≠ -1)) .ZSTD_p_ldmHashLog
      (fun e => toUInt32 e._LdmHashLog),
    PushSpec.guarded (fun e => decide (e._LdmSearchLength ≠ -1)) .ZSTD_p_ldmMinMatch
      (fun e => toUInt32 e._LdmSearchLength),
    PushSpec.guarded (fun e => decide (e._LdmBucketSizeLog ≠ -1)) .ZSTD_p_ldmBucketSizeLog
      (fun e => toUInt32 e._LdmBucketSizeLog),
    PushSpec.guarded (fun e => decide (e._LdmHashEveryLog ≠ -1)) .ZSTD_p_ldmHashEveryLog
      (fun e => toUInt32 e._LdmHashEveryLog) ]

/-- Whether processing the property `(propID, prop)` assigns the field of the
range-checked property `f`: its own case of the `switch` does, and the case
`kLong` assigns the window log when the value is below 10 or above the
maximum. -/
def RangeField.assignedBy (K : Consts) (f : RangeField) (propID : PROPID) (prop : PROPVARIANT) :
    Bool :=
  decide (propID = f.propID) ||
    (decide (f = .windowLog) && decide (propID = .kLong) &&
      (decide (prop.ulVal % 4294967296 < 10) ||
        decide (prop.ulVal % 4294967296 > K.ZSTD_WINDOWLOG_MAX)))

/-- A fresh encoder configured with the long-distance toggle, a strategy and a
target length, over an empty input. -/
def configuredProps : List (PROPID × PROPVARIANT) :=
  [(.kLong, ⟨VT_UI4, 0⟩), (.kStrategy, ⟨VT_UI4, 3⟩), (.kTargetLen, ⟨VT_UI4, 50⟩)]

/-- The state of a stream over an empty input with the encoder configured by
`configuredProps`. -/
def configuredRun : St Nat :=
  ⟨(SetCoderProperties zstdConsts (CEncoder.new zstdConsts) configuredProps).2, echoWorld []⟩

/-- Whether the engine call of an event left the position inside the chunk it
was shown (`pos ≤ size`); events other than engine calls pass. -/
def Event.inBounds : Event → Bool
  | .compress inBuff _ res => decide (res.inPos ≤ inBuff.size)
  | _ => true

/-- Every finish call of the trace directly follows a successful read of zero
bytes, with no engine call between the two: the flag tells whether such a read
is the latest read or engine call so far. -/
def finishFollowsRead : Bool → List Event → Bool
  | _, [] => true
  | _, .read _ hr n :: rest => finishFollowsRead (decide (hr = S_OK ∧ n = 0)) rest
  | fresh, .compress _ todo _ :: rest =>
    (fresh || decide (todo ≠ ZSTD_EndDirective.ZSTD_e_end)) && finishFollowsRead false rest
  | fresh, _ :: rest => finishFollowsRead fresh rest

/-! ## Theorems: `SetCoderProperties` -/

theorem clampStmts_eq (lo hi v : Nat) : clampStmts lo hi v = min (max v lo) hi := by
  unfold clampStmts
  simp only []
  split_ifs <;> omega

theorem toInt32_of_lt {n : Nat} (h : n < 2147483648) : toInt32 n = (n : Int) := by
  unfold toInt32
  have h1 : n % 4294967296 = n := Nat.mod_eq_of_lt (by omega)
  rw [h1, if_pos h]

theorem toUInt32_sub {a b : Nat} (hab : b ≤ a) (ha : a - b < 4294967296) :
    toUInt32 ((a : Int) - (b : Int)) = a - b := by
  unfold toUInt32
  have h1 : ((a : Int) - (b : Int)) = ((a - b : Nat) : Int) := by omega
  rw [h1]
  have h2 : (((a - b : Nat) : Int) % 4294967296) = ((a - b : Nat) : Int) :=
    Int.emod_eq_of_lt (by omega) (by omega)
  rw [h2]
  simp

/-- The loop body only ever returns `E_INVALIDARG`. -/
theorem body_some (K : Consts) (e : CEncoder) (id : PROPID) (p : PROPVARIANT) (hr : HRESULT)
    (h : (SetCoderProperties.body K e id p).1 = some hr) : hr = E_INVALIDARG := by
  unfold SetCoderProperties.body at h
  cases id <;> simp only [] at h <;> (try split_ifs at h) <;> simp_all

theorem loop_nil (K : Consts) (e : CEncoder) : SetCoderProperties.loop K e [] = (S_OK, e) := rfl

theorem loop_cons_none (K : Consts) (e e1 : CEncoder) (id : PROPID) (p : PROPVARIANT)
    (rest : List (PROPID × PROPVARIANT)) (h : SetCoderProperties.body K e id p = (none, e1)) :
    SetCoderProperties.loop K e ((id, p) :: rest) = SetCoderProperties.loop K e1 rest := by
  simp [SetCoderProperties.loop, h]

theorem loop_cons_some (K : Consts) (e e1 : CEncoder) (id : PROPID) (p : PROPVARIANT)
    (rest : List (PROPID × PROPVARIANT)) (hr : HRESULT)
    (h : SetCoderProperties.body K e id p = (some hr, e1)) :
    SetCoderProperties.loop K e ((id, p) :: rest) = (hr, e1) := by
  simp [SetCoderProperties.loop, h]

/-- The loop returns `S_OK` or `E_INVALIDARG`. -/
theorem loop_result (K : Consts) (ps : List (PROPID × PROPVARIANT)) (e : CEncoder) :
    (SetCoderProperties.loop K e ps).1 = S_OK ∨ (SetCoderProperties.loop K e ps).1 = E_INVALIDARG := by
  induction ps generalizing e with
  | nil => left; rfl
  | cons q rest ih =>
    obtain ⟨id, p⟩ := q
    rcases hb : SetCoderProperties.body K e id p with ⟨r, e1⟩
    cases r with
    | none => rw [loop_cons_none K e e1 id p rest hb]; exact ih e1
    | some hr =>
      rw [loop_cons_some K e e1 id p rest hr hb]
      right
      exact body_some K e id p hr (by rw [hb])

/-- A successful loop over a list followed by more properties continues from
the state the list left. -/
theorem loop_append (K : Consts) (xs ys : List (PROPID × PROPVARIANT)) (e : CEncoder)
    (h : (SetCoderProperties.loop K e xs).1 = S_OK) :
    SetCoderProperties.loop K e (xs ++ ys)
      = SetCoderProperties.loop K (SetCoderProperties.loop K e xs).2 ys := by
  induction xs generalizing e with
  | nil => rfl
  | cons q rest ih =>
    obtain ⟨id, p⟩ := q
    rcases hb : SetCoderProperties.body K e id p with ⟨r, e1⟩
    cases r with
    | none =>
      rw [loop_cons_none K e e1 id p rest hb] at h
      rw [List.cons_append, loop_cons_none K e e1 id p _ hb, loop_cons_none K e e1 id p _ hb]
      exact ih e1 h
    | some hr =>
      rw [loop_cons_some K e e1 id p rest hr hb] at h
      have := body_some K e id p hr (by rw [hb])
      simp only [] at h
      rw [h] at this
      exact absurd this (by decide)

theorem SetCoderProperties_append (K : Consts) (xs ys : List (PROPID × PROPVARIANT)) (e : CEncoder)
    (h : (SetCoderProperties K e xs).1 = S_OK) :
    SetCoderProperties K e (xs ++ ys)
      = SetCoderProperties.loop K (SetCoderProperties K e xs).2 ys := by
  unfold SetCoderProperties at *
  exact loop_append K xs ys _ h


/-- What the case of a range-checked property stores, from any state. -/
theorem body_rangeField (K : Consts) (e : CEncoder) (f : RangeField) (p : PROPVARIANT)
    (hhi : f.hi K < 2147483648) (hK : K.ZSTD_HASHLOG_MIN ≤ K.ZSTD_WINDOWLOG_MAX) :
    (SetCoderProperties.body K e f.propID p).1 = none ∧
    f.get (SetCoderProperties.body K e f.propID p).2
      = ((min (max (p.ulVal % 4294967296) (f.lo K)) (f.hi K) : Nat) : Int) := by
  have key : ∀ lo : Nat, toInt32 (clampStmts lo (f.hi K) (p.ulVal % 4294967296))
      = ((min (max (p.ulVal % 4294967296) lo) (f.hi K) : Nat) : Int) := by
    intro lo
    rw [clampStmts_eq]
    exact toInt32_of_lt (lt_of_le_of_lt (Nat.min_le_right _ _) hhi)
  cases f
  case ldmHashEveryLog =>
    have h2 : toUInt32 ((K.ZSTD_WINDOWLOG_MAX : Int) - (K.ZSTD_HASHLOG_MIN : Int))
        = K.ZSTD_WINDOWLOG_MAX - K.ZSTD_HASHLOG_MIN :=
      toUInt32_sub hK (by simp only [RangeField.hi] at hhi; omega)
    simp only [RangeField.hi] at key
    simp only [SetCoderProperties.body, RangeField.propID, RangeField.get, RangeField.lo,
      RangeField.hi, h2, key, and_self]
  all_goals
    simp only [RangeField.hi] at key
    simp only [SetCoderProperties.body, RangeField.propID, RangeField.get, RangeField.lo,
      RangeField.hi, key, and_self]

/-- C1: for every 32-bit value `v` and each plain range-checked property
(strategy, window log, hash log, chain log, search log, minimum match length,
overlap log, LDM hash log, LDM minimum match, LDM bucket-size log, LDM
hash-every log), configuring the property last in a property list stores
`min (max v lo) hi` in its field, whatever the variant tag. -/
theorem SetCoderProperties_range_clamped (K : Consts) (e : CEncoder)
    (ps : List (PROPID × PROPVARIANT)) (f : RangeField) (vt v : Nat)
    (hv : v < 4294967296) (hhi : f.hi K < 2147483648)
    (hK : K.ZSTD_HASHLOG_MIN ≤ K.ZSTD_WINDOWLOG_MAX)
    (hps : (SetCoderProperties K e ps).1 = S_OK) :
    (SetCoderProperties K e (ps ++ [(f.propID, ⟨vt, v⟩)])).1 = S_OK ∧
    f.get (SetCoderProperties K e (ps ++ [(f.propID, ⟨vt, v⟩)])).2
      = ((min (max v (f.lo K)) (f.hi K) : Nat) : Int) := by
  rw [SetCoderProperties_append K ps _ e hps]
  obtain ⟨h1, h2⟩ := body_rangeField K (SetCoderProperties K e ps).2 f ⟨vt, v⟩ hhi hK
  rcases hb : SetCoderProperties.body K (SetCoderProperties K e ps).2 f.propID ⟨vt, v⟩ with ⟨r, e1⟩
  rw [hb] at h1 h2
  simp only [] at h1 h2
  subst h1
  rw [loop_cons_none K _ e1 _ _ [] hb, loop_nil]
  refine ⟨rfl, ?_⟩
  rw [h2, Nat.mod_eq_of_lt hv]

/-- Witness of C1: the window log configured with 5 and then the search length
with 200 on a fresh encoder. -/
theorem SetCoderProperties_range_clamped_witness :
    (SetCoderProperties zstdConsts (CEncoder.new zstdConsts)
      ([(PROPID.kWindowLog, ⟨VT_UI4, 5⟩)] ++ [(RangeField.searchLength.propID, ⟨VT_UI4, 200⟩)])).1
        = S_OK ∧
    RangeField.searchLength.get (SetCoderProperties zstdConsts (CEncoder.new zstdConsts)
      ([(PROPID.kWindowLog, ⟨VT_UI4, 5⟩)] ++ [(RangeField.searchLength.propID, ⟨VT_UI4, 200⟩)])).2
        = ((min (max 200 (RangeField.searchLength.lo zstdConsts))
            (RangeField.searchLength.hi zstdConsts) : Nat) : Int) :=
  SetCoderProperties_range_clamped zstdConsts (CEncoder.new zstdConsts)
    [(PROPID.kWindowLog, ⟨VT_UI4, 5⟩)] RangeField.searchLength VT_UI4 200
    (by decide) (by decide) (by decide) (by decide)

/-- C2: the level case truncates the value to a byte before comparing it with
the maximum and has no lower bound: the levels 256 and 0 are both stored as 0,
whatever the engine maximum, where the claim has the maximum and 1. -/
theorem SetCoderProperties_level_truncates (K : Consts) (e : CEncoder) :
    (SetCoderProperties K e [(PROPID.kLevel, ⟨VT_UI4, 256⟩)]) =
      (S_OK, { e with _props := { _level := 0 } }) ∧
    (SetCoderProperties K e [(PROPID.kLevel, ⟨VT_UI4, 0⟩)]) =
      (S_OK, { e with _props := { _level := 0 } }) := by
  constructor <;>
    simp [SetCoderProperties, SetCoderProperties.loop, SetCoderProperties.body, toByte, CProps.clear]

/-- C3: the target-length case stores 0 for every value, not the clamped
value. -/
theorem SetCoderProperties_targetLen_zero (K : Consts) (e : CEncoder) (p : PROPVARIANT) :
    (SetCoderProperties K e [(PROPID.kTargetLen, p)]).1 = S_OK ∧
    (SetCoderProperties K e [(PROPID.kTargetLen, p)]).2._TargetLen = 0 := by
  simp [SetCoderProperties, SetCoderProperties.loop, SetCoderProperties.body]

/-- C4: configuring the long-distance-matching toggle last in a property list
turns the toggle on and sets the window log to 27 for magnitude 0, to 10 for a
magnitude in (0,10), and to the engine maximum for a magnitude above it. -/
theorem SetCoderProperties_long (K : Consts) (e : CEncoder)
    (ps : List (PROPID × PROPVARIANT)) (vt v : Nat)
    (hv : v < 4294967296) (hmax : 9 ≤ K.ZSTD_WINDOWLOG_MAX)
    (hps : (SetCoderProperties K e ps).1 = S_OK) :
    (SetCoderProperties K e (ps ++ [(PROPID.kLong, ⟨vt, v⟩)])).1 = S_OK ∧
    (SetCoderProperties K e (ps ++ [(PROPID.kLong, ⟨vt, v⟩)])).2._Long = 1 ∧
    (v = 0 → (SetCoderProperties K e (ps ++ [(PROPID.kLong, ⟨vt, v⟩)])).2._WindowLog = 27) ∧
    (0 < v → v < 10 →
      (SetCoderProperties K e (ps ++ [(PROPID.kLong, ⟨vt, v⟩)])).2._WindowLog = 10) ∧
    (K.ZSTD_WINDOWLOG_MAX < v →
      (SetCoderProperties K e (ps ++ [(PROPID.kLong, ⟨vt, v⟩)])).2._WindowLog
        = (K.ZSTD_WINDOWLOG_MAX : Int)) := by
  rw [SetCoderProperties_append K ps _ e hps]
  generalize (SetCoderProperties K e ps).2 = e0
  have hmod : v % 4294967296 = v := Nat.mod_eq_of_lt hv
  simp only [SetCoderProperties.loop, SetCoderProperties.body, hmod]
  by_cases h0 : v = 0
  · subst h0
    simp
  · by_cases h10 : v < 10
    · have h3 : ¬ K.ZSTD_WINDOWLOG_MAX < v := by omega
      simp [h0, h10, h3]
    · by_cases hgt : v > K.ZSTD_WINDOWLOG_MAX
      · simp [h0, h10, hgt]
      · simp [h0, h10, hgt]

/-- Witness of C4: the toggle with magnitude 7 after a window-log property. -/
theorem SetCoderProperties_long_witness :
    (SetCoderProperties zstdConsts (CEncoder.new zstdConsts)
      ([(PROPID.kWindowLog, ⟨VT_UI4, 20⟩)] ++ [(PROPID.kLong, ⟨VT_UI4, 7⟩)])).2._WindowLog = 10 :=
  (SetCoderProperties_long zstdConsts (CEncoder.new zstdConsts)
    [(PROPID.kWindowLog, ⟨VT_UI4, 20⟩)] VT_UI4 7 (by decide) (by decide) (by decide)).2.2.2.1
    (by decide) (by decide)

/-- A level property whose tag is not `VT_UI4` makes the loop body return. -/
theorem body_level_mismatch (K : Consts) (e : CEncoder) (p : PROPVARIANT) (h : p.vt ≠ VT_UI4) :
    SetCoderProperties.body K e PROPID.kLevel p = (some E_INVALIDARG, e) := by
  simp [SetCoderProperties.body, h]

/-- A property tagged `VT_UI4` never makes the loop body return. -/
theorem body_ui4 (K : Consts) (e : CEncoder) (id : PROPID) (p : PROPVARIANT) (h : p.vt = VT_UI4) :
    (SetCoderProperties.body K e id p).1 = none := by
  unfold SetCoderProperties.body
  cases id <;> simp only [] <;> (try split_ifs) <;> simp_all

theorem loop_level_mismatch (K : Consts) (ps : List (PROPID × PROPVARIANT)) (e : CEncoder)
    (h : ∃ p, (PROPID.kLevel, p) ∈ ps ∧ p.vt ≠ VT_UI4) :
    (SetCoderProperties.loop K e ps).1 = E_INVALIDARG := by
  induction ps generalizing e with
  | nil => obtain ⟨p, hp, _⟩ := h; simp at hp
  | cons q rest ih =>
    obtain ⟨id, q⟩ := q
    rcases hb : SetCoderProperties.body K e id q with ⟨r, e1⟩
    cases r with
    | some hr =>
      rw [loop_cons_some K e e1 id q rest hr hb]
      exact body_some K e id q hr (by rw [hb])
    | none =>
      rw [loop_cons_none K e e1 id q rest hb]
      apply ih
      obtain ⟨p, hp, hvt⟩ := h
      rcases List.mem_cons.mp hp with heq | hmem
      · exfalso
        have h1 : id = PROPID.kLevel := (congrArg Prod.fst heq).symm
        have h2 : q = p := (congrArg Prod.snd heq).symm
        subst h1
        subst h2
        rw [body_level_mismatch K e q hvt] at hb
        simp at hb
      · exact ⟨p, hmem, hvt⟩

theorem loop_all_ui4 (K : Consts) (ps : List (PROPID × PROPVARIANT)) (e : CEncoder)
    (h : ∀ q ∈ ps, q.2.vt = VT_UI4) : (SetCoderProperties.loop K e ps).1 = S_OK := by
  induction ps generalizing e with
  | nil => rfl
  | cons q rest ih =>
    obtain ⟨id, q⟩ := q
    have hq : q.vt = VT_UI4 := h (id, q) (List.mem_cons_self _ _)
    have hnone := body_ui4 K e id q hq
    rcases hb : SetCoderProperties.body K e id q with ⟨r, e1⟩
    rw [hb] at hnone
    simp only [] at hnone
    subst hnone
    rw [loop_cons_none K e e1 id q rest hb]
    exact ih e1 (fun q hq => h q (List.mem_cons_of_mem _ hq))

/-- C9 (as stated, refuted): a strategy property carrying a string variant
(tag 8) and a long-distance toggle carrying an empty variant (tag 0) are both
accepted. -/
theorem SetCoderProperties_type_mismatch_accepted :
    (SetCoderProperties zstdConsts (CEncoder.new zstdConsts)
      [(PROPID.kStrategy, ⟨8, 5⟩)]).1 = S_OK ∧
    (SetCoderProperties zstdConsts (CEncoder.new zstdConsts)
      [(PROPID.kStrategy, ⟨8, 5⟩)]).1 ≠ E_INVALIDARG ∧
    (SetCoderProperties zstdConsts (CEncoder.new zstdConsts)
      [(PROPID.kLong, ⟨0, 0⟩)]).1 = S_OK ∧
    (SetCoderProperties zstdConsts (CEncoder.new zstdConsts)
      [(PROPID.kLong, ⟨0, 0⟩)]).1 ≠ E_INVALIDARG := by
  decide

/-- C9 (amended): a property list that holds a level property whose variant
type is not `VT_UI4` fails with `E_INVALIDARG`; a property list in which every
value is tagged `VT_UI4` succeeds whatever the values are, so range violations
never cause a failure. -/
theorem SetCoderProperties_type_check (K : Consts) (e : CEncoder)
    (ps : List (PROPID × PROPVARIANT)) :
    ((∃ p, (PROPID.kLevel, p) ∈ ps ∧ p.vt ≠ VT_UI4) →
      (SetCoderProperties K e ps).1 = E_INVALIDARG) ∧
    ((∀ q ∈ ps, q.2.vt = VT_UI4) → (SetCoderProperties K e ps).1 = S_OK) :=
  ⟨fun h => loop_level_mismatch K ps _ h, fun h => loop_all_ui4 K ps _ h⟩

/-- Witness of C9 (amended): a level given as a string after a strategy, and a
list of out-of-range numeric values. -/
theorem SetCoderProperties_type_check_witness :
    (SetCoderProperties zstdConsts (CEncoder.new zstdConsts)
      [(PROPID.kStrategy, ⟨VT_UI4, 3⟩), (PROPID.kLevel, ⟨8, 5⟩)]).1 = E_INVALIDARG ∧
    (SetCoderProperties zstdConsts (CEncoder.new zstdConsts)
      [(PROPID.kStrategy, ⟨VT_UI4, 300⟩), (PROPID.kLevel, ⟨VT_UI4, 4000000000⟩),
       (PROPID.kWindowLog, ⟨VT_UI4, 0⟩)]).1 = S_OK :=
  ⟨(SetCoderProperties_type_check zstdConsts (CEncoder.new zstdConsts)
      [(PROPID.kStrategy, ⟨VT_UI4, 3⟩), (PROPID.kLevel, ⟨8, 5⟩)]).1
      ⟨⟨8, 5⟩, by decide, by decide⟩,
   (SetCoderProperties_type_check zstdConsts (CEncoder.new zstdConsts)
      [(PROPID.kStrategy, ⟨VT_UI4, 300⟩), (PROPID.kLevel, ⟨VT_UI4, 4000000000⟩),
       (PROPID.kWindowLog, ⟨VT_UI4, 0⟩)]).2 (by decide)⟩

theorem loop_insert_other (K : Consts) (xs ys : List (PROPID × PROPVARIANT)) (e : CEncoder)
    (id : Nat) (p : PROPVARIANT) :
    SetCoderProperties.loop K e (xs ++ (PROPID.other id, p) :: ys)
      = SetCoderProperties.loop K e (xs ++ ys) := by
  induction xs generalizing e with
  | nil =>
    have hb : SetCoderProperties.body K e (PROPID.other id) p = (none, e) := rfl
    rw [List.nil_append, List.nil_append, loop_cons_none K e e _ p ys hb]
  | cons q rest ih =>
    obtain ⟨qid, q⟩ := q
    rcases hb : SetCoderProperties.body K e qid q with ⟨r, e1⟩
    cases r with
    | some hr =>
      rw [List.cons_append, List.cons_append, loop_cons_some K e e1 qid q _ hr hb,
        loop_cons_some K e e1 qid q _ hr hb]
    | none =>
      rw [List.cons_append, List.cons_append, loop_cons_none K e e1 qid q _ hb,
        loop_cons_none K e e1 qid q _ hb]
      exact ih e1

/-- C10: a pair whose identifier is not one of the recognised ones, inserted
at any position of a property list, changes neither the result code of
`SetCoderProperties` nor any stored field. -/
theorem SetCoderProperties_ignores_unrecognized (K : Consts) (e : CEncoder)
    (xs ys : List (PROPID × PROPVARIANT)) (id : Nat) (p : PROPVARIANT) :
    SetCoderProperties K e (xs ++ (PROPID.other id, p) :: ys) = SetCoderProperties K e (xs ++ ys) := by
  unfold SetCoderProperties
  exact loop_insert_other K xs ys _ id p

/-! ## Theorems: session construction -/

theorem extends_refl {ε : Type} (st : St ε) : Extends st st [] := by
  simp [Extends]

theorem extends_trans {ε : Type} {a b c : St ε} {x y : List Event}
    (h1 : Extends a b x) (h2 : Extends b c y) : Extends a c (x ++ y) := by
  unfold Extends at *
  rw [h2, h1, List.append_assoc]

theorem extends_unique {ε : Type} {a b : St ε} {x y : List Event}
    (h1 : Extends a b x) (h2 : Extends a b y) : x = y := by
  unfold Extends at *
  rw [h1] at h2
  exact List.append_cancel_left h2

theorem extends_emit {ε : Type} (st : St ε) (ev : Event) : Extends st (St.emit st ev) [ev] := rfl

/-- A property of statements that holds of doing nothing and composes along
fall-through holds of a run of statements. -/
theorem runStmts_spec {ε : Type} (Φ : St ε → Option HRESULT → St ε → Prop)
    (hrefl : ∀ st, Φ st none st)
    (htrans : ∀ a b c r, Φ a none b → Φ b r c → Φ a r c)
    (stmts : List (Stmt ε)) (hall : ∀ s ∈ stmts, ∀ st, Φ st (s st).1 (s st).2) (st : St ε) :
    Φ st (runStmts stmts st).1 (runStmts stmts st).2 := by
  induction stmts generalizing st with
  | nil => exact hrefl st
  | cons s rest ih =>
    have hs := hall s (List.mem_cons_self _ _) st
    have hrest := fun st1 => ih (fun s1 h1 => hall s1 (List.mem_cons_of_mem _ h1)) st1
    unfold runStmts
    rcases hx : s st with ⟨r, st1⟩
    rw [hx] at hs
    cases r with
    | some hr => exact hs
    | none => exact htrans _ _ _ _ hs (hrest st1)

theorem runStmts_append {ε : Type} (xs ys : List (Stmt ε)) (st : St ε) :
    runStmts (xs ++ ys) st =
      match runStmts xs st with
      | (some hr, st1) => (some hr, st1)
      | (none, st1) => runStmts ys st1 := by
  induction xs generalizing st with
  | nil => rfl
  | cons s rest ih =>
    simp only [List.cons_append, runStmts]
    rcases hx : s st with ⟨r, st1⟩
    cases r with
    | some hr => rfl
    | none => exact ih st1

theorem allocSpec_refl {ε : Type} (st : St ε) : AllocSpec st none st :=
  ⟨⟨[], extends_refl st, by simp⟩, Or.inl rfl⟩

theorem allocSpec_trans {ε : Type} (a b c : St ε) (r : Option HRESULT)
    (h1 : AllocSpec a none b) (h2 : AllocSpec b r c) : AllocSpec a r c := by
  obtain ⟨⟨x, hx, hxs⟩, _⟩ := h1
  obtain ⟨⟨y, hy, hys⟩, hr⟩ := h2
  refine ⟨⟨x ++ y, extends_trans hx hy, ?_⟩, hr⟩
  intro ev hev
  rcases List.mem_append.mp hev with h | h
  · exact hxs ev h
  · exact hys ev h

theorem paramSpec_refl {ε : Type} (eng : Engine ε) (st : St ε) : ParamSpec eng st none st :=
  ⟨⟨[], extends_refl st, by simp, by simp⟩, Or.inl rfl⟩

theorem paramSpec_trans {ε : Type} (eng : Engine ε) (a b c : St ε) (r : Option HRESULT)
    (h1 : ParamSpec eng a none b) (h2 : ParamSpec eng b r c) : ParamSpec eng a r c := by
  obtain ⟨⟨x, hx, hxs, hxr⟩, _⟩ := h1
  obtain ⟨⟨y, hy, hys, hyr⟩, hr⟩ := h2
  refine ⟨⟨x ++ y, extends_trans hx hy, ?_, ?_⟩, hr⟩
  · intro ev hev
    rcases List.mem_append.mp hev with h | h
    · exact hxs ev h
    · exact hys ev h
  · intro hnone ev hev
    rcases List.mem_append.mp hev with h | h
    · exact hxr rfl ev h
    · exact hyr hnone ev h

theorem sessionFrame_refl {ε : Type} (st : St ε) : SessionFrame st none st :=
  ⟨rfl, rfl, rfl, rfl, rfl, rfl, rfl, rfl, rfl, [], extends_refl st, by simp⟩

theorem sessionFrame_trans {ε : Type} (a b c : St ε) (r : Option HRESULT)
    (h1 : SessionFrame a none b) (h2 : SessionFrame b r c) : SessionFrame a r c := by
  obtain ⟨a1, a2, a3, a4, a5, a6, a7, a8, a9, x, hx, hxs⟩ := h1
  obtain ⟨b1, b2, b3, b4, b5, b6, b7, b8, b9, y, hy, hys⟩ := h2
  refine ⟨b1.trans a1, b2.trans a2, b3.trans a3, b4.trans a4, b5.trans a5, b6.trans a6,
    b7.trans a7, b8.trans a8, b9.trans a9, x ++ y, extends_trans hx hy, ?_⟩
  intro ev hev
  rcases List.mem_append.mp hev with h | h
  · exact hxs ev h
  · exact hys ev h

theorem createCtx_alloc {ε : Type} (eng : Engine ε) (st : St ε) :
    AllocSpec st (Code.createCtx eng st).1 (Code.createCtx eng st).2 := by
  unfold Code.createCtx
  simp only []
  split_ifs
  · exact ⟨⟨[_], extends_emit _ _, by simp [Event.isSetup, Event.isParam]⟩, Or.inr rfl⟩
  · exact ⟨⟨[_], extends_emit _ _, by simp [Event.isSetup, Event.isParam]⟩, Or.inl rfl⟩

theorem allocSrc_alloc {ε : Type} (st : St ε) :
    AllocSpec st (Code.allocSrc st).1 (Code.allocSrc st).2 := by
  unfold Code.allocSrc MyAlloc
  simp only []
  split_ifs
  · exact ⟨⟨[_], extends_emit _ _, by simp [Event.isSetup, Event.isParam]⟩, Or.inr rfl⟩
  · exact ⟨⟨[_], extends_emit _ _, by simp [Event.isSetup, Event.isParam]⟩, Or.inl rfl⟩

theorem allocDst_alloc {ε : Type} (st : St ε) :
    AllocSpec st (Code.allocDst st).1 (Code.allocDst st).2 := by
  unfold Code.allocDst MyAlloc
  simp only []
  split_ifs
  · exact ⟨⟨[_], extends_emit _ _, by simp [Event.isSetup, Event.isParam]⟩, Or.inr rfl⟩
  · exact ⟨⟨[_], extends_emit _ _, by simp [Event.isSetup, Event.isParam]⟩, Or.inl rfl⟩

theorem allocStmts_spec {ε : Type} (eng : Engine ε) (st : St ε) :
    AllocSpec st (runStmts (Code.allocStmts eng) st).1 (runStmts (Code.allocStmts eng) st).2 := by
  apply runStmts_spec AllocSpec allocSpec_refl allocSpec_trans
  intro s hs st1
  simp only [Code.allocStmts, List.mem_cons, List.mem_singleton, List.not_mem_nil, or_false] at hs
  rcases hs with h | h | h <;> subst h
  · exact createCtx_alloc eng st1
  · exact allocSrc_alloc st1
  · exact allocDst_alloc st1

theorem push_param {ε : Type} (eng : Engine ε) (param : ZSTD_cParameter) (value : CEncoder → Nat)
    (st : St ε) :
    ParamSpec eng st (Code.push eng param value st).1 (Code.push eng param value st).2 := by
  unfold Code.push
  simp only []
  split_ifs with h
  · exact ⟨⟨[_], extends_emit _ _, by simp [Event.isSetup], by simp⟩, Or.inr rfl⟩
  · exact ⟨⟨[_], extends_emit _ _, by simp [Event.isSetup],
      by simpa [Event.isRejected] using h⟩, Or.inl rfl⟩

theorem pushIf_param {ε : Type} (eng : Engine ε) (cond : CEncoder → Bool)
    (param : ZSTD_cParameter) (value : CEncoder → Nat) (st : St ε) :
    ParamSpec eng st (Code.pushIf eng cond param value st).1
      (Code.pushIf eng cond param value st).2 := by
  unfold Code.pushIf
  split_ifs
  · exact push_param eng param value st
  · exact paramSpec_refl eng st

theorem resolveLong_param {ε : Type} (eng : Engine ε) (st : St ε) :
    ParamSpec eng st (Code.resolveLong st).1 (Code.resolveLong st).2 := by
  unfold Code.resolveLong
  split_ifs
  · exact ⟨⟨[], by simp [Extends], by simp, by simp⟩, Or.inl rfl⟩
  · exact paramSpec_refl eng st

theorem paramStmts_spec {ε : Type} (eng : Engine ε) (st : St ε) :
    ParamSpec eng st (runStmts (Code.paramStmts eng) st).1 (runStmts (Code.paramStmts eng) st).2 := by
  apply runStmts_spec (ParamSpec eng) (paramSpec_refl eng) (paramSpec_trans eng)
  intro s hs st1
  simp only [Code.paramStmts, List.mem_cons, List.mem_singleton, List.not_mem_nil, or_false] at hs
  rcases hs with h | h | h | h | h | h | h | h | h | h | h | h | h | h | h | h | h <;> subst h
  all_goals first
    | exact push_param eng _ _ st1
    | exact pushIf_param eng _ _ _ st1
    | exact resolveLong_param eng st1

theorem createCtx_frame {ε : Type} (eng : Engine ε) (st : St ε) :
    SessionFrame st (Code.createCtx eng st).1 (Code.createCtx eng st).2 := by
  unfold Code.createCtx
  simp only []
  split_ifs <;>
    exact ⟨rfl, rfl, rfl, rfl, rfl, rfl, rfl, rfl, rfl, [_], extends_emit _ _,
      by simp [Event.isSetup]⟩

theorem allocSrc_frame {ε : Type} (st : St ε) :
    SessionFrame st (Code.allocSrc st).1 (Code.allocSrc st).2 := by
  unfold Code.allocSrc MyAlloc
  simp only []
  split_ifs <;>
    exact ⟨rfl, rfl, rfl, rfl, rfl, rfl, rfl, rfl, rfl, [_], extends_emit _ _,
      by simp [Event.isSetup]⟩

theorem allocDst_frame {ε : Type} (st : St ε) :
    SessionFrame st (Code.allocDst st).1 (Code.allocDst st).2 := by
  unfold Code.allocDst MyAlloc
  simp only []
  split_ifs <;>
    exact ⟨rfl, rfl, rfl, rfl, rfl, rfl, rfl, rfl, rfl, [_], extends_emit _ _,
      by simp [Event.isSetup]⟩

theorem push_frame {ε : Type} (eng : Engine ε) (param : ZSTD_cParameter) (value : CEncoder → Nat)
    (st : St ε) :
    SessionFrame st (Code.push eng param value st).1 (Code.push eng param value st).2 := by
  unfold Code.push
  simp only []
  split_ifs <;>
    exact ⟨rfl, rfl, rfl, rfl, rfl, rfl, rfl, rfl, rfl, [_], extends_emit _ _,
      by simp [Event.isSetup]⟩

theorem pushIf_frame {ε : Type} (eng : Engine ε) (cond : CEncoder → Bool)
    (param : ZSTD_cParameter) (value : CEncoder → Nat) (st : St ε) :
    SessionFrame st (Code.pushIf eng cond param value st).1
      (Code.pushIf eng cond param value st).2 := by
  unfold Code.pushIf
  split_ifs
  · exact push_frame eng param value st
  · exact sessionFrame_refl st

theorem resolveLong_frame {ε : Type} (st : St ε) :
    SessionFrame st (Code.resolveLong st).1 (Code.resolveLong st).2 := by
  unfold Code.resolveLong
  split_ifs
  · exact ⟨rfl, rfl, rfl, rfl, rfl, rfl, rfl, rfl, rfl, [], by simp [Extends], by simp⟩
  · exact sessionFrame_refl st

/-- Session construction leaves the streams, their scripts, the counters and
the buffer sizes alone and adds setup events only. -/
theorem session_frame {ε : Type} (eng : Engine ε) (st : St ε) :
    SessionFrame st (Code.session eng st).1 (Code.session eng st).2 := by
  unfold Code.session
  split_ifs
  · apply runStmts_spec SessionFrame sessionFrame_refl sessionFrame_trans
    intro s hs st1
    simp only [Code.allocStmts, Code.paramStmts, List.cons_append, List.nil_append, List.mem_cons,
      List.mem_singleton, List.not_mem_nil, or_false] at hs
    rcases hs with h | h | h | h | h | h | h | h | h | h | h | h | h | h | h | h | h | h | h | h
      <;> subst h
    all_goals first
      | exact createCtx_frame eng st1
      | exact allocSrc_frame st1
      | exact allocDst_frame st1
      | exact push_frame eng _ _ st1
      | exact pushIf_frame eng _ _ _ st1
      | exact resolveLong_frame st1
  · exact sessionFrame_refl st

/-! ## Theorems: the streaming loop -/

theorem compressCalls_append (xs ys : List Event) :
    compressCalls (xs ++ ys) = compressCalls xs ++ compressCalls ys := by
  induction xs with
  | nil => rfl
  | cons ev rest ih => cases ev <;> simp [compressCalls, ih]

theorem compressCalls_of_setup (xs : List Event) (h : ∀ ev ∈ xs, ev.isSetup = true) :
    compressCalls xs = [] := by
  induction xs with
  | nil => rfl
  | cons ev rest ih =>
    have h1 := h ev (List.mem_cons_self _ _)
    have h2 := ih (fun ev hev => h ev (List.mem_cons_of_mem _ hev))
    cases ev <;> simp_all [compressCalls, Event.isSetup]

theorem loop_zero {ε : Type} (eng : Engine ε) (inner : Bool) (L : Locals) (st : St ε) :
    Code.loop eng 0 inner L st = (none, st) := by
  cases inner <;> rfl

theorem loop_read {ε : Type} (eng : Engine ε) (fuel : Nat) (L : Locals) (st : St ε) :
    Code.loop eng (fuel + 1) false L st =
      match Code.readChunk L st with
      | (some hr, _, st1) => (some hr, st1)
      | (none, L1, st1) => Code.loop eng fuel true L1 st1 := rfl

theorem loop_compress {ε : Type} (eng : Engine ε) (fuel : Nat) (L : Locals) (st : St ε) :
    Code.loop eng (fuel + 1) true L st =
      match Code.compressChunk eng L st with
      | (.ret hr, st1) => (some hr, st1)
      | (.more, st1) => Code.loop eng fuel false L st1
      | (.again, st1) => Code.loop eng fuel true L st1 := rfl


/-- A read step whose source fails returns the failure code and adds the read
event only. -/
theorem readChunk_fail {ε : Type} (L : Locals) (st : St ε)
    (h : scriptHead st.world.readResults ≠ S_OK) :
    (Code.readChunk L st).1 = some (scriptHead st.world.readResults) ∧
    (Code.readChunk L st).2.2.enc = st.enc ∧
    (Code.readChunk L st).2.2.world = { st.world with
      readResults := st.world.readResults.tail,
      trace := st.world.trace ++ [.read st.enc._srcBufSize (scriptHead st.world.readResults) 0] } := by
  simp [Code.readChunk, ReadStream, h, St.emit]

/-- A read step whose source succeeds: the chunk, the directive, the counter
and the events. -/
theorem readChunk_ok {ε : Type} (L : Locals) (st : St ε)
    (h : scriptHead st.world.readResults = S_OK) :
    (Code.readChunk L st).1 = none ∧
    (Code.readChunk L st).2.1 =
      { ZSTD_todo := if (st.world.inStream.take st.enc._srcBufSize).length = 0
          then .ZSTD_e_end else L.ZSTD_todo,
        srcSize := (st.world.inStream.take st.enc._srcBufSize).length,
        srcBuf := st.world.inStream.take st.enc._srcBufSize } ∧
    (Code.readChunk L st).2.2.enc = { st.enc with
      _processedIn := (st.enc._processedIn + (st.world.inStream.take st.enc._srcBufSize).length)
        % 18446744073709551616,
      _hMutex := st.enc._hMutex + 1 - 1 } ∧
    (Code.readChunk L st).2.2.world = { st.world with
      readResults := st.world.readResults.tail,
      inStream := st.world.inStream.drop st.enc._srcBufSize,
      trace := st.world.trace ++
        [.read st.enc._srcBufSize S_OK (st.world.inStream.take st.enc._srcBufSize).length,
         .wait,
         .processedIn ((st.enc._processedIn + (st.world.inStream.take st.enc._srcBufSize).length)
            % 18446744073709551616),
         .release] } := by
  simp [Code.readChunk, ReadStream, h, St.emit, WaitForSingleObject, ReleaseMutex]

/-- A pass whose engine call reports an error. -/
theorem compressChunk_error {ε : Type} (eng : Engine ε) (L : Locals) (st : St ε)
    (hE : eng.ZSTD_isError (Code.callEngine eng L st).1.err = true) :
    (Code.compressChunk eng L st).1 = .ret E_FAIL ∧
    (Code.compressChunk eng L st).2.enc = st.enc ∧
    (Code.compressChunk eng L st).2.world = { st.world with
      engine := (Code.callEngine eng L st).2,
      trace := st.world.trace ++
        [.compress (Code.inBuff L) L.ZSTD_todo (Code.callEngine eng L st).1] } := by
  simp [Code.compressChunk, hE, St.emit]

/-- A pass whose engine call produces no output. -/
theorem compressChunk_quiet {ε : Type} (eng : Engine ε) (L : Locals) (st : St ε)
    (hE : eng.ZSTD_isError (Code.callEngine eng L st).1.err = false)
    (hD : (Code.callEngine eng L st).1.dst = []) :
    (Code.compressChunk eng L st).1 = Code.next L (Code.callEngine eng L st).1 ∧
    (Code.compressChunk eng L st).2.enc = st.enc ∧
    (Code.compressChunk eng L st).2.world = { st.world with
      engine := (Code.callEngine eng L st).2,
      trace := st.world.trace ++
        [.compress (Code.inBuff L) L.ZSTD_todo (Code.callEngine eng L st).1] } := by
  simp [Code.compressChunk, Code.writeOutput, hE, hD, St.emit]

/-- A pass whose output the sink refuses. -/
theorem compressChunk_writeFail {ε : Type} (eng : Engine ε) (L : Locals) (st : St ε)
    (hE : eng.ZSTD_isError (Code.callEngine eng L st).1.err = false)
    (hD : (Code.callEngine eng L st).1.dst ≠ [])
    (hW : scriptHead st.world.writeResults ≠ S_OK) :
    (Code.compressChunk eng L st).1 = .ret (scriptHead st.world.writeResults) ∧
    (Code.compressChunk eng L st).2.enc = st.enc ∧
    (Code.compressChunk eng L st).2.world = { st.world with
      engine := (Code.callEngine eng L st).2,
      writeResults := st.world.writeResults.tail,
      trace := st.world.trace ++
        [.compress (Code.inBuff L) L.ZSTD_todo (Code.callEngine eng L st).1,
         .write (Code.callEngine eng L st).1.dst (scriptHead st.world.writeResults)] } := by
  simp [Code.compressChunk, Code.writeOutput, WriteStream, hE, hD, hW, St.emit]

/-- A pass whose progress report fails: the mutex is still held. -/
theorem compressChunk_progressFail {ε : Type} (eng : Engine ε) (L : Locals) (st : St ε)
    (hE : eng.ZSTD_isError (Code.callEngine eng L st).1.err = false)
    (hD : (Code.callEngine eng L st).1.dst ≠ [])
    (hW : scriptHead st.world.writeResults = S_OK)
    (hP : scriptHead st.world.progressResults ≠ S_OK) :
    (Code.compressChunk eng L st).1 = .ret (scriptHead st.world.progressResults) ∧
    (Code.compressChunk eng L st).2.enc = { st.enc with
      _processedOut := (st.enc._processedOut + (Code.callEngine eng L st).1.dst.length)
        % 18446744073709551616,
      _hMutex := st.enc._hMutex + 1 } ∧
    (Code.compressChunk eng L st).2.world = { st.world with
      engine := (Code.callEngine eng L st).2,
      writeResults := st.world.writeResults.tail,
      outStream := st.world.outStream ++ (Code.callEngine eng L st).1.dst,
      progressResults := st.world.progressResults.tail,
      trace := st.world.trace ++
        [.compress (Code.inBuff L) L.ZSTD_todo (Code.callEngine eng L st).1,
         .write (Code.callEngine eng L st).1.dst S_OK,
         .wait,
         .processedOut ((st.enc._processedOut + (Code.callEngine eng L st).1.dst.length)
            % 18446744073709551616),
         .setRatioInfo st.enc._processedIn
            ((st.enc._processedOut + (Code.callEngine eng L st).1.dst.length)
              % 18446744073709551616) (scriptHead st.world.progressResults)] } := by
  simp [Code.compressChunk, Code.writeOutput, WriteStream, SetRatioInfo, WaitForSingleObject,
    hE, hD, hW, hP, St.emit]

/-- A pass whose output is written and reported. -/
theorem compressChunk_ok {ε : Type} (eng : Engine ε) (L : Locals) (st : St ε)
    (hE : eng.ZSTD_isError (Code.callEngine eng L st).1.err = false)
    (hD : (Code.callEngine eng L st).1.dst ≠ [])
    (hW : scriptHead st.world.writeResults = S_OK)
    (hP : scriptHead st.world.progressResults = S_OK) :
    (Code.compressChunk eng L st).1 = Code.next L (Code.callEngine eng L st).1 ∧
    (Code.compressChunk eng L st).2.enc = { st.enc with
      _processedOut := (st.enc._processedOut + (Code.callEngine eng L st).1.dst.length)
        % 18446744073709551616,
      _hMutex := st.enc._hMutex + 1 - 1 } ∧
    (Code.compressChunk eng L st).2.world = { st.world with
      engine := (Code.callEngine eng L st).2,
      writeResults := st.world.writeResults.tail,
      outStream := st.world.outStream ++ (Code.callEngine eng L st).1.dst,
      progressResults := st.world.progressResults.tail,
      trace := st.world.trace ++
        [.compress (Code.inBuff L) L.ZSTD_todo (Code.callEngine eng L st).1,
         .write (Code.callEngine eng L st).1.dst S_OK,
         .wait,
         .processedOut ((st.enc._processedOut + (Code.callEngine eng L st).1.dst.length)
            % 18446744073709551616),
         .setRatioInfo st.enc._processedIn
            ((st.enc._processedOut + (Code.callEngine eng L st).1.dst.length)
              % 18446744073709551616) S_OK,
         .release] } := by
  simp [Code.compressChunk, Code.writeOutput, WriteStream, SetRatioInfo, WaitForSingleObject,
    ReleaseMutex, hE, hD, hW, hP, St.emit]

theorem next_ret (L : Locals) (res : CompressResult) (hr : HRESULT)
    (h : Code.next L res = .ret hr) :
    hr = S_OK ∧ L.ZSTD_todo = .ZSTD_e_end ∧ res.err = 0 := by
  unfold Code.next at h
  split_ifs at h with h1 h2
  · exact ⟨by injection h with h; exact h.symm, h1.1, h1.2⟩

/-- Events of one read step: none of them is a setup event or an engine call. -/
theorem readChunk_extends {ε : Type} (L : Locals) (st : St ε) :
    ∃ evs, Extends st (Code.readChunk L st).2.2 evs ∧ (∀ ev ∈ evs, ev.isSetup = false) ∧
      compressCalls evs = [] := by
  by_cases h : scriptHead st.world.readResults = S_OK
  · obtain ⟨_, _, _, hw⟩ := readChunk_ok L st h
    refine ⟨?_, ?_, ?_, ?_⟩
    rotate_left
    · exact congrArg World.trace hw
    · simp [Event.isSetup]
    · rfl
  · obtain ⟨_, _, hw⟩ := readChunk_fail L st h
    refine ⟨?_, ?_, ?_, ?_⟩
    rotate_left
    · exact congrArg World.trace hw
    · simp [Event.isSetup]
    · rfl

/-- Events of one pass of the inner loop: none of them is a setup event, and
exactly one is an engine call, on the descriptor and directive of the pass. -/
theorem compressChunk_extends {ε : Type} (eng : Engine ε) (L : Locals) (st : St ε) :
    ∃ evs, Extends st (Code.compressChunk eng L st).2 evs ∧ (∀ ev ∈ evs, ev.isSetup = false) ∧
      compressCalls evs = [(Code.inBuff L, L.ZSTD_todo)] := by
  by_cases hE : eng.ZSTD_isError (Code.callEngine eng L st).1.err = true
  · obtain ⟨_, _, hw⟩ := compressChunk_error eng L st hE
    refine ⟨?_, ?_, ?_, ?_⟩
    rotate_left
    · exact congrArg World.trace hw
    · simp [Event.isSetup]
    · rfl
  have hE : eng.ZSTD_isError (Code.callEngine eng L st).1.err = false := by simpa using hE
  by_cases hD : (Code.callEngine eng L st).1.dst = []
  · obtain ⟨_, _, hw⟩ := compressChunk_quiet eng L st hE hD
    refine ⟨?_, ?_, ?_, ?_⟩
    rotate_left
    · exact congrArg World.trace hw
    · simp [Event.isSetup]
    · rfl
  by_cases hW : scriptHead st.world.writeResults = S_OK
  · by_cases hP : scriptHead st.world.progressResults = S_OK
    · obtain ⟨_, _, hw⟩ := compressChunk_ok eng L st hE hD hW hP
      refine ⟨?_, ?_, ?_, ?_⟩
      rotate_left
      · exact congrArg World.trace hw
      · simp [Event.isSetup]
      · rfl
    · obtain ⟨_, _, hw⟩ := compressChunk_progressFail eng L st hE hD hW hP
      refine ⟨?_, ?_, ?_, ?_⟩
      rotate_left
      · exact congrArg World.trace hw
      · simp [Event.isSetup]
      · rfl
  · obtain ⟨_, _, hw⟩ := compressChunk_writeFail eng L st hE hD hW
    refine ⟨?_, ?_, ?_, ?_⟩
    rotate_left
    · exact congrArg World.trace hw
    · simp [Event.isSetup]
    · rfl

/-- The streaming loop adds no setup event to the trace, whatever the fuel. -/
theorem loop_extends {ε : Type} (eng : Engine ε) (fuel : Nat) (inner : Bool) (L : Locals)
    (st : St ε) :
    ∃ evs, Extends st (Code.loop eng fuel inner L st).2 evs ∧ ∀ ev ∈ evs, ev.isSetup = false := by
  induction fuel generalizing inner L st with
  | zero => rw [loop_zero]; exact ⟨[], extends_refl st, by simp⟩
  | succ fuel ih =>
    cases inner with
    | false =>
      rw [loop_read]
      obtain ⟨x, hx, hxs, _⟩ := readChunk_extends L st
      rcases hr : Code.readChunk L st with ⟨r, L1, st1⟩
      rw [hr] at hx
      cases r with
      | some hr => exact ⟨x, hx, hxs⟩
      | none =>
        obtain ⟨y, hy, hys⟩ := ih true L1 st1
        refine ⟨x ++ y, extends_trans hx hy, ?_⟩
        intro ev hev
        rcases List.mem_append.mp hev with h | h
        · exact hxs ev h
        · exact hys ev h
    | true =>
      rw [loop_compress]
      obtain ⟨x, hx, hxs, _⟩ := compressChunk_extends eng L st
      rcases hr : Code.compressChunk eng L st with ⟨nx, st1⟩
      rw [hr] at hx
      cases nx with
      | ret hr => exact ⟨x, hx, hxs⟩
      | more =>
        obtain ⟨y, hy, hys⟩ := ih false L st1
        refine ⟨x ++ y, extends_trans hx hy, ?_⟩
        intro ev hev
        rcases List.mem_append.mp hev with h | h
        · exact hxs ev h
        · exact hys ev h
      | again =>
        obtain ⟨y, hy, hys⟩ := ih true L st1
        refine ⟨x ++ y, extends_trans hx hy, ?_⟩
        intro ev hev
        rcases List.mem_append.mp hev with h | h
        · exact hxs ev h
        · exact hys ev h


theorem isRejected_of_not_param {ε : Type} (eng : Engine ε) (ev : Event)
    (h : ev.isParam = false) : ev.isRejected eng = false := by
  cases ev <;> simp_all [Event.isParam, Event.isRejected]

theorem not_stream_of_setup (ev : Event) (h : ev.isSetup = true) :
    ev.isRead = false ∧ ev.isCompress = false ∧ ev.isWrite = false := by
  cases ev <;> simp_all [Event.isSetup, Event.isRead, Event.isCompress, Event.isWrite]

/-- The outcomes of session construction: it falls through with every pushed
parameter accepted, or fails on an allocation before any push, or fails with
`E_INVALIDARG`; it adds setup events only. -/
theorem session_cases {ε : Type} (eng : Engine ε) (st : St ε) :
    ∃ evs, Extends st (Code.session eng st).2 evs ∧ (∀ ev ∈ evs, ev.isSetup = true) ∧
      (((Code.session eng st).1 = none ∧ ∀ ev ∈ evs, ev.isRejected eng = false) ∨
       ((Code.session eng st).1 = some E_OUTOFMEMORY ∧ ∀ ev ∈ evs, ev.isParam = false) ∨
       (Code.session eng st).1 = some E_INVALIDARG) := by
  unfold Code.session
  split_ifs
  · rw [runStmts_append]
    obtain ⟨⟨x, hx, hxs⟩, hxr⟩ := allocStmts_spec eng st
    rcases ha : runStmts (Code.allocStmts eng) st with ⟨r, st1⟩
    rw [ha] at hx hxr
    cases r with
    | some hr =>
      simp only [] at hxr ⊢
      rcases hxr with h | h
      · exact absurd h (by simp)
      · exact ⟨x, hx, fun ev hev => (hxs ev hev).1, Or.inr (Or.inl ⟨h, fun ev hev => (hxs ev hev).2⟩)⟩
    | none =>
      simp only []
      obtain ⟨⟨y, hy, hys, hyr⟩, hres⟩ := paramStmts_spec eng st1
      refine ⟨x ++ y, extends_trans hx hy, ?_, ?_⟩
      · intro ev hev
        rcases List.mem_append.mp hev with h | h
        · exact (hxs ev h).1
        · exact hys ev h
      · rcases hres with h | h
        · left
          refine ⟨h, ?_⟩
          intro ev hev
          rcases List.mem_append.mp hev with h1 | h1
          · exact isRejected_of_not_param eng ev (hxs ev h1).2
          · exact hyr h ev h1
        · right; right; exact h
  · exact ⟨[], extends_refl st, by simp, Or.inl ⟨rfl, by simp⟩⟩

/-- C8: if the engine rejects a parameter during first-use configuration,
`Code` fails with `E_INVALIDARG`, and up to that point it has made no read of
the input source, no engine compress call and no write to the output sink. -/
theorem Code_rejected_parameter {ε : Type} (eng : Engine ε) (fuel : Nat) (st : St ε)
    (evs : List Event) (param : ZSTD_cParameter) (value err : Nat)
    (htrace : (Code eng fuel st).2.world.trace = st.world.trace ++ evs)
    (hmem : Event.setParameter param value err ∈ evs)
    (herr : eng.ZSTD_isError err = true) :
    (Code eng fuel st).1 = some E_INVALIDARG ∧
    ∀ ev ∈ evs, ev.isRead = false ∧ ev.isCompress = false ∧ ev.isWrite = false := by
  obtain ⟨x, hx, hxs, hcases⟩ := session_cases eng st
  have htrace : Extends st (Code eng fuel st).2 evs := htrace
  unfold Code at htrace ⊢
  rcases hs : Code.session eng st with ⟨r, st1⟩
  rw [hs] at hx hcases htrace
  cases r with
  | some hr =>
    simp only [] at hcases htrace ⊢
    have hev : evs = x := extends_unique htrace hx
    subst hev
    rcases hcases with ⟨h, _⟩ | ⟨_, h⟩ | h
    · exact absurd h (by simp)
    · have := h _ hmem
      simp [Event.isParam] at this
    · exact ⟨h, fun ev hev => not_stream_of_setup ev (hxs ev hev)⟩
  | none =>
    simp only [] at hcases htrace ⊢
    obtain ⟨y, hy, hys⟩ := loop_extends eng fuel false Locals.entry st1
    have hev : evs = x ++ y := extends_unique htrace (extends_trans hx hy)
    subst hev
    exfalso
    rcases hcases with ⟨_, h⟩ | ⟨h, _⟩ | h
    · rcases List.mem_append.mp hmem with h1 | h1
      · have := h _ h1
        simp [Event.isRejected, herr] at this
      · have := hys _ h1
        simp [Event.isSetup] at this
    · exact absurd h (by simp)
    · exact absurd h (by simp)

/-- Witness of C8: a fresh encoder on an engine that refuses the worker-thread
parameter. -/
theorem Code_rejected_parameter_witness :
    (Code singleThreadEngine 5 ⟨CEncoder.new zstdConsts, echoWorld [1, 2, 3]⟩).1
      = some E_INVALIDARG ∧
    ∀ ev ∈ [Event.createCCtx true, Event.alloc 131072 true, Event.alloc 131591 true,
        Event.setParameter ZSTD_cParameter.ZSTD_p_compressionLevel 3 0,
        Event.setParameter ZSTD_cParameter.ZSTD_p_nbWorkers 4 2000],
      ev.isRead = false ∧ ev.isCompress = false ∧ ev.isWrite = false :=
  Code_rejected_parameter singleThreadEngine 5 ⟨CEncoder.new zstdConsts, echoWorld [1, 2, 3]⟩
    [Event.createCCtx true, Event.alloc 131072 true, Event.alloc 131591 true,
      Event.setParameter ZSTD_cParameter.ZSTD_p_compressionLevel 3 0,
      Event.setParameter ZSTD_cParameter.ZSTD_p_nbWorkers 4 2000]
    ZSTD_cParameter.ZSTD_p_nbWorkers 4 2000 (by decide) (by decide) (by decide)

/-- The statement that resolves the long-distance toggle does nothing while
the toggle holds the constructor's sentinel, whatever the window log. -/
theorem resolveLong_unset {ε : Type} (st : St ε) (h : st.enc._Long = -1) :
    Code.resolveLong st = (none, st) := by
  simp [Code.resolveLong, h]

/-- C5: a fresh encoder whose window log is configured to 28 and whose
long-distance toggle is never supplied keeps `_Long = -1`, and the first-use
configuration pushes level, workers, content-size flag and window log only: the
long-distance-matching parameter is not pushed. -/
theorem Code_no_implicit_long :
    (SetCoderProperties zstdConsts (CEncoder.new zstdConsts)
      [(PROPID.kWindowLog, ⟨VT_UI4, 28⟩)]).2._WindowLog = 28 ∧
    (SetCoderProperties zstdConsts (CEncoder.new zstdConsts)
      [(PROPID.kWindowLog, ⟨VT_UI4, 28⟩)]).2._Long = -1 ∧
    (Code echoEngine 4
      ⟨(SetCoderProperties zstdConsts (CEncoder.new zstdConsts)
        [(PROPID.kWindowLog, ⟨VT_UI4, 28⟩)]).2, echoWorld []⟩).1 = some S_OK ∧
    (Code echoEngine 4
      ⟨(SetCoderProperties zstdConsts (CEncoder.new zstdConsts)
        [(PROPID.kWindowLog, ⟨VT_UI4, 28⟩)]).2, echoWorld []⟩).2.world.trace.filter Event.isParam
      = [Event.setParameter ZSTD_cParameter.ZSTD_p_compressionLevel 3 0,
         Event.setParameter ZSTD_cParameter.ZSTD_p_nbWorkers 4 0,
         Event.setParameter ZSTD_cParameter.ZSTD_p_contentSizeFlag 1 0,
         Event.setParameter ZSTD_cParameter.ZSTD_p_windowLog 28 0] := by
  decide


/-- What a read step does to the quantities the counters are measured against. -/
theorem readChunk_counts {ε : Type} (L : Locals) (st : St ε) :
    (Code.readChunk L st).2.2.enc._srcBufSize = st.enc._srcBufSize ∧
    (Code.readChunk L st).2.2.enc._processedOut = st.enc._processedOut ∧
    (Code.readChunk L st).2.2.world.outStream = st.world.outStream ∧
    (∀ hr, (Code.readChunk L st).1 = some hr → hr ≠ S_OK) ∧
    ((Code.readChunk L st).1 = none →
      (Code.readChunk L st).2.2.enc._processedIn =
        (st.enc._processedIn + (st.world.inStream.take st.enc._srcBufSize).length)
          % 18446744073709551616 ∧
      (Code.readChunk L st).2.2.world.inStream = st.world.inStream.drop st.enc._srcBufSize ∧
      (Code.readChunk L st).2.1.ZSTD_todo =
        if (st.world.inStream.take st.enc._srcBufSize).length = 0 then .ZSTD_e_end
        else L.ZSTD_todo) := by
  by_cases h : scriptHead st.world.readResults = S_OK
  · obtain ⟨h1, h2, h3, h4⟩ := readChunk_ok L st h
    rw [h1, h2, h3, h4]
    simp
  · obtain ⟨h1, h3, h4⟩ := readChunk_fail L st h
    rw [h1, h3, h4]
    simp [h]

/-- What one pass of the inner loop does to the quantities the counters are
measured against. -/
theorem compressChunk_counts {ε : Type} (eng : Engine ε) (L : Locals) (st : St ε) :
    (Code.compressChunk eng L st).2.enc._srcBufSize = st.enc._srcBufSize ∧
    (Code.compressChunk eng L st).2.enc._processedIn = st.enc._processedIn ∧
    (Code.compressChunk eng L st).2.world.inStream = st.world.inStream ∧
    ((Code.compressChunk eng L st).1 = .ret S_OK → L.ZSTD_todo = .ZSTD_e_end) ∧
    ∃ out, (Code.compressChunk eng L st).2.world.outStream = st.world.outStream ++ out ∧
      (st.enc._processedOut < 18446744073709551616 →
        (Code.compressChunk eng L st).2.enc._processedOut =
          (st.enc._processedOut + out.length) % 18446744073709551616) := by
  by_cases hE : eng.ZSTD_isError (Code.callEngine eng L st).1.err = true
  · obtain ⟨h1, h2, h3⟩ := compressChunk_error eng L st hE
    rw [h1, h2, h3]
    refine ⟨rfl, rfl, rfl, by simp [E_FAIL, S_OK], [], by simp, ?_⟩
    intro h; simp; omega
  have hE : eng.ZSTD_isError (Code.callEngine eng L st).1.err = false := by simpa using hE
  by_cases hD : (Code.callEngine eng L st).1.dst = []
  · obtain ⟨h1, h2, h3⟩ := compressChunk_quiet eng L st hE hD
    rw [h1, h2, h3]
    refine ⟨rfl, rfl, rfl, fun h => (next_ret _ _ _ h).2.1, [], by simp, ?_⟩
    intro h; simp; omega
  by_cases hW : scriptHead st.world.writeResults = S_OK
  · by_cases hP : scriptHead st.world.progressResults = S_OK
    · obtain ⟨h1, h2, h3⟩ := compressChunk_ok eng L st hE hD hW hP
      rw [h1, h2, h3]
      exact ⟨rfl, rfl, rfl, fun h => (next_ret _ _ _ h).2.1, _, rfl, fun _ => rfl⟩
    · obtain ⟨h1, h2, h3⟩ := compressChunk_progressFail eng L st hE hD hW hP
      rw [h1, h2, h3]
      refine ⟨rfl, rfl, rfl, ?_, _, rfl, fun _ => rfl⟩
      intro h; injection h with h; exact absurd h hP
  · obtain ⟨h1, h2, h3⟩ := compressChunk_writeFail eng L st hE hD hW
    rw [h1, h2, h3]
    refine ⟨rfl, rfl, rfl, ?_, [], by simp, ?_⟩
    · intro h; injection h with h; exact absurd h hW
    · intro h; simp; omega

/-- The counters along the streaming loop: when the loop returns `S_OK`, the
consumed counter has advanced by the input still to be delivered and the
produced counter by the bytes appended to the sink (both modulo `2^64`). -/
theorem loop_counts {ε : Type} (eng : Engine ε) (fuel : Nat) (inner : Bool) (L : Locals)
    (st : St ε) (hsz : 0 < st.enc._srcBufSize)
    (hend : L.ZSTD_todo = .ZSTD_e_end → st.world.inStream = [])
    (hpin : st.enc._processedIn < 18446744073709551616)
    (hpout : st.enc._processedOut < 18446744073709551616)
    (hres : (Code.loop eng fuel inner L st).1 = some S_OK) :
    (Code.loop eng fuel inner L st).2.enc._processedIn =
      (st.enc._processedIn + st.world.inStream.length) % 18446744073709551616 ∧
    ∃ out, (Code.loop eng fuel inner L st).2.world.outStream = st.world.outStream ++ out ∧
      (Code.loop eng fuel inner L st).2.enc._processedOut =
        (st.enc._processedOut + out.length) % 18446744073709551616 := by
  induction fuel generalizing inner L st with
  | zero => rw [loop_zero] at hres; simp at hres
  | succ fuel ih =>
    cases inner with
    | false =>
      rw [loop_read] at hres ⊢
      obtain ⟨c1, c2, c3, c4, c5⟩ := readChunk_counts L st
      rcases hr : Code.readChunk L st with ⟨r, L1, st1⟩
      rw [hr] at hres c1 c2 c3 c4 c5
      cases r with
      | some hr1 =>
        simp only [Option.some.injEq] at hres
        exact absurd hres (c4 hr1 rfl)
      | none =>
        simp only [] at hres c1 c2 c3 c5 ⊢
        obtain ⟨d1, d2, d3⟩ := c5 trivial
        have hlen : (st.world.inStream.take st.enc._srcBufSize).length
            + (st.world.inStream.drop st.enc._srcBufSize).length = st.world.inStream.length := by
          rw [List.length_take, List.length_drop]; omega
        have hend1 : L1.ZSTD_todo = .ZSTD_e_end → st1.world.inStream = [] := by
          intro h
          rw [d2]
          by_cases h0 : (st.world.inStream.take st.enc._srcBufSize).length = 0
          · rw [List.length_take] at h0
            have : st.world.inStream.length = 0 := by omega
            rw [List.length_eq_zero] at this
            rw [this, List.drop_nil]
          · rw [d3, if_neg h0] at h
            rw [hend h, List.drop_nil]
        obtain ⟨e1, out, e2, e3⟩ := ih true L1 st1 (by rw [c1]; exact hsz) hend1
          (by rw [d1]; exact Nat.mod_lt _ (by norm_num)) (by rw [c2]; exact hpout) hres
        refine ⟨?_, out, ?_, ?_⟩
        · rw [e1, d1, d2]; omega
        · rw [e2, c3]
        · rw [e3, c2]
    | true =>
      rw [loop_compress] at hres ⊢
      obtain ⟨c1, c2, c3, c4, out1, c5, c6⟩ := compressChunk_counts eng L st
      rcases hr : Code.compressChunk eng L st with ⟨nx, st1⟩
      rw [hr] at hres c1 c2 c3 c4 c5 c6
      have c7 := c6 hpout
      clear c6
      cases nx with
      | ret hr1 =>
        simp only [Option.some.injEq] at hres c1 c2 c3 c4 c5 c7 ⊢
        subst hres
        have hnil := hend (c4 rfl)
        refine ⟨?_, out1, c5, c7⟩
        rw [c2, hnil]; simp; omega
      | more =>
        simp only [] at hres c1 c2 c3 c5 c7 ⊢
        obtain ⟨e1, out, e2, e3⟩ := ih false L st1 (by rw [c1]; exact hsz)
          (fun h => by rw [c3]; exact hend h) (by rw [c2]; exact hpin)
          (by rw [c7]; exact Nat.mod_lt _ (by norm_num)) hres
        refine ⟨?_, out1 ++ out, ?_, ?_⟩
        · rw [e1, c2, c3]
        · rw [e2, c5, List.append_assoc]
        · rw [e3, c7, List.length_append]; omega
      | again =>
        simp only [] at hres c1 c2 c3 c5 c7 ⊢
        obtain ⟨e1, out, e2, e3⟩ := ih true L st1 (by rw [c1]; exact hsz)
          (fun h => by rw [c3]; exact hend h) (by rw [c2]; exact hpin)
          (by rw [c7]; exact Nat.mod_lt _ (by norm_num)) hres
        refine ⟨?_, out1 ++ out, ?_, ?_⟩
        · rw [e1, c2, c3]
        · rw [e2, c5, List.append_assoc]
        · rw [e3, c7, List.length_append]; omega

/-- Session construction never returns `S_OK`: it falls through or fails. -/
theorem session_not_ok {ε : Type} (eng : Engine ε) (st : St ε) :
    (Code.session eng st).1 ≠ some S_OK := by
  obtain ⟨_, _, _, h⟩ := session_cases eng st
  rcases h with ⟨h, _⟩ | ⟨h, _⟩ | h <;> rw [h] <;> simp [S_OK, E_OUTOFMEMORY, E_INVALIDARG]

/-- C6: for an encoder whose counters are zero (a fresh encoder) and an input
stream of `N` bytes, if `Code` returns `S_OK` then the consumed-bytes counter
is exactly `N` and the produced-bytes counter is exactly the number of bytes
appended to the output sink, whatever the engine does. -/
theorem Code_counters {ε : Type} (eng : Engine ε) (fuel : Nat) (st : St ε) (out : List Nat)
    (hsz : 0 < st.enc._srcBufSize)
    (hpin : st.enc._processedIn = 0) (hpout : st.enc._processedOut = 0)
    (hN : st.world.inStream.length < 18446744073709551616)
    (hres : (Code eng fuel st).1 = some S_OK)
    (hout : (Code eng fuel st).2.world.outStream = st.world.outStream ++ out)
    (hW : out.length < 18446744073709551616) :
    (Code eng fuel st).2.enc._processedIn = st.world.inStream.length ∧
    (Code eng fuel st).2.enc._processedOut = out.length := by
  have hs := session_not_ok eng st
  obtain ⟨f1, _, f3, _, _, f6, f7, f8, _, _⟩ := session_frame eng st
  unfold Code at hres hout ⊢
  rcases hx : Code.session eng st with ⟨r, st1⟩
  rw [hx] at hres hout hs f1 f3 f6 f7 f8
  cases r with
  | some hr => exact absurd hres hs
  | none =>
    simp only [] at hres hout f1 f3 f6 f7 f8 ⊢
    obtain ⟨e1, out1, e2, e3⟩ := loop_counts eng fuel false Locals.entry st1
      (by rw [f8]; exact hsz) (by intro h; exact absurd h (by simp [Locals.entry]))
      (by rw [f6, hpin]; norm_num) (by rw [f7, hpout]; norm_num) hres
    rw [e2, f3] at hout
    have : out1 = out := List.append_cancel_left hout
    subst this
    rw [e1, e3, f1, f6, f7, hpin, hpout]
    constructor <;> omega

/-- Witness of C6: three bytes streamed in chunks of two through an engine
that emits one byte per call. -/
theorem Code_counters_witness :
    (Code echoEngine 10
      ⟨{ CEncoder.new zstdConsts with _srcBufSize := 2 }, echoWorld [1, 2, 3]⟩).2.enc._processedIn
        = [1, 2, 3].length ∧
    (Code echoEngine 10
      ⟨{ CEncoder.new zstdConsts with _srcBufSize := 2 }, echoWorld [1, 2, 3]⟩).2.enc._processedOut
        = [0, 1, 2].length :=
  Code_counters echoEngine 10 ⟨{ CEncoder.new zstdConsts with _srcBufSize := 2 }, echoWorld [1, 2, 3]⟩
    [0, 1, 2] (by decide) (by decide) (by decide) (by decide) (by decide) (by decide) (by decide)


theorem scriptHead_clean (rs : List HRESULT) (h : ∀ hr ∈ rs, hr = S_OK) : scriptHead rs = S_OK := by
  cases rs with
  | nil => rfl
  | cons a t => exact h a (List.mem_cons_self _ _)

theorem tail_clean (rs : List HRESULT) (h : ∀ hr ∈ rs, hr = S_OK) : ∀ hr ∈ rs.tail, hr = S_OK :=
  fun hr hm => h hr (List.mem_of_mem_tail hm)

theorem inBuff_finish (L : Locals) (h1 : L.ZSTD_todo = .ZSTD_e_end) (h2 : L.srcSize = 0) :
    Code.inBuff L = finishBuff := by
  simp [Code.inBuff, finishBuff, h1, h2]

theorem callEngine_finish {ε : Type} (eng : Engine ε) (L : Locals) (st : St ε)
    (h1 : L.ZSTD_todo = .ZSTD_e_end) (h2 : L.srcSize = 0) :
    Code.callEngine eng L st = eng.finishCall st.enc._dstBufSize st.world.engine := by
  simp [Code.callEngine, Engine.finishCall, inBuff_finish L h1 h2, h1]

/-- A read step on an exhausted input whose source does not fail. -/
theorem readChunk_empty {ε : Type} (L : Locals) (st : St ε)
    (hin : st.world.inStream = []) (hrd : ∀ hr ∈ st.world.readResults, hr = S_OK)
    (hpin : st.enc._processedIn < 18446744073709551616) :
    (Code.readChunk L st).1 = none ∧
    (Code.readChunk L st).2.1.ZSTD_todo = .ZSTD_e_end ∧
    (Code.readChunk L st).2.1.srcSize = 0 ∧
    (Code.readChunk L st).2.2.enc._processedIn = st.enc._processedIn ∧
    (Code.readChunk L st).2.2.enc._processedOut = st.enc._processedOut ∧
    (Code.readChunk L st).2.2.enc._dstBufSize = st.enc._dstBufSize ∧
    (Code.readChunk L st).2.2.world.engine = st.world.engine ∧
    (Code.readChunk L st).2.2.world.inStream = [] ∧
    (Code.readChunk L st).2.2.world.outStream = st.world.outStream ∧
    (∀ hr ∈ (Code.readChunk L st).2.2.world.readResults, hr = S_OK) ∧
    (Code.readChunk L st).2.2.world.writeResults = st.world.writeResults ∧
    (Code.readChunk L st).2.2.world.progressResults = st.world.progressResults := by
  obtain ⟨h1, h2, h3, h4⟩ := readChunk_ok L st (scriptHead_clean _ hrd)
  rw [h1, h2, h3, h4]
  refine ⟨rfl, ?_, ?_, ?_, rfl, rfl, rfl, ?_, rfl, tail_clean _ hrd, rfl, rfl⟩
  · simp [hin]
  · simp [hin]
  · simpa [hin] using Nat.mod_eq_of_lt hpin
  · simp [hin]

/-- One pass of the inner loop when the engine reports no error and neither
sink fails. -/
theorem compressChunk_clean {ε : Type} (eng : Engine ε) (L : Locals) (st : St ε)
    (hE : eng.ZSTD_isError (Code.callEngine eng L st).1.err = false)
    (hwr : ∀ hr ∈ st.world.writeResults, hr = S_OK)
    (hpr : ∀ hr ∈ st.world.progressResults, hr = S_OK) :
    (Code.compressChunk eng L st).1 = Code.next L (Code.callEngine eng L st).1 ∧
    (Code.compressChunk eng L st).2.enc._processedIn = st.enc._processedIn ∧
    (st.enc._processedOut < 18446744073709551616 →
      (Code.compressChunk eng L st).2.enc._processedOut =
        (st.enc._processedOut + (Code.callEngine eng L st).1.dst.length) % 18446744073709551616) ∧
    (Code.compressChunk eng L st).2.enc._dstBufSize = st.enc._dstBufSize ∧
    (Code.compressChunk eng L st).2.world.engine = (Code.callEngine eng L st).2 ∧
    (Code.compressChunk eng L st).2.world.inStream = st.world.inStream ∧
    (Code.compressChunk eng L st).2.world.outStream =
      st.world.outStream ++ (Code.callEngine eng L st).1.dst ∧
    (Code.compressChunk eng L st).2.world.readResults = st.world.readResults ∧
    (∀ hr ∈ (Code.compressChunk eng L st).2.world.writeResults, hr = S_OK) ∧
    (∀ hr ∈ (Code.compressChunk eng L st).2.world.progressResults, hr = S_OK) := by
  by_cases hD : (Code.callEngine eng L st).1.dst = []
  · obtain ⟨h1, h2, h3⟩ := compressChunk_quiet eng L st hE hD
    rw [h1, h2, h3, hD]
    refine ⟨rfl, rfl, ?_, rfl, rfl, rfl, by simp, rfl, hwr, hpr⟩
    intro h; simp; omega
  · obtain ⟨h1, h2, h3⟩ := compressChunk_ok eng L st hE hD (scriptHead_clean _ hwr)
      (scriptHead_clean _ hpr)
    rw [h1, h2, h3]
    exact ⟨rfl, rfl, fun _ => rfl, rfl, rfl, rfl, rfl, rfl, tail_clean _ hwr, tail_clean _ hpr⟩

theorem next_finish_done (L : Locals) (res : CompressResult)
    (h1 : L.ZSTD_todo = .ZSTD_e_end) (h2 : res.err = 0) : Code.next L res = .ret S_OK := by
  simp [Code.next, h1, h2]

theorem next_finish_busy (L : Locals) (res : CompressResult) (h2 : res.err ≠ 0) :
    Code.next L res = .more ∨ Code.next L res = .again := by
  unfold Code.next
  split_ifs with h h'
  · exact absurd h.2 h2
  · left; rfl
  · right; rfl


theorem finishSpec_zero {ε : Type} (eng : Engine ε) (st : St ε) :
    FinishSpec eng 0 st (some S_OK, st) := by
  refine ⟨rfl, rfl, ?_, ?_, [], extends_refl st, rfl⟩
  · intro h
    simp only [Engine.finishOutput, List.length_nil, Nat.add_zero]
    exact (Nat.mod_eq_of_lt h).symm
  · simp [Engine.finishOutput]

/-- A finish phase of `n` calls after one clean engine call is a finish phase
of `n + 1` calls. -/
theorem finishSpec_compress {ε : Type} (eng : Engine ε) (n : Nat) (st st1 : St ε)
    (r : Option HRESULT × St ε)
    (h1 : st1.enc._processedIn = st.enc._processedIn)
    (h2 : st.enc._processedOut < 18446744073709551616 →
      st1.enc._processedOut =
        (st.enc._processedOut
          + (eng.finishCall st.enc._dstBufSize st.world.engine).1.dst.length)
          % 18446744073709551616)
    (h3 : st1.enc._dstBufSize = st.enc._dstBufSize)
    (h4 : st1.world.engine = (eng.finishCall st.enc._dstBufSize st.world.engine).2)
    (h5 : st1.world.outStream =
      st.world.outStream ++ (eng.finishCall st.enc._dstBufSize st.world.engine).1.dst)
    (h6 : ∃ evs, Extends st st1 evs ∧
      compressCalls evs = [(finishBuff, ZSTD_EndDirective.ZSTD_e_end)])
    (hr : FinishSpec eng n st1 r) : FinishSpec eng (n + 1) st r := by
  obtain ⟨r1, r2, r3, r4, y, hy, hyc⟩ := hr
  obtain ⟨x, hx, hxc⟩ := h6
  rw [h3, h4] at r3 r4
  refine ⟨r1, r2.trans h1, ?_, ?_, x ++ y, extends_trans hx hy, ?_⟩
  · intro h
    have h2 := h2 h
    have hlt : st1.enc._processedOut < 18446744073709551616 := by
      rw [h2]; exact Nat.mod_lt _ (by norm_num)
    rw [r3 hlt, h2]
    simp only [Engine.finishOutput, List.length_append]
    omega
  · rw [r4, h5]
    simp only [Engine.finishOutput, List.append_assoc]
  · rw [compressCalls_append, hxc, hyc, List.replicate_succ]
    rfl

/-- A finish phase after a read of the exhausted input is a finish phase. -/
theorem finishSpec_read {ε : Type} (eng : Engine ε) (n : Nat) (st st1 : St ε)
    (r : Option HRESULT × St ε)
    (h1 : st1.enc._processedIn = st.enc._processedIn)
    (h2 : st1.enc._processedOut = st.enc._processedOut)
    (h3 : st1.enc._dstBufSize = st.enc._dstBufSize)
    (h4 : st1.world.engine = st.world.engine)
    (h5 : st1.world.outStream = st.world.outStream)
    (h6 : ∃ evs, Extends st st1 evs ∧ compressCalls evs = [])
    (hr : FinishSpec eng n st1 r) : FinishSpec eng n st r := by
  obtain ⟨r1, r2, r3, r4, y, hy, hyc⟩ := hr
  obtain ⟨x, hx, hxc⟩ := h6
  rw [h2, h3, h4] at r3
  rw [h3, h4, h5] at r4
  refine ⟨r1, r2.trans h1, r3, r4, x ++ y, extends_trans hx hy, ?_⟩
  rw [compressCalls_append, hxc, hyc, List.nil_append]

/-- The readiness of the state after one more finish call. -/
theorem finishReady_next {ε : Type} (eng : Engine ε) (k : Nat) (st st1 : St ε)
    (hr : FinishReady eng (k + 1) st)
    (h1 : st1.enc._processedIn = st.enc._processedIn)
    (h3 : st1.enc._dstBufSize = st.enc._dstBufSize)
    (h4 : st1.world.engine = (eng.finishCall st.enc._dstBufSize st.world.engine).2)
    (h5 : st1.world.inStream = [])
    (h6 : ∀ hr ∈ st1.world.readResults, hr = S_OK)
    (h7 : ∀ hr ∈ st1.world.writeResults, hr = S_OK)
    (h8 : ∀ hr ∈ st1.world.progressResults, hr = S_OK) : FinishReady eng k st1 := by
  obtain ⟨_, _, _, _, a5, a6, a7, a8⟩ := hr
  refine ⟨h5, h6, h7, h8, by rw [h1]; exact a5, ?_, ?_, ?_⟩
  · intro j hj
    rw [h3, h4]
    exact a6 (j + 1) (by omega)
  · intro j hj
    rw [h3, h4]
    exact a7 (j + 1) (by omega)
  · rw [h3, h4]
    exact a8

/-- The finish phase from the head of the inner loop: with the end directive
set on an empty chunk and the state ready, `2 * k + 1` units of fuel suffice
for the loop to return `S_OK` after exactly `k + 1` engine calls. -/
theorem loop_finish_inner {ε : Type} (eng : Engine ε) (k : Nat) (fuel : Nat) (L : Locals)
    (st : St ε) (hL1 : L.ZSTD_todo = .ZSTD_e_end) (hL2 : L.srcSize = 0)
    (hready : FinishReady eng k st) (hfuel : 2 * k + 1 ≤ fuel) :
    FinishSpec eng (k + 1) st (Code.loop eng fuel true L st) := by
  induction k generalizing fuel L st with
  | zero =>
    obtain ⟨fuel, rfl⟩ : ∃ f, fuel = f + 1 := ⟨fuel - 1, by omega⟩
    obtain ⟨_, _, a3, a4, _, a6, _, a8⟩ := hready
    have hcall := callEngine_finish eng L st hL1 hL2
    have hE := a6 0 (Nat.le_refl 0)
    simp only [Engine.finishState] at hE a8
    rw [← hcall] at hE a8
    obtain ⟨c1, c2, c3, c4, c5, _, c7, _, _, _⟩ := compressChunk_clean eng L st hE a3 a4
    obtain ⟨x, hx, _, hxc⟩ := compressChunk_extends eng L st
    rw [next_finish_done L _ hL1 a8] at c1
    rw [loop_compress]
    rcases hr : Code.compressChunk eng L st with ⟨nx, st1⟩
    rw [hr] at c1 c2 c3 c4 c5 c7 hx
    simp only [] at c1 c2 c3 c4 c5 c7
    subst c1
    simp only []
    rw [hcall] at c3 c5 c7
    rw [inBuff_finish L hL1 hL2, hL1] at hxc
    exact finishSpec_compress eng 0 st st1 _ c2 c3 c4 c5 c7 ⟨x, hx, hxc⟩ (finishSpec_zero eng st1)
  | succ k ih =>
    obtain ⟨fuel, rfl⟩ : ∃ f, fuel = f + 1 := ⟨fuel - 1, by omega⟩
    have hready0 := hready
    obtain ⟨a1, a2, a3, a4, a5, a6, a7, _⟩ := hready
    have hcall := callEngine_finish eng L st hL1 hL2
    have hE := a6 0 (Nat.zero_le _)
    have hB := a7 0 (Nat.succ_pos _)
    simp only [Engine.finishState] at hE hB
    rw [← hcall] at hE hB
    obtain ⟨c1, c2, c3, c4, c5, c6, c7, c8, c9, c10⟩ := compressChunk_clean eng L st hE a3 a4
    obtain ⟨x, hx, _, hxc⟩ := compressChunk_extends eng L st
    rw [loop_compress]
    rcases hr : Code.compressChunk eng L st with ⟨nx, st1⟩
    rw [hr] at c1 c2 c3 c4 c5 c6 c7 c8 c9 c10 hx
    simp only [] at c1 c2 c3 c4 c5 c6 c7 c8 c9 c10
    rw [hcall] at c3 c5 c7
    rw [inBuff_finish L hL1 hL2, hL1] at hxc
    have hready1 : FinishReady eng k st1 :=
      finishReady_next eng k st st1 hready0 c2 c4 c5 (by rw [c6]; exact a1)
        (by rw [c8]; exact a2) c9 c10
    rcases next_finish_busy L (Code.callEngine eng L st).1 hB with hn | hn
    · -- the inner loop is left and the exhausted input is read once more
      rw [hn] at c1
      subst c1
      simp only []
      obtain ⟨fuel, rfl⟩ : ∃ f, fuel = f + 1 := ⟨fuel - 1, by omega⟩
      obtain ⟨b1, b2, b3, b4, b5, b6, b7, b8, b9, b10, b11, b12⟩ :=
        readChunk_empty L st1 hready1.1 hready1.2.1 hready1.2.2.2.2.1
      obtain ⟨y, hy, _, hyc⟩ := readChunk_extends L st1
      rw [loop_read]
      rcases hq : Code.readChunk L st1 with ⟨q, L1, st2⟩
      rw [hq] at b1 b2 b3 b4 b5 b6 b7 b8 b9 b10 b11 b12 hy
      simp only [] at b1 b2 b3 b4 b5 b6 b7 b8 b9 b10 b11 b12
      subst b1
      simp only []
      have hready2 : FinishReady eng k st2 := by
        obtain ⟨_, _, d3, d4, d5, d6, d7, d8⟩ := hready1
        refine ⟨b8, b10, by rw [b11]; exact d3, by rw [b12]; exact d4, by rw [b4]; exact d5,
          ?_, ?_, ?_⟩
        · intro j hj; rw [b6, b7]; exact d6 j hj
        · intro j hj; rw [b6, b7]; exact d7 j hj
        · rw [b6, b7]; exact d8
      have h2 := ih fuel L1 st2 b2 b3 hready2 (by omega)
      have h1 := finishSpec_read eng (k + 1) st1 st2 _ b4 b5 b6 b7 b9 ⟨y, hy, hyc⟩ h2
      exact finishSpec_compress eng (k + 1) st st1 _ c2 c3 c4 c5 c7 ⟨x, hx, hxc⟩ h1
    · -- the inner loop repeats
      rw [hn] at c1
      subst c1
      simp only []
      have h1 := ih fuel L st1 hL1 hL2 hready1 (by omega)
      exact finishSpec_compress eng (k + 1) st st1 _ c2 c3 c4 c5 c7 ⟨x, hx, hxc⟩ h1


/-- C7: an empty input stream completes successfully.  When the source and the
sinks do not fail, session construction succeeds and the engine answers its
finish calls without error, reporting zero remaining work first at call number
`k`, then with `2 * k + 2` units of fuel `Code` returns `S_OK` after exactly
`k + 1` engine calls, each made with the end directive on a zero-length chunk;
the sink has received the output of all of them, the consumed counter is 0 and
the produced counter is the number of bytes flushed. -/
theorem Code_empty_input {ε : Type} (eng : Engine ε) (k fuel : Nat) (st : St ε)
    (hin : st.world.inStream = [])
    (hrd : ∀ hr ∈ st.world.readResults, hr = S_OK)
    (hwr : ∀ hr ∈ st.world.writeResults, hr = S_OK)
    (hpr : ∀ hr ∈ st.world.progressResults, hr = S_OK)
    (hpin : st.enc._processedIn = 0) (hpout : st.enc._processedOut = 0)
    (hses : (Code.session eng st).1 = none)
    (hok : ∀ j, j ≤ k → eng.ZSTD_isError (eng.finishCall st.enc._dstBufSize
      (eng.finishState st.enc._dstBufSize j (Code.session eng st).2.world.engine)).1.err = false)
    (hbusy : ∀ j, j < k → (eng.finishCall st.enc._dstBufSize
      (eng.finishState st.enc._dstBufSize j (Code.session eng st).2.world.engine)).1.err ≠ 0)
    (hdone : (eng.finishCall st.enc._dstBufSize
      (eng.finishState st.enc._dstBufSize k (Code.session eng st).2.world.engine)).1.err = 0)
    (htot : (eng.finishOutput st.enc._dstBufSize (k + 1)
      (Code.session eng st).2.world.engine).length < 18446744073709551616)
    (hfuel : 2 * k + 2 ≤ fuel) :
    (Code eng fuel st).1 = some S_OK ∧
    (Code eng fuel st).2.enc._processedIn = 0 ∧
    (Code eng fuel st).2.enc._processedOut =
      (eng.finishOutput st.enc._dstBufSize (k + 1) (Code.session eng st).2.world.engine).length ∧
    (Code eng fuel st).2.world.outStream = st.world.outStream ++
      eng.finishOutput st.enc._dstBufSize (k + 1) (Code.session eng st).2.world.engine ∧
    ∃ evs, (Code eng fuel st).2.world.trace = st.world.trace ++ evs ∧
      compressCalls evs = List.replicate (k + 1) (finishBuff, ZSTD_EndDirective.ZSTD_e_end) := by
  obtain ⟨f1, f2, f3, f4, f5, f6, f7, _, f9, x, hx, hxs⟩ := session_frame eng st
  unfold Code
  rcases hs : Code.session eng st with ⟨r, st1⟩
  rw [hs] at hses hok hbusy hdone htot f1 f2 f3 f4 f5 f6 f7 f9 hx
  simp only [] at hses hok hbusy hdone htot f1 f2 f3 f4 f5 f6 f7 f9 hx ⊢
  subst hses
  simp only []
  have hready1 : FinishReady eng k st1 := by
    refine ⟨by rw [f1]; exact hin, by rw [f2]; exact hrd, by rw [f4]; exact hwr,
      by rw [f5]; exact hpr, by rw [f6, hpin]; norm_num, ?_, ?_, ?_⟩
    · intro j hj; rw [f9]; exact hok j hj
    · intro j hj; rw [f9]; exact hbusy j hj
    · rw [f9]; exact hdone
  obtain ⟨fuel, rfl⟩ : ∃ f, fuel = f + 1 := ⟨fuel - 1, by omega⟩
  obtain ⟨b1, b2, b3, b4, b5, b6, b7, b8, b9, b10, b11, b12⟩ :=
    readChunk_empty Locals.entry st1 hready1.1 hready1.2.1 hready1.2.2.2.2.1
  obtain ⟨y, hy, _, hyc⟩ := readChunk_extends Locals.entry st1
  rw [loop_read]
  rcases hq : Code.readChunk Locals.entry st1 with ⟨q, L1, st2⟩
  rw [hq] at b1 b2 b3 b4 b5 b6 b7 b8 b9 b10 b11 b12 hy
  simp only [] at b1 b2 b3 b4 b5 b6 b7 b8 b9 b10 b11 b12
  subst b1
  simp only []
  have hready2 : FinishReady eng k st2 := by
    obtain ⟨_, _, d3, d4, d5, d6, d7, d8⟩ := hready1
    refine ⟨b8, b10, by rw [b11]; exact d3, by rw [b12]; exact d4, by rw [b4]; exact d5,
      ?_, ?_, ?_⟩
    · intro j hj; rw [b6, b7]; exact d6 j hj
    · intro j hj; rw [b6, b7]; exact d7 j hj
    · rw [b6, b7]; exact d8
  have h2 := loop_finish_inner eng k fuel L1 st2 b2 b3 hready2 (by omega)
  obtain ⟨r1, r2, r3, r4, z, hz, hzc⟩ :=
    finishSpec_read eng (k + 1) st1 st2 _ b4 b5 b6 b7 b9 ⟨y, hy, hyc⟩ h2
  rw [f9] at r3 r4
  refine ⟨r1, by rw [r2, f6, hpin], ?_, by rw [r4, f3], x ++ z, extends_trans hx hz, ?_⟩
  · rw [r3 (by rw [f7, hpout]; norm_num), f7, hpout, Nat.zero_add]
    exact Nat.mod_eq_of_lt htot
  · rw [compressCalls_append, compressCalls_of_setup x hxs, hzc, List.nil_append]

/-- Witness of C7: an empty stream through an engine that needs two finish
calls to flush its two bytes of frame overhead. -/
theorem Code_empty_input_witness :
    (Code lazyEngine 4 ⟨CEncoder.new zstdConsts, echoWorld []⟩).1 = some S_OK ∧
    (Code lazyEngine 4 ⟨CEncoder.new zstdConsts, echoWorld []⟩).2.enc._processedIn = 0 ∧
    (Code lazyEngine 4 ⟨CEncoder.new zstdConsts, echoWorld []⟩).2.enc._processedOut = 2 ∧
    (Code lazyEngine 4 ⟨CEncoder.new zstdConsts, echoWorld []⟩).2.world.outStream = [40, 41] ∧
    ∃ evs, (Code lazyEngine 4 ⟨CEncoder.new zstdConsts, echoWorld []⟩).2.world.trace = [] ++ evs ∧
      compressCalls evs = List.replicate (1 + 1) (finishBuff, ZSTD_EndDirective.ZSTD_e_end) :=
  Code_empty_input lazyEngine 1 4 ⟨CEncoder.new zstdConsts, echoWorld []⟩ (by decide) (by decide)
    (by decide) (by decide) (by decide) (by decide) (by decide) (by decide) (by decide)
    (by decide) (by decide) (by decide)

/-! ## Theorems: thread count -/

/-- C11: `SetNumberOfThreads` returns `S_OK` and stores the thread count
clamped into `[1, ZSTD_THREAD_MAX]`, and the `kNumThreads` property with value
`n`, placed last in a property list, stores the same value. -/
theorem SetNumberOfThreads_clamps (K : Consts) (e : CEncoder) (n : Nat)
    (hn : n < 4294967296) (hmax : K.ZSTD_THREAD_MAX < 4294967296) :
    (SetNumberOfThreads K e n).1 = S_OK ∧
    (SetNumberOfThreads K e n).2._numThreads = min (max n 1) K.ZSTD_THREAD_MAX ∧
    ∀ (ps : List (PROPID × PROPVARIANT)) (vt : Nat), (SetCoderProperties K e ps).1 = S_OK →
      (SetCoderProperties K e (ps ++ [(PROPID.kNumThreads, ⟨vt, n⟩)])).1 = S_OK ∧
      (SetCoderProperties K e (ps ++ [(PROPID.kNumThreads, ⟨vt, n⟩)])).2._numThreads
        = (SetNumberOfThreads K e n).2._numThreads := by
  have hm : K.ZSTD_THREAD_MAX % 4294967296 = K.ZSTD_THREAD_MAX := Nat.mod_eq_of_lt hmax
  have hnm : n % 4294967296 = n := Nat.mod_eq_of_lt hn
  refine ⟨rfl, ?_, ?_⟩
  · simp only [SetNumberOfThreads, hm]
    split_ifs <;> omega
  · intro ps vt hps
    rw [SetCoderProperties_append K ps _ e hps]
    simp [SetCoderProperties.loop, SetCoderProperties.body, SetNumberOfThreads, hnm]

/-- Witness of C11: 500 threads requested through the property, after a level
property, with a maximum of 128. -/
theorem SetNumberOfThreads_clamps_witness :
    (SetNumberOfThreads zstdConsts (CEncoder.new zstdConsts) 500).2._numThreads = 128 ∧
    (SetCoderProperties zstdConsts (CEncoder.new zstdConsts)
      ([(PROPID.kLevel, ⟨VT_UI4, 5⟩)] ++ [(PROPID.kNumThreads, ⟨VT_UI4, 500⟩)])).2._numThreads
        = (SetNumberOfThreads zstdConsts (CEncoder.new zstdConsts) 500).2._numThreads :=
  ⟨(SetNumberOfThreads_clamps zstdConsts (CEncoder.new zstdConsts) 500 (by decide) (by decide)).2.1,
   ((SetNumberOfThreads_clamps zstdConsts (CEncoder.new zstdConsts) 500 (by decide) (by decide)).2.2
      [(PROPID.kLevel, ⟨VT_UI4, 5⟩)] VT_UI4 (by decide)).2⟩

/-! ## Theorems: the driver at concrete inputs -/

/-- C17: three bytes read as one chunk through an engine whose first call
consumes two of them.  The inner loop repeats with the whole chunk again, not
the remaining byte, so the bytes the engine consumes are `1 2 1 2 3`. -/
theorem Code_chunk_presented_again :
    (Code stingyEngine 5 ⟨CEncoder.new zstdConsts, echoWorld [1, 2, 3]⟩).1 = some S_OK ∧
    compressCalls (Code stingyEngine 5 ⟨CEncoder.new zstdConsts, echoWorld [1, 2, 3]⟩).2.world.trace
      = [(⟨some [1, 2, 3], 3, 0⟩, ZSTD_EndDirective.ZSTD_e_continue),
         (⟨some [1, 2, 3], 3, 0⟩, ZSTD_EndDirective.ZSTD_e_continue),
         (⟨none, 0, 0⟩, ZSTD_EndDirective.ZSTD_e_end)] ∧
    consumedBytes (Code stingyEngine 5 ⟨CEncoder.new zstdConsts, echoWorld [1, 2, 3]⟩).2.world.trace
      = [1, 2, 1, 2, 3] := by
  decide

/-- C18: the first buffer allocation fails in a first `Code` call, which
returns `E_OUTOFMEMORY` with the context already stored; a second `Code` call
on the same encoder skips the whole session block and reads the input with
`_srcBuf` and `_dstBuf` null and no parameter ever pushed. -/
theorem Code_after_failed_session :
    (Code echoEngine 5
      ⟨CEncoder.new zstdConsts, { echoWorld [1, 2, 3] with heap := [false] }⟩).1
        = some E_OUTOFMEMORY ∧
    (Code echoEngine 5
      ⟨CEncoder.new zstdConsts, { echoWorld [1, 2, 3] with heap := [false] }⟩).2.enc._ctx = true ∧
    (Code echoEngine 5
      (Code echoEngine 5
        ⟨CEncoder.new zstdConsts, { echoWorld [1, 2, 3] with heap := [false] }⟩).2).1
        = some S_OK ∧
    (Code echoEngine 5
      (Code echoEngine 5
        ⟨CEncoder.new zstdConsts, { echoWorld [1, 2, 3] with heap := [false] }⟩).2).2.enc._srcBuf
        = false ∧
    (Code echoEngine 5
      (Code echoEngine 5
        ⟨CEncoder.new zstdConsts, { echoWorld [1, 2, 3] with heap := [false] }⟩).2).2.enc._dstBuf
        = false ∧
    (Code echoEngine 5
      (Code echoEngine 5
        ⟨CEncoder.new zstdConsts, { echoWorld [1, 2, 3] with heap := [false] }⟩).2).2.world.trace
        = [Event.createCCtx true, Event.alloc 131072 false,
           Event.read 131072 S_OK 3, Event.wait, Event.processedIn 3, Event.release,
           Event.compress ⟨some [1, 2, 3], 3, 0⟩ ZSTD_EndDirective.ZSTD_e_continue ⟨0, 3, [0]⟩,
           Event.write [0] S_OK, Event.wait, Event.processedOut 1,
           Event.setRatioInfo 3 1 S_OK, Event.release,
           Event.read 131072 S_OK 0, Event.wait, Event.processedIn 3, Event.release,
           Event.compress ⟨none, 0, 0⟩ ZSTD_EndDirective.ZSTD_e_end ⟨0, 0, [1]⟩,
           Event.write [1] S_OK, Event.wait, Event.processedOut 2,
           Event.setRatioInfo 3 2 S_OK, Event.release] := by
  decide

/-- C19: the progress sink fails on the first report.  `Code` returns its
failure code with the mutex still held: the trace ends at the report, after a
`wait` without `release`. -/
theorem Code_mutex_held_on_progress_failure :
    (Code echoEngine 5
      ⟨CEncoder.new zstdConsts, { echoWorld [1, 2, 3] with progressResults := [E_FAIL] }⟩).1
        = some E_FAIL ∧
    (Code echoEngine 5
      ⟨CEncoder.new zstdConsts,
        { echoWorld [1, 2, 3] with progressResults := [E_FAIL] }⟩).2.enc._hMutex = 1 ∧
    ((Code echoEngine 5
      ⟨CEncoder.new zstdConsts,
        { echoWorld [1, 2, 3] with progressResults := [E_FAIL] }⟩).2.world.trace.drop 6)
        = [Event.read 131072 S_OK 3, Event.wait, Event.processedIn 3, Event.release,
           Event.compress ⟨some [1, 2, 3], 3, 0⟩ ZSTD_EndDirective.ZSTD_e_continue ⟨0, 3, [0]⟩,
           Event.write [0] S_OK, Event.wait, Event.processedOut 1,
           Event.setRatioInfo 3 1 E_FAIL] := by
  decide

/-- C20: on a machine that reports 256 processors, with a thread maximum of
128 and no thread-count call before streaming, `Code` forwards 256 workers to
the engine. -/
theorem Code_forwards_processor_count :
    ({ zstdConsts with GetNumberOfProcessors := 256 } : Consts).ZSTD_THREAD_MAX = 128 ∧
    ((Code echoEngine 4
      ⟨CEncoder.new { zstdConsts with GetNumberOfProcessors := 256 },
        echoWorld []⟩).2.world.trace.filter Event.isParam)
        = [Event.setParameter ZSTD_cParameter.ZSTD_p_compressionLevel 3 0,
           Event.setParameter ZSTD_cParameter.ZSTD_p_nbWorkers 256 0,
           Event.setParameter ZSTD_cParameter.ZSTD_p_contentSizeFlag 1 0] := by
  decide

/-- C15 (as stated, refuted): on an empty input, an engine whose first finish
call reports work remaining makes the driver leave the inner loop and read the
input source a second time before the next finish call. -/
theorem Code_reads_again_after_end :
    ((Code lazyEngine 4 ⟨CEncoder.new zstdConsts, echoWorld []⟩).2.world.trace.filter
      (fun ev => ev.isRead || ev.isCompress))
      = [Event.read 131072 S_OK 0,
         Event.compress ⟨none, 0, 0⟩ ZSTD_EndDirective.ZSTD_e_end ⟨1, 0, [40]⟩,
         Event.read 131072 S_OK 0,
         Event.compress ⟨none, 0, 0⟩ ZSTD_EndDirective.ZSTD_e_end ⟨0, 0, [41]⟩] := by
  decide

/-- C16 (as stated, refuted): the engine answers the finish call with zero
remaining work and no error, but the sink refuses the output of that call, and
`Code` returns the failure of the sink, not success. -/
theorem Code_done_but_write_fails :
    (Code echoEngine 4
      ⟨CEncoder.new zstdConsts, { echoWorld [] with writeResults := [E_FAIL] }⟩).1
        = some E_FAIL ∧
    ((Code echoEngine 4
      ⟨CEncoder.new zstdConsts,
        { echoWorld [] with writeResults := [E_FAIL] }⟩).2.world.trace.filter
      (fun ev => ev.isCompress || ev.isWrite))
      = [Event.compress ⟨none, 0, 0⟩ ZSTD_EndDirective.ZSTD_e_end ⟨0, 0, [0]⟩,
         Event.write [0] E_FAIL] ∧
    echoEngine.ZSTD_isError 0 = false := by
  decide

/-! ## Theorems: induction over the streaming loop -/

/-- A relation between states that holds of standing still, composes along
steps that go on, and holds of every read step and every pass of the inner
loop, holds of the whole streaming loop. -/
theorem loop_spec {ε : Type} (eng : Engine ε) (Φ : St ε → Option HRESULT → St ε → Prop)
    (hrefl : ∀ st, Φ st none st)
    (htrans : ∀ a b c r, Φ a none b → Φ b r c → Φ a r c)
    (hread : ∀ L st, Φ st (Code.readChunk L st).1 (Code.readChunk L st).2.2)
    (hpass : ∀ L st, Φ st (Code.compressChunk eng L st).1.result (Code.compressChunk eng L st).2)
    (fuel : Nat) (inner : Bool) (L : Locals) (st : St ε) :
    Φ st (Code.loop eng fuel inner L st).1 (Code.loop eng fuel inner L st).2 := by
  induction fuel generalizing inner L st with
  | zero => rw [loop_zero]; exact hrefl st
  | succ fuel ih =>
    cases inner with
    | false =>
      rw [loop_read]
      have h := hread L st
      rcases hr : Code.readChunk L st with ⟨r, L1, st1⟩
      rw [hr] at h
      cases r with
      | some hr1 => exact h
      | none => exact htrans _ _ _ _ h (ih true L1 st1)
    | true =>
      rw [loop_compress]
      have h := hpass L st
      rcases hr : Code.compressChunk eng L st with ⟨nx, st1⟩
      rw [hr] at h
      cases nx with
      | ret hr1 => exact h
      | more => exact htrans _ _ _ _ h (ih false L st1)
      | again => exact htrans _ _ _ _ h (ih true L st1)

/-- The same for the whole of `Code`, when the relation also holds of session
construction. -/
theorem Code_spec {ε : Type} (eng : Engine ε) (Φ : St ε → Option HRESULT → St ε → Prop)
    (hrefl : ∀ st, Φ st none st)
    (htrans : ∀ a b c r, Φ a none b → Φ b r c → Φ a r c)
    (hsession : ∀ st, Φ st (Code.session eng st).1 (Code.session eng st).2)
    (hread : ∀ L st, Φ st (Code.readChunk L st).1 (Code.readChunk L st).2.2)
    (hpass : ∀ L st, Φ st (Code.compressChunk eng L st).1.result (Code.compressChunk eng L st).2)
    (fuel : Nat) (st : St ε) :
    Φ st (Code eng fuel st).1 (Code eng fuel st).2 := by
  unfold Code
  have h := hsession st
  rcases hs : Code.session eng st with ⟨r, st1⟩
  rw [hs] at h
  cases r with
  | some hr => exact h
  | none =>
    exact htrans _ _ _ _ h (loop_spec eng Φ hrefl htrans hread hpass fuel false Locals.entry st1)

/-! ## Theorems: first failure -/

theorem writtenBytes_append (xs ys : List Event) :
    writtenBytes (xs ++ ys) = writtenBytes xs ++ writtenBytes ys := by
  induction xs with
  | nil => rfl
  | cons ev rest ih => cases ev <;> simp [writtenBytes, ih]

theorem failure_of_setup {ε : Type} (eng : Engine ε) (ev : Event) (h : ev.isSetup = true) :
    ev.failure eng = none := by
  cases ev <;> simp_all [Event.isSetup, Event.failure]

theorem writtenBytes_of_setup (xs : List Event) (h : ∀ ev ∈ xs, ev.isSetup = true) :
    writtenBytes xs = [] := by
  induction xs with
  | nil => rfl
  | cons ev rest ih =>
    have h1 := h ev (List.mem_cons_self _ _)
    have h2 := ih (fun ev hev => h ev (List.mem_cons_of_mem _ hev))
    cases ev <;> simp_all [writtenBytes, Event.isSetup]

theorem failFast_refl {ε : Type} (eng : Engine ε) (st : St ε) : FailFast eng st none st :=
  ⟨[], extends_refl st, by simp [writtenBytes], Or.inl (by simp)⟩

theorem failFast_trans {ε : Type} (eng : Engine ε) (a b c : St ε) (r : Option HRESULT)
    (h1 : FailFast eng a none b) (h2 : FailFast eng b r c) : FailFast eng a r c := by
  obtain ⟨x, hx, hxo, hxf⟩ := h1
  obtain ⟨y, hy, hyo, hyf⟩ := h2
  have hxc : ∀ ev ∈ x, ev.failure eng = none := by
    rcases hxf with h | ⟨_, _, _, _, _, _, h⟩
    · exact h
    · exact absurd h (by simp)
  refine ⟨x ++ y, extends_trans hx hy, ?_, ?_⟩
  · rw [hyo, hxo, writtenBytes_append, List.append_assoc]
  · rcases hyf with h | ⟨pre, ev, hr, hpre, hclean, hfail, hres⟩
    · left
      intro ev hev
      rcases List.mem_append.mp hev with h1 | h1
      · exact hxc ev h1
      · exact h ev h1
    · right
      refine ⟨x ++ pre, ev, hr, by rw [hpre, List.append_assoc], ?_, hfail, hres⟩
      intro e he
      rcases List.mem_append.mp he with h1 | h1
      · exact hxc e h1
      · exact hclean e h1

theorem session_failFast {ε : Type} (eng : Engine ε) (st : St ε) :
    FailFast eng st (Code.session eng st).1 (Code.session eng st).2 := by
  obtain ⟨_, _, f3, _, _, _, _, _, _, x, hx, hxs⟩ := session_frame eng st
  refine ⟨x, hx, ?_, Or.inl (fun ev hev => failure_of_setup eng ev (hxs ev hev))⟩
  rw [f3, writtenBytes_of_setup x hxs, List.append_nil]

theorem readChunk_failFast {ε : Type} (eng : Engine ε) (L : Locals) (st : St ε) :
    FailFast eng st (Code.readChunk L st).1 (Code.readChunk L st).2.2 := by
  by_cases h : scriptHead st.world.readResults = S_OK
  · obtain ⟨_, _, _, hw⟩ := readChunk_ok L st h
    refine ⟨_, congrArg World.trace hw, ?_, Or.inl ?_⟩
    · rw [hw]; simp [writtenBytes]
    · simp [Event.failure]
  · obtain ⟨h1, _, hw⟩ := readChunk_fail L st h
    refine ⟨_, congrArg World.trace hw, ?_, Or.inr ⟨[], _, _, rfl, by simp, ?_, h1⟩⟩
    · rw [hw]; simp [writtenBytes]
    · simp [Event.failure, h]

theorem next_result (L : Locals) (res : CompressResult) :
    (Code.next L res).result = none ∨ (Code.next L res).result = some S_OK := by
  unfold Code.next
  split_ifs
  · right; rfl
  · left; rfl
  · left; rfl

theorem compressChunk_failFast {ε : Type} (eng : Engine ε) (L : Locals) (st : St ε) :
    FailFast eng st (Code.compressChunk eng L st).1.result (Code.compressChunk eng L st).2 := by
  by_cases hE : eng.ZSTD_isError (Code.callEngine eng L st).1.err = true
  · obtain ⟨h1, _, hw⟩ := compressChunk_error eng L st hE
    refine ⟨_, congrArg World.trace hw, ?_, Or.inr ⟨[], _, _, rfl, by simp, ?_, by rw [h1]; rfl⟩⟩
    · rw [hw]; simp [writtenBytes]
    · simp [Event.failure, hE]
  have hE : eng.ZSTD_isError (Code.callEngine eng L st).1.err = false := by simpa using hE
  by_cases hD : (Code.callEngine eng L st).1.dst = []
  · obtain ⟨_, _, hw⟩ := compressChunk_quiet eng L st hE hD
    refine ⟨_, congrArg World.trace hw, ?_, Or.inl ?_⟩
    · rw [hw]; simp [writtenBytes]
    · simp [Event.failure, hE]
  by_cases hW : scriptHead st.world.writeResults = S_OK
  · by_cases hP : scriptHead st.world.progressResults = S_OK
    · obtain ⟨_, _, hw⟩ := compressChunk_ok eng L st hE hD hW hP
      refine ⟨_, congrArg World.trace hw, ?_, Or.inl ?_⟩
      · rw [hw]; simp [writtenBytes]
      · simp [Event.failure, hE]
    · obtain ⟨h1, _, hw⟩ := compressChunk_progressFail eng L st hE hD hW hP
      refine ⟨_, congrArg World.trace hw, ?_,
        Or.inr ⟨[_, _, _, _], _, _, rfl, ?_, ?_, by rw [h1]; rfl⟩⟩
      · rw [hw]; simp [writtenBytes]
      · simp [Event.failure, hE]
      · simp [Event.failure, hP]
  · obtain ⟨h1, _, hw⟩ := compressChunk_writeFail eng L st hE hD hW
    refine ⟨_, congrArg World.trace hw, ?_, Or.inr ⟨[_], _, _, rfl, ?_, ?_, by rw [h1]; rfl⟩⟩
    · rw [hw]; simp [writtenBytes, hW]
    · simp [Event.failure, hE]
    · simp [Event.failure, hW]

theorem writtenBytes_of_failure {ε : Type} (eng : Engine ε) (ev : Event) (hr : HRESULT)
    (h : ev.failure eng = some hr) : writtenBytes [ev] = [] := by
  cases ev with
  | write d h1 =>
    by_cases hh : h1 = S_OK
    · simp [Event.failure, hh] at h
    · simp [writtenBytes, hh]
  | _ => rfl

/-- C13: when a read of the input, a write of the output or a progress report
fails, or the engine reports an error, during a `Code` call, then `Code`
returns exactly that failure code (`E_FAIL` for the engine), the failing call
is the last event of the call, no earlier event of the call is a failure, and
the sink holds everything that was written before. -/
theorem Code_first_failure {ε : Type} (eng : Engine ε) (fuel : Nat) (st : St ε)
    (evs : List Event) (ev : Event) (hr : HRESULT)
    (htrace : (Code eng fuel st).2.world.trace = st.world.trace ++ evs)
    (hmem : ev ∈ evs) (hfail : ev.failure eng = some hr) :
    (Code eng fuel st).1 = some hr ∧
    ∃ pre, evs = pre ++ [ev] ∧ (∀ e ∈ pre, e.failure eng = none) ∧
      (Code eng fuel st).2.world.outStream = st.world.outStream ++ writtenBytes pre := by
  obtain ⟨x, hx, hxo, hxf⟩ := Code_spec eng (FailFast eng) (failFast_refl eng)
    (failFast_trans eng) (session_failFast eng) (readChunk_failFast eng)
    (compressChunk_failFast eng) fuel st
  have hev : evs = x := extends_unique htrace hx
  subst hev
  rcases hxf with h | ⟨pre, ev1, hr1, hpre, hclean, hfail1, hres⟩
  · rw [h ev hmem] at hfail
    exact absurd hfail (by simp)
  · subst hpre
    have hev1 : ev = ev1 := by
      rcases List.mem_append.mp hmem with h1 | h1
      · rw [hclean ev h1] at hfail
        exact absurd hfail (by simp)
      · simpa using h1
    subst hev1
    rw [hfail] at hfail1
    have hhr : hr = hr1 := by simpa using hfail1
    subst hhr
    refine ⟨hres, pre, rfl, hclean, ?_⟩
    rw [hxo, writtenBytes_append]
    rw [writtenBytes_of_failure eng ev hr hfail, List.append_nil]

/-- Witness of C13: the sink refuses the second block; `Code` returns the code
of the sink and the refused write is its last event. -/
theorem Code_first_failure_witness :
    (Code echoEngine 9 refusedWriteRun).1 = some 2147942405 ∧
    ∃ pre, (Code echoEngine 9 refusedWriteRun).2.world.trace
        = pre ++ [Event.write [1] 2147942405] ∧
      (∀ e ∈ pre, e.failure echoEngine = none) ∧
      (Code echoEngine 9 refusedWriteRun).2.world.outStream
        = refusedWriteRun.world.outStream ++ writtenBytes pre :=
  Code_first_failure echoEngine 9 refusedWriteRun (Code echoEngine 9 refusedWriteRun).2.world.trace
    (Event.write [1] 2147942405) 2147942405 (by decide) (by decide) (by decide)

/-! ## Theorems: the shape of the trace -/

theorem blocks_refl {ε : Type} (eng : Engine ε) (st : St ε) : Blocks eng st none st :=
  ⟨[], extends_refl st, by simp, by simp⟩

theorem blocks_trans {ε : Type} (eng : Engine ε) (a b c : St ε) (r : Option HRESULT)
    (h1 : Blocks eng a none b) (h2 : Blocks eng b r c) : Blocks eng a r c := by
  obtain ⟨x, hx, hxs, hxd⟩ := h1
  obtain ⟨y, hy, hys, hyd⟩ := h2
  refine ⟨x ++ y, by rw [List.flatten_append]; exact extends_trans hx hy, ?_, ?_⟩
  · intro blk hb
    rcases List.mem_append.mp hb with h | h
    · exact hxs blk h
    · exact hys blk h
  · have hxn : ¬ ∃ blk, x.getLast? = some blk ∧ doneShape eng.ZSTD_isError blk = true := by
      intro h
      exact absurd (hxd.mpr h) (by simp)
    rw [hyd, List.getLast?_append]
    cases hyl : y.getLast? with
    | none =>
      simp only [Option.none_or]
      constructor
      · intro ⟨blk, h, _⟩
        exact absurd h (by simp)
      · intro h
        exact absurd h hxn
    | some blk => simp [Option.or]

theorem blocks_single {ε : Type} (eng : Engine ε) (st st1 : St ε) (r : Option HRESULT)
    (blk : List Event) (hx : st1.world.trace = st.world.trace ++ blk)
    (hs : readShape blk = true ∨ passShape eng.ZSTD_isError blk = true)
    (hd : r = some S_OK ↔ doneShape eng.ZSTD_isError blk = true) : Blocks eng st r st1 := by
  refine ⟨[blk], ?_, ?_, ?_⟩
  · rw [List.flatten_cons, List.flatten_nil, List.append_nil]
    exact hx
  · intro b hb
    rw [List.mem_singleton] at hb
    rw [hb]
    exact hs
  · rw [hd]
    simp

theorem readChunk_blocks {ε : Type} (eng : Engine ε) (L : Locals) (st : St ε) :
    Blocks eng st (Code.readChunk L st).1 (Code.readChunk L st).2.2 := by
  by_cases h : scriptHead st.world.readResults = S_OK
  · obtain ⟨h1, _, _, hw⟩ := readChunk_ok L st h
    exact blocks_single eng st _ _ _ (congrArg World.trace hw) (by simp [readShape])
      (by rw [h1]; simp [doneShape])
  · obtain ⟨h1, _, hw⟩ := readChunk_fail L st h
    exact blocks_single eng st _ _ _ (congrArg World.trace hw) (by simp [readShape, h])
      (by rw [h1]; simp [doneShape]; exact h)

theorem next_done (L : Locals) (res : CompressResult) :
    (Code.next L res).result = some S_OK ↔ L.ZSTD_todo = .ZSTD_e_end ∧ res.err = 0 := by
  unfold Code.next
  split_ifs with h1
  · simp [Next.result, h1]
  · simp [Next.result, h1]
  · simp [Next.result, h1]

theorem compressChunk_blocks {ε : Type} (eng : Engine ε) (L : Locals) (st : St ε) :
    Blocks eng st (Code.compressChunk eng L st).1.result (Code.compressChunk eng L st).2 := by
  by_cases hE : eng.ZSTD_isError (Code.callEngine eng L st).1.err = true
  · obtain ⟨h1, _, hw⟩ := compressChunk_error eng L st hE
    exact blocks_single eng st _ _ _ (congrArg World.trace hw) (by simp [passShape, hE])
      (by rw [h1]; simp [Next.result, E_FAIL, S_OK, doneShape, hE])
  have hE : eng.ZSTD_isError (Code.callEngine eng L st).1.err = false := by simpa using hE
  by_cases hD : (Code.callEngine eng L st).1.dst = []
  · obtain ⟨h1, _, hw⟩ := compressChunk_quiet eng L st hE hD
    exact blocks_single eng st _ _ _ (congrArg World.trace hw) (by simp [passShape, hD])
      (by rw [h1, next_done]; simp only [doneShape, hE, hD]; simp [hD])
  by_cases hW : scriptHead st.world.writeResults = S_OK
  · by_cases hP : scriptHead st.world.progressResults = S_OK
    · obtain ⟨h1, _, hw⟩ := compressChunk_ok eng L st hE hD hW hP
      exact blocks_single eng st _ _ _ (congrArg World.trace hw) (by simp [passShape, hE, hD])
        (by rw [h1, next_done]; simp only [doneShape, hE, hD]; simp [hD])
    · obtain ⟨h1, _, hw⟩ := compressChunk_progressFail eng L st hE hD hW hP
      exact blocks_single eng st _ _ _ (congrArg World.trace hw)
        (by simp [passShape, hE, hD, hP])
        (by rw [h1]; simp [Next.result, doneShape]; exact hP)
  · obtain ⟨h1, _, hw⟩ := compressChunk_writeFail eng L st hE hD hW
    exact blocks_single eng st _ _ _ (congrArg World.trace hw) (by simp [passShape, hE, hD, hW])
      (by rw [h1]; simp [Next.result, doneShape]; exact hW)

/-- The events the streaming loop adds are blocks of the read shape or of the
pass shape, and the loop returns `S_OK` exactly when the last block has the
done shape. -/
theorem loop_blocks {ε : Type} (eng : Engine ε) (fuel : Nat) (inner : Bool) (L : Locals)
    (st : St ε) :
    Blocks eng st (Code.loop eng fuel inner L st).1 (Code.loop eng fuel inner L st).2 :=
  loop_spec eng (Blocks eng) (blocks_refl eng) (blocks_trans eng) (readChunk_blocks eng)
    (compressChunk_blocks eng) fuel inner L st

/-- The events of a whole `Code` call: setup events, then blocks of the read
shape or of the pass shape; the call returns `S_OK` exactly when the last block
has the done shape. -/
theorem Code_blocks {ε : Type} (eng : Engine ε) (fuel : Nat) (st : St ε) :
    ∃ pre blocks, Extends st (Code eng fuel st).2 (pre ++ List.flatten blocks) ∧
      (∀ ev ∈ pre, ev.isSetup = true) ∧
      (∀ blk ∈ blocks, readShape blk = true ∨ passShape eng.ZSTD_isError blk = true) ∧
      ((Code eng fuel st).1 = some S_OK ↔
        ∃ blk, blocks.getLast? = some blk ∧ doneShape eng.ZSTD_isError blk = true) := by
  obtain ⟨_, _, _, _, _, _, _, _, _, x, hx, hxs⟩ := session_frame eng st
  have hnot := session_not_ok eng st
  unfold Code
  rcases hs : Code.session eng st with ⟨r, st1⟩
  rw [hs] at hx hnot
  cases r with
  | some hr =>
    refine ⟨x, [], by simpa using hx, hxs, by simp, ?_⟩
    simp only [List.getLast?_nil]
    constructor
    · intro h
      exact absurd h hnot
    · intro ⟨_, h, _⟩
      exact absurd h (by simp)
  | none =>
    obtain ⟨blocks, hb, hshape, hdone⟩ := loop_blocks eng fuel false Locals.entry st1
    exact ⟨x, blocks, extends_trans hx hb, hxs, hshape, hdone⟩

/-! ## Theorems: progress reports -/

theorem directivesOk_quiet (last : Option Nat) (xs ys : List Event)
    (h : ∀ ev ∈ xs, ev.isQuiet = true) : directivesOk last (xs ++ ys) = directivesOk last ys := by
  induction xs with
  | nil => rfl
  | cons ev rest ih =>
    have h1 := h ev (List.mem_cons_self _ _)
    have h2 := ih (fun ev hev => h ev (List.mem_cons_of_mem _ hev))
    cases ev <;> simp_all [directivesOk, Event.isQuiet]

theorem afterEnd_quiet (xs ys : List Event)
    (h : ∀ ev ∈ xs, ev.isQuiet = true) : afterEnd (xs ++ ys) = afterEnd ys := by
  induction xs with
  | nil => rfl
  | cons ev rest ih =>
    have h1 := h ev (List.mem_cons_self _ _)
    have h2 := ih (fun ev hev => h ev (List.mem_cons_of_mem _ hev))
    cases ev <;> simp_all [afterEnd, Event.isQuiet]

theorem endDiscipline_quiet (xs ys : List Event)
    (h : ∀ ev ∈ xs, ev.isQuiet = true) : endDiscipline (xs ++ ys) = endDiscipline ys := by
  induction xs with
  | nil => rfl
  | cons ev rest ih =>
    have h1 := h ev (List.mem_cons_self _ _)
    have h2 := ih (fun ev hev => h ev (List.mem_cons_of_mem _ hev))
    cases ev <;> simp_all [endDiscipline, Event.isQuiet]

theorem compressCalls_quiet (xs ys : List Event)
    (h : ∀ ev ∈ xs, ev.isQuiet = true) : compressCalls (xs ++ ys) = compressCalls ys := by
  induction xs with
  | nil => rfl
  | cons ev rest ih =>
    have h1 := h ev (List.mem_cons_self _ _)
    have h2 := ih (fun ev hev => h ev (List.mem_cons_of_mem _ hev))
    cases ev <;> simp_all [compressCalls, Event.isQuiet]

theorem quiet_of_setup (ev : Event) (h : ev.isSetup = true) : ev.isQuiet = true := by
  cases ev <;> simp_all [Event.isSetup, Event.isQuiet]

theorem afterEnd_calls (xs : List Event) (h : afterEnd xs = true) :
    ∀ c ∈ compressCalls xs, c = (finishBuff, ZSTD_EndDirective.ZSTD_e_end) := by
  induction xs with
  | nil => intro c hc; simp [compressCalls] at hc
  | cons ev rest ih =>
    intro c hc
    cases ev with
    | compress inB todo res =>
      simp only [afterEnd, Bool.and_eq_true, decide_eq_true_eq] at h
      simp only [compressCalls, List.mem_cons] at hc
      rcases hc with hc | hc
      · rw [hc, h.1.1, h.1.2]
      · exact ih h.2 c hc
    | read sz hr n =>
      simp only [afterEnd, Bool.and_eq_true] at h
      exact ih h.2 c hc
    | _ => exact ih h c hc

/-- One pass of the inner loop adds the engine call followed by events that
are neither reads nor engine calls, and leaves the input and the chunk size
alone. -/
theorem compressChunk_events {ε : Type} (eng : Engine ε) (L : Locals) (st : St ε) :
    ∃ tail, Extends st (Code.compressChunk eng L st).2
        (Event.compress (Code.inBuff L) L.ZSTD_todo (Code.callEngine eng L st).1 :: tail) ∧
      (∀ ev ∈ tail, ev.isQuiet = true) ∧
      (Code.compressChunk eng L st).2.enc._srcBufSize = st.enc._srcBufSize ∧
      (Code.compressChunk eng L st).2.world.inStream = st.world.inStream := by
  obtain ⟨c1, _, c3, _, _⟩ := compressChunk_counts eng L st
  by_cases hE : eng.ZSTD_isError (Code.callEngine eng L st).1.err = true
  · obtain ⟨_, _, hw⟩ := compressChunk_error eng L st hE
    exact ⟨[], congrArg World.trace hw, by simp, c1, c3⟩
  have hE : eng.ZSTD_isError (Code.callEngine eng L st).1.err = false := by simpa using hE
  by_cases hD : (Code.callEngine eng L st).1.dst = []
  · obtain ⟨_, _, hw⟩ := compressChunk_quiet eng L st hE hD
    exact ⟨[], congrArg World.trace hw, by simp, c1, c3⟩
  by_cases hW : scriptHead st.world.writeResults = S_OK
  · by_cases hP : scriptHead st.world.progressResults = S_OK
    · obtain ⟨_, _, hw⟩ := compressChunk_ok eng L st hE hD hW hP
      exact ⟨[_, _, _, _, _], congrArg World.trace hw, by simp [Event.isQuiet], c1, c3⟩
    · obtain ⟨_, _, hw⟩ := compressChunk_progressFail eng L st hE hD hW hP
      exact ⟨[_, _, _, _], congrArg World.trace hw, by simp [Event.isQuiet], c1, c3⟩
  · obtain ⟨_, _, hw⟩ := compressChunk_writeFail eng L st hE hD hW
    exact ⟨[_], congrArg World.trace hw, by simp [Event.isQuiet], c1, c3⟩

theorem inBuff_size (L : Locals) : (Code.inBuff L).size = L.srcSize := by
  unfold Code.inBuff
  split_ifs <;> rfl

theorem directiveSpec_nil (last : Option Nat) (L : Locals) : DirectiveSpec last L [] :=
  ⟨rfl, by simp [compressCalls], fun _ => rfl, rfl⟩

/-- The directive discipline of one pass of the inner loop followed by more
events of the loop. -/
theorem directiveSpec_pass (last : Option Nat) (L : Locals) (res : CompressResult)
    (tail y : List Event)
    (h1 : last = some L.srcSize)
    (h2 : L.ZSTD_todo = (if L.srcSize = 0 then ZSTD_EndDirective.ZSTD_e_end
      else ZSTD_EndDirective.ZSTD_e_continue))
    (hq : ∀ ev ∈ tail, ev.isQuiet = true) (hy : DirectiveSpec last L y) :
    DirectiveSpec last L (Event.compress (Code.inBuff L) L.ZSTD_todo res :: tail ++ y) := by
  obtain ⟨y1, y2, y3, y4⟩ := hy
  have hend : L.ZSTD_todo = ZSTD_EndDirective.ZSTD_e_end → L.srcSize = 0 := by
    intro h
    by_contra hne
    rw [if_neg hne] at h2
    rw [h2] at h
    exact absurd h (by decide)
  refine ⟨?_, ?_, ?_, ?_⟩
  · rw [List.cons_append]
    simp only [directivesOk]
    rw [directivesOk_quiet last tail y hq, y1, h1]
    simp only [inBuff_size, Bool.and_true, decide_eq_true_eq]
    exact ⟨trivial, h2⟩
  · rw [List.cons_append]
    simp only [compressCalls]
    rw [compressCalls_quiet tail y hq, List.pairwise_cons]
    refine ⟨?_, y2⟩
    intro d hd ht
    rw [afterEnd_calls y (y3 ht) d hd]
  · intro ht
    rw [List.cons_append]
    simp only [afterEnd]
    rw [afterEnd_quiet tail y hq, y3 ht, inBuff_finish L ht (hend ht)]
    simp [ht]
  · rw [List.cons_append]
    simp only [endDiscipline]
    rw [endDiscipline_quiet tail y hq, y4]

/-- Directive discipline of the streaming loop, from the head of either
loop. -/
theorem loop_directives {ε : Type} (eng : Engine ε) (fuel : Nat) (inner : Bool)
    (last : Option Nat) (L : Locals) (st : St ε) (hinv : DirectiveInv inner last L st) :
    ∃ evs, Extends st (Code.loop eng fuel inner L st).2 evs ∧ DirectiveSpec last L evs := by
  induction fuel generalizing inner last L st with
  | zero => rw [loop_zero]; exact ⟨[], extends_refl st, directiveSpec_nil last L⟩
  | succ fuel ih =>
    cases inner with
    | false =>
      have hread := hinv.2 rfl
      rw [loop_read]
      by_cases h : scriptHead st.world.readResults = S_OK
      · obtain ⟨h1, h2, he, hw⟩ := readChunk_ok L st h
        rcases hr : Code.readChunk L st with ⟨r, L1, st1⟩
        rw [hr] at h1 h2 he hw
        simp only [] at h1 h2 he hw
        subst h1
        simp only []
        have hsz : st1.enc._srcBufSize = st.enc._srcBufSize := by rw [he]
        have hdrop : st1.world.inStream = st.world.inStream.drop st.enc._srcBufSize := by rw [hw]
        have hx : Extends st st1 _ := congrArg World.trace hw
        have hlen : (st.world.inStream.take st.enc._srcBufSize).length = 0 →
            Ended st1 := by
          intro h0
          rw [List.length_take] at h0
          by_cases hs : st.enc._srcBufSize = 0
          · left; rw [hsz]; exact hs
          · right
            have : st.world.inStream.length = 0 := by omega
            rw [hdrop, List.length_eq_zero.mp this, List.drop_nil]
        have hzero : Ended st → (st.world.inStream.take st.enc._srcBufSize).length = 0 := by
          intro hE
          rcases hE with hE | hE
          · rw [hE]; simp
          · rw [hE]; simp
        have hL1s : L1.srcSize = (st.world.inStream.take st.enc._srcBufSize).length := by
          rw [h2]
        have hL1t : L1.ZSTD_todo =
            (if L1.srcSize = 0 then ZSTD_EndDirective.ZSTD_e_end
              else ZSTD_EndDirective.ZSTD_e_continue) := by
          rw [h2]
          simp only []
          by_cases h0 : (st.world.inStream.take st.enc._srcBufSize).length = 0
          · rw [if_pos h0, if_pos h0]
          · rw [if_neg h0, if_neg h0]
            rcases hread with hc | ⟨_, hE⟩
            · exact hc
            · exact absurd (hzero hE) h0
        have hinv1 : DirectiveInv true (some L1.srcSize) L1 st1 :=
          ⟨fun _ => ⟨rfl, hL1t, fun h0 => hlen (hL1s ▸ h0)⟩, fun h0 => absurd h0 (by simp)⟩
        obtain ⟨y, hy, y1, y2, y3, y4⟩ := ih true (some L1.srcSize) L1 st1 hinv1
        refine ⟨_, extends_trans hx hy, ?_, ?_, ?_, ?_⟩
        · simp only [List.cons_append, List.nil_append, directivesOk, if_true]
          rw [← hL1s]
          exact y1
        · simp only [List.cons_append, List.nil_append, compressCalls]
          exact y2
        · intro ht
          have hE : Ended st := by
            rcases hread with hc | ⟨_, hE⟩
            · rw [hc] at ht; exact absurd ht (by decide)
            · exact hE
          have h0 := hzero hE
          have ht1 : L1.ZSTD_todo = ZSTD_EndDirective.ZSTD_e_end := by
            rw [hL1t, if_pos (hL1s.trans h0)]
          simp only [List.cons_append, List.nil_append, afterEnd, h0, decide_True, Bool.true_and]
          exact y3 ht1
        · simp only [List.cons_append, List.nil_append, endDiscipline, true_and]
          by_cases h0 : (st.world.inStream.take st.enc._srcBufSize).length = 0
          · have ht1 : L1.ZSTD_todo = ZSTD_EndDirective.ZSTD_e_end := by
              rw [hL1t, if_pos (hL1s.trans h0)]
            rw [if_pos h0]
            simp only [afterEnd]
            exact y3 ht1
          · rw [if_neg h0]
            exact y4
      · obtain ⟨h1, _, hw⟩ := readChunk_fail L st h
        rcases hr : Code.readChunk L st with ⟨r, L1, st1⟩
        rw [hr] at h1 hw
        simp only [] at h1 hw
        subst h1
        simp only []
        refine ⟨_, congrArg World.trace hw, ?_, ?_, ?_, ?_⟩
        · simp [directivesOk]
        · simp [compressCalls]
        · intro _; simp [afterEnd]
        · simp [endDiscipline, h, afterEnd]
    | true =>
      obtain ⟨i1, i2, i3⟩ := hinv.1 rfl
      rw [loop_compress]
      obtain ⟨tail, hx, hq, c1, c3⟩ := compressChunk_events eng L st
      rcases hr : Code.compressChunk eng L st with ⟨nx, st1⟩
      rw [hr] at hx c1 c3
      simp only [] at hx c1 c3
      have hended : Ended st → Ended st1 := by
        intro hE
        rcases hE with hE | hE
        · left; rw [c1]; exact hE
        · right; rw [c3]; exact hE
      cases nx with
      | ret hr1 =>
        refine ⟨_, hx, ?_⟩
        have := directiveSpec_pass last L (Code.callEngine eng L st).1 tail [] i1 i2 hq
          (directiveSpec_nil last L)
        simpa using this
      | more =>
        have hinv1 : DirectiveInv false last L st1 := by
          refine ⟨fun h0 => absurd h0 (by simp), fun _ => ?_⟩
          by_cases h0 : L.srcSize = 0
          · right
            rw [if_pos h0] at i2
            exact ⟨i2, hended (i3 h0)⟩
          · left
            rw [if_neg h0] at i2
            exact i2
        obtain ⟨y, hy, hys⟩ := ih false last L st1 hinv1
        exact ⟨_, extends_trans hx hy,
          directiveSpec_pass last L (Code.callEngine eng L st).1 tail y i1 i2 hq hys⟩
      | again =>
        have hinv1 : DirectiveInv true last L st1 :=
          ⟨fun _ => ⟨i1, i2, fun h0 => hended (i3 h0)⟩, fun h0 => absurd h0 (by simp)⟩
        obtain ⟨y, hy, hys⟩ := ih true last L st1 hinv1
        exact ⟨_, extends_trans hx hy,
          directiveSpec_pass last L (Code.callEngine eng L st).1 tail y i1 i2 hq hys⟩

/-- Directive discipline of a whole `Code` call: setup events, then events of
the streaming loop that satisfy the discipline from the locals at entry. -/
theorem Code_directives {ε : Type} (eng : Engine ε) (fuel : Nat) (st : St ε) :
    ∃ pre y, Extends st (Code eng fuel st).2 (pre ++ y) ∧
      (∀ ev ∈ pre, ev.isSetup = true) ∧ DirectiveSpec none Locals.entry y := by
  obtain ⟨_, _, _, _, _, _, _, _, _, x, hx, hxs⟩ := session_frame eng st
  unfold Code
  rcases hs : Code.session eng st with ⟨r, st1⟩
  rw [hs] at hx
  cases r with
  | some hr => exact ⟨x, [], by simpa using hx, hxs, directiveSpec_nil none Locals.entry⟩
  | none =>
    have hinv : DirectiveInv false none Locals.entry st1 :=
      ⟨fun h0 => absurd h0 (by simp), fun _ => Or.inl rfl⟩
    obtain ⟨y, hy, hys⟩ := loop_directives eng fuel false none Locals.entry st1 hinv
    exact ⟨x, y, extends_trans hx hy, hxs, hys⟩

/-- C16 (amended): in every `Code` call, every engine call follows a successful
read and is shown a chunk of the size that read delivered, with the continue
directive when the chunk is non-empty and the end directive when it is empty;
the directive never changes back from end; and `Code` returns `S_OK` if and
only if the last pass of the inner loop made an engine call with the end
directive that reported zero remaining work without error and whose output, if
any, was written to the sink and reported to the progress sink without
failure. -/
theorem Code_directive_discipline {ε : Type} (eng : Engine ε) (fuel : Nat) (st : St ε)
    (evs : List Event)
    (htrace : (Code eng fuel st).2.world.trace = st.world.trace ++ evs) :
    directivesOk none evs = true ∧
    (compressCalls evs).Pairwise
      (fun c d => c.2 = ZSTD_EndDirective.ZSTD_e_end → d.2 = ZSTD_EndDirective.ZSTD_e_end) ∧
    ∃ pre blocks, evs = pre ++ List.flatten blocks ∧
      (∀ ev ∈ pre, ev.isSetup = true) ∧
      (∀ blk ∈ blocks, readShape blk = true ∨ passShape eng.ZSTD_isError blk = true) ∧
      ((Code eng fuel st).1 = some S_OK ↔
        ∃ blk, blocks.getLast? = some blk ∧ doneShape eng.ZSTD_isError blk = true) := by
  obtain ⟨pre, y, hx, hpre, h1, h2, _, _⟩ := Code_directives eng fuel st
  have hev : evs = pre ++ y := extends_unique htrace hx
  have hq : ∀ ev ∈ pre, ev.isQuiet = true := fun ev hev => quiet_of_setup ev (hpre ev hev)
  obtain ⟨pre2, blocks, hb, hpre2, hshape, hdone⟩ := Code_blocks eng fuel st
  refine ⟨?_, ?_, pre2, blocks, extends_unique htrace hb, hpre2, hshape, hdone⟩
  · rw [hev, directivesOk_quiet none pre y hq]
    exact h1
  · rw [hev, compressCalls_quiet pre y hq]
    exact h2

/-- Witness of C16 (amended): three bytes in chunks of two, then the finish
call. -/
theorem Code_directive_discipline_witness :
    directivesOk none (Code echoEngine 10 chunkedRun).2.world.trace = true ∧
    (compressCalls (Code echoEngine 10 chunkedRun).2.world.trace).Pairwise
      (fun c d => c.2 = ZSTD_EndDirective.ZSTD_e_end → d.2 = ZSTD_EndDirective.ZSTD_e_end) ∧
    ∃ pre blocks, (Code echoEngine 10 chunkedRun).2.world.trace = pre ++ List.flatten blocks ∧
      (∀ ev ∈ pre, ev.isSetup = true) ∧
      (∀ blk ∈ blocks, readShape blk = true ∨ passShape echoEngine.ZSTD_isError blk = true) ∧
      ((Code echoEngine 10 chunkedRun).1 = some S_OK ↔
        ∃ blk, blocks.getLast? = some blk ∧ doneShape echoEngine.ZSTD_isError blk = true) :=
  Code_directive_discipline echoEngine 10 chunkedRun (Code echoEngine 10 chunkedRun).2.world.trace
    (by decide)

/-! ## Theorems: the parameters pushed at first use -/

theorem pushedParams_append (xs ys : List Event) :
    pushedParams (xs ++ ys) = pushedParams xs ++ pushedParams ys := by
  induction xs with
  | nil => rfl
  | cons ev rest ih => cases ev <;> simp [pushedParams, ih]

theorem pushedParams_of_not_setup (xs : List Event) (h : ∀ ev ∈ xs, ev.isSetup = false) :
    pushedParams xs = [] := by
  induction xs with
  | nil => rfl
  | cons ev rest ih =>
    have h1 := h ev (List.mem_cons_self _ _)
    have h2 := ih (fun ev hev => h ev (List.mem_cons_of_mem _ hev))
    cases ev <;> simp_all [pushedParams, Event.isSetup]

/-- A run of statements that falls through makes the pushes of its
descriptions. -/
theorem runStmts_pushes {ε : Type} (stmts : List (Stmt ε)) (specs : List PushSpec)
    (hall : List.Forall₂ StmtPushes stmts specs) (st : St ε)
    (h : (runStmts stmts st).1 = none) :
    ∃ evs, Extends st (runStmts stmts st).2 evs ∧ pushedParams evs = pushesOf specs st.enc := by
  induction hall generalizing st with
  | nil => exact ⟨[], extends_refl st, rfl⟩
  | @cons s d stmts specs hs _ ih =>
    unfold runStmts at h ⊢
    have hs1 := hs st
    rcases hx : s st with ⟨r, st1⟩
    rw [hx] at h hs1
    cases r with
    | some hr => simp at h
    | none =>
      simp only [] at h hs1 ⊢
      obtain ⟨he, x, hx1, hxp⟩ := hs1 trivial
      obtain ⟨y, hy, hyp⟩ := ih st1 h
      refine ⟨x ++ y, extends_trans hx1 hy, ?_⟩
      rw [pushedParams_append, hxp, hyp, he]
      rfl

theorem createCtx_pushes {ε : Type} (eng : Engine ε) :
    StmtPushes (Code.createCtx eng) (PushSpec.silent (fun e => { e with _ctx := true })) := by
  intro st h
  unfold Code.createCtx at h ⊢
  simp only [] at h ⊢
  have hc : (eng.ZSTD_createCCtx st.world.engine).1 = true := by
    by_contra hne
    have hf : (eng.ZSTD_createCCtx st.world.engine).1 = false := by simpa using hne
    rw [hf] at h
    simp at h
  rw [hc]
  exact ⟨rfl, [_], rfl, rfl⟩

theorem allocSrc_pushes {ε : Type} :
    StmtPushes (Code.allocSrc : Stmt ε) (PushSpec.silent (fun e => { e with _srcBuf := true })) := by
  intro st h
  unfold Code.allocSrc at h ⊢
  simp only [] at h ⊢
  have hc : (MyAlloc st st.enc._srcBufSize).1 = true := by
    by_contra hne
    have hf : (MyAlloc st st.enc._srcBufSize).1 = false := by simpa using hne
    rw [hf] at h
    simp at h
  rw [hc]
  exact ⟨rfl, [_], rfl, rfl⟩

theorem allocDst_pushes {ε : Type} :
    StmtPushes (Code.allocDst : Stmt ε) (PushSpec.silent (fun e => { e with _dstBuf := true })) := by
  intro st h
  unfold Code.allocDst at h ⊢
  simp only [] at h ⊢
  have hc : (MyAlloc st st.enc._dstBufSize).1 = true := by
    by_contra hne
    have hf : (MyAlloc st st.enc._dstBufSize).1 = false := by simpa using hne
    rw [hf] at h
    simp at h
  rw [hc]
  exact ⟨rfl, [_], rfl, rfl⟩

theorem push_pushes {ε : Type} (eng : Engine ε) (param : ZSTD_cParameter)
    (value : CEncoder → Nat) :
    StmtPushes (Code.push eng param value) (PushSpec.always param value) := by
  intro st h
  unfold Code.push at h ⊢
  simp only [] at h ⊢
  have hc : eng.ZSTD_isError
      (eng.ZSTD_CCtx_setParameter st.world.engine param (value st.enc)).1 = false := by
    by_contra hne
    have hf : eng.ZSTD_isError
        (eng.ZSTD_CCtx_setParameter st.world.engine param (value st.enc)).1 = true := by
      simpa using hne
    rw [hf] at h
    simp at h
  rw [hc]
  exact ⟨rfl, [_], rfl, rfl⟩

theorem pushIf_pushes {ε : Type} (eng : Engine ε) (cond : CEncoder → Bool)
    (param : ZSTD_cParameter) (value : CEncoder → Nat) :
    StmtPushes (Code.pushIf eng cond param value) (PushSpec.guarded cond param value) := by
  intro st h
  unfold Code.pushIf at h ⊢
  by_cases hc : cond st.enc = true
  · rw [if_pos hc] at h ⊢
    obtain ⟨he, evs, hx, hp⟩ := push_pushes eng param value st h
    exact ⟨he, evs, hx, by rw [hp]; simp [PushSpec.guarded, PushSpec.always, hc]⟩
  · rw [if_neg hc]
    exact ⟨rfl, [], extends_refl st, by simp [PushSpec.guarded, hc, pushedParams]⟩

theorem resolveLong_pushes {ε : Type} :
    StmtPushes (Code.resolveLong : Stmt ε)
      (PushSpec.silent (fun e => if e._WindowLog > 27 ∧ e._Long = 0 then { e with _Long := 1 }
        else e)) := by
  intro st _
  unfold Code.resolveLong PushSpec.silent
  simp only []
  split_ifs
  · exact ⟨rfl, [], by simp [Extends], rfl⟩
  · exact ⟨rfl, [], extends_refl st, rfl⟩

theorem session_stmts_pushes {ε : Type} (eng : Engine ε) :
    List.Forall₂ StmtPushes (Code.allocStmts eng ++ Code.paramStmts eng) sessionPushSpecs :=
  (List.Forall₂.cons (createCtx_pushes eng)
    (List.Forall₂.cons (allocSrc_pushes)
    (List.Forall₂.cons (allocDst_pushes)
    (List.Forall₂.cons (push_pushes eng _ _)
    (List.Forall₂.cons (push_pushes eng _ _)
    (List.Forall₂.cons (push_pushes eng _ _)
    (List.Forall₂.cons (resolveLong_pushes)
    (List.Forall₂.cons (pushIf_pushes eng _ _ _)
    (List.Forall₂.cons (pushIf_pushes eng _ _ _)
    (List.Forall₂.cons (pushIf_pushes eng _ _ _)
    (List.Forall₂.cons (pushIf_pushes eng _ _ _)
    (List.Forall₂.cons (pushIf_pushes eng _ _ _)
    (List.Forall₂.cons (pushIf_pushes eng _ _ _)
    (List.Forall₂.cons (pushIf_pushes eng _ _ _)
    (List.Forall₂.cons (pushIf_pushes eng _ _ _)
    (List.Forall₂.cons (pushIf_pushes eng _ _ _)
    (List.Forall₂.cons (pushIf_pushes eng _ _ _)
    (List.Forall₂.cons (pushIf_pushes eng _ _ _)
    (List.Forall₂.cons (pushIf_pushes eng _ _ _)
    (List.Forall₂.cons (pushIf_pushes eng _ _ _)
    List.Forall₂.nil))))))))))))))))))))

theorem toUInt32_one : toUInt32 1 = 1 := by decide

/-- The pushes of the descriptions of the session block are the expected
pushes. -/
theorem pushesOf_session (e : CEncoder) : pushesOf sessionPushSpecs e = expectedPushes e := by
  by_cases hc : e._WindowLog > 27 ∧ e._Long = 0
  · simp [pushesOf, sessionPushSpecs, PushSpec.silent, PushSpec.always, PushSpec.guarded,
      expectedPushes, pushWhenSet, resolvedLong, hc, toUInt32_one]
  · by_cases hl : e._Long = 1
    · simp [pushesOf, sessionPushSpecs, PushSpec.silent, PushSpec.always, PushSpec.guarded,
        expectedPushes, pushWhenSet, resolvedLong, hc, hl, toUInt32_one]
    · simp [pushesOf, sessionPushSpecs, PushSpec.silent, PushSpec.always, PushSpec.guarded,
        expectedPushes, pushWhenSet, resolvedLong, hc, hl]

/-- On a `Code` call that constructs the session (no context yet) and whose
session construction succeeds, the parameters pushed to the engine are the
expected pushes of the encoder fields at entry. -/
theorem session_pushes_expected {ε : Type} (eng : Engine ε) (fuel : Nat) (st : St ε) (evs : List Event)
    (hctx : st.enc._ctx = false) (hses : (Code.session eng st).1 = none)
    (htrace : (Code eng fuel st).2.world.trace = st.world.trace ++ evs) :
    pushedParams evs = expectedPushes st.enc := by
  have htrace : Extends st (Code eng fuel st).2 evs := htrace
  unfold Code at htrace
  have hrun : Code.session eng st = runStmts (Code.allocStmts eng ++ Code.paramStmts eng) st := by
    simp [Code.session, hctx]
  rcases hs : Code.session eng st with ⟨r, st1⟩
  rw [hs] at hses htrace
  simp only [] at hses
  subst hses
  simp only [] at htrace
  rw [hs] at hrun
  obtain ⟨x, hx, hxp⟩ := runStmts_pushes _ _ (session_stmts_pushes eng) st
    (by rw [← hrun])
  rw [← hrun] at hx
  obtain ⟨y, hy, hys⟩ := loop_extends eng fuel false Locals.entry st1
  have hev : evs = x ++ y := extends_unique htrace (extends_trans hx hy)
  rw [hev, pushedParams_append, hxp, pushedParams_of_not_setup y hys, List.append_nil,
    pushesOf_session]

/-- The property loop leaves a field at `-1` exactly when it started at `-1`
and no processed property assigns it, given that every iteration does. -/
theorem loop_set (K : Consts) (get : CEncoder → Int) (hit : PROPID → PROPVARIANT → Bool)
    (hbody : ∀ e id p, (SetCoderProperties.body K e id p).1 = none →
      (get (SetCoderProperties.body K e id p).2 ≠ -1 ↔ get e ≠ -1 ∨ hit id p = true))
    (ps : List (PROPID × PROPVARIANT)) (e : CEncoder)
    (h : (SetCoderProperties.loop K e ps).1 = S_OK) :
    get (SetCoderProperties.loop K e ps).2 ≠ -1 ↔ get e ≠ -1 ∨ ∃ x ∈ ps, hit x.1 x.2 = true := by
  induction ps generalizing e with
  | nil => simp [loop_nil]
  | cons q rest ih =>
    obtain ⟨id, p⟩ := q
    rcases hb : SetCoderProperties.body K e id p with ⟨r, e1⟩
    cases r with
    | none =>
      rw [loop_cons_none K e e1 id p rest hb] at h ⊢
      have h1 := hbody e id p (by rw [hb])
      rw [hb] at h1
      simp only [] at h1
      rw [ih e1 h, h1]
      simp only [List.mem_cons, exists_eq_or_imp, or_assoc]
    | some hr =>
      rw [loop_cons_some K e e1 id p rest hr hb] at h
      have := body_some K e id p hr (by rw [hb])
      simp only [] at h
      rw [h] at this
      exact absurd this (by decide)

theorem toInt32_clamp_ne (lo hi v : Nat) (h : hi < 2147483648) :
    toInt32 (clampStmts lo hi v) ≠ -1 := by
  rw [clampStmts_eq, toInt32_of_lt (lt_of_le_of_lt (Nat.min_le_right _ _) h)]
  omega

/-- One iteration of the property loop and the field of a range-checked
property. -/
theorem body_set (K : Consts) (f : RangeField) (hhi : f.hi K < 2147483648)
    (hK : K.ZSTD_HASHLOG_MIN ≤ K.ZSTD_WINDOWLOG_MAX) (e : CEncoder) (id : PROPID)
    (p : PROPVARIANT) (_h : (SetCoderProperties.body K e id p).1 = none) :
    f.get (SetCoderProperties.body K e id p).2 ≠ -1 ↔ f.get e ≠ -1 ∨ f.assignedBy K id p = true := by
  by_cases hid : id = f.propID
  · subst hid
    rw [(body_rangeField K e f p hhi hK).2]
    simp [RangeField.assignedBy]
    omega
  · cases id <;> cases f <;>
      simp [SetCoderProperties.body, RangeField.get, RangeField.assignedBy, RangeField.propID,
        SetNumberOfThreads] at hid ⊢ <;>
      (try split_ifs) <;> simp_all

/-- One iteration of the property loop and the target-length field. -/
theorem body_set_targetLen (K : Consts) (e : CEncoder) (id : PROPID) (p : PROPVARIANT)
    (_h : (SetCoderProperties.body K e id p).1 = none) :
    (SetCoderProperties.body K e id p).2._TargetLen ≠ -1
      ↔ e._TargetLen ≠ -1 ∨ decide (id = PROPID.kTargetLen) = true := by
  cases id <;> simp [SetCoderProperties.body, SetNumberOfThreads] <;> (try split_ifs) <;> simp_all

/-- The property loop does not touch the compression context. -/
theorem loop_ctx (K : Consts) (ps : List (PROPID × PROPVARIANT)) (e : CEncoder) :
    (SetCoderProperties.loop K e ps).2._ctx = e._ctx := by
  induction ps generalizing e with
  | nil => rfl
  | cons q rest ih =>
    obtain ⟨id, p⟩ := q
    have hc : (SetCoderProperties.body K e id p).2._ctx = e._ctx := by
      cases id <;> simp [SetCoderProperties.body, SetNumberOfThreads] <;> (try split_ifs) <;> rfl
    rcases hb : SetCoderProperties.body K e id p with ⟨r, e1⟩
    rw [hb] at hc
    cases r with
    | none => rw [loop_cons_none K e e1 id p rest hb, ih e1]; exact hc
    | some hr => rw [loop_cons_some K e e1 id p rest hr hb]; exact hc

/-- C12: take an encoder configured from its constructed state by one
successful `SetCoderProperties` call (engine limits below `2^31`), and a first
`Code` call on it whose session construction succeeds, so that the engine
accepts every parameter.  The parameters pushed to the engine are exactly, in
this order: level, worker threads, content-size flag 1, "enable long-distance
matching" when the toggle resolved to on, then strategy, window log, hash log,
chain log, search log, minimum match, target length, overlap log, LDM hash log,
LDM minimum match, LDM bucket-size log and LDM hash-every log, each of these
pushed exactly when its field differs from the `-1` of the constructor; and a
field differs from `-1` if and only if a property of the configuration assigned
it. -/
theorem Code_pushes {ε : Type} (K : Consts) (eng : Engine ε) (fuel : Nat)
    (props : List (PROPID × PROPVARIANT)) (st : St ε) (evs : List Event)
    (hK : K.ZSTD_HASHLOG_MIN ≤ K.ZSTD_WINDOWLOG_MAX)
    (hhi : ∀ f : RangeField, f.hi K < 2147483648)
    (hcfg : SetCoderProperties K (CEncoder.new K) props = (S_OK, st.enc))
    (hses : (Code.session eng st).1 = none)
    (htrace : (Code eng fuel st).2.world.trace = st.world.trace ++ evs) :
    pushedParams evs = expectedPushes st.enc ∧
    (∀ f : RangeField,
      f.get st.enc ≠ -1 ↔ ∃ x ∈ props, f.assignedBy K x.1 x.2 = true) ∧
    (st.enc._TargetLen ≠ -1 ↔ ∃ x ∈ props, x.1 = PROPID.kTargetLen) := by
  have hok : (SetCoderProperties.loop K
      { CEncoder.new K with _props := CProps.clear K } props).1 = S_OK := by
    have := congrArg Prod.fst hcfg
    exact this
  have henc : (SetCoderProperties.loop K
      { CEncoder.new K with _props := CProps.clear K } props).2 = st.enc := by
    have := congrArg Prod.snd hcfg
    exact this
  have hctx : st.enc._ctx = false := by
    rw [← henc, loop_ctx]
    rfl
  refine ⟨session_pushes_expected eng fuel st evs hctx hses htrace, ?_, ?_⟩
  · intro f
    have := loop_set K f.get (f.assignedBy K) (body_set K f (hhi f) hK) props _ hok
    rw [henc] at this
    rw [this]
    have h0 : ¬ f.get { CEncoder.new K with _props := CProps.clear K } ≠ -1 := by
      cases f <;> simp [RangeField.get, CEncoder.new]
    simp only [h0, false_or]
  · have := loop_set K (fun e => e._TargetLen) (fun id _ => decide (id = PROPID.kTargetLen))
      (body_set_targetLen K) props _ hok
    rw [henc] at this
    simp only [] at this
    rw [this]
    simp [CEncoder.new]

/-- Witness of C12: a fresh encoder configured with `long = 0`, `strategy = 3`
and a target length, run on an empty input: the pushes are level 3, 4 workers,
the content-size flag, long-distance matching, strategy 3, window log 27 and
target length 0. -/
theorem Code_pushes_witness :
    zstdConsts.ZSTD_HASHLOG_MIN ≤ zstdConsts.ZSTD_WINDOWLOG_MAX ∧
    (∀ f : RangeField, f.hi zstdConsts < 2147483648) ∧
    SetCoderProperties zstdConsts (CEncoder.new zstdConsts) configuredProps
      = (S_OK, configuredRun.enc) ∧
    (Code.session echoEngine configuredRun).1 = none ∧
    (Code echoEngine 4 configuredRun).2.world.trace = configuredRun.world.trace ++
      (Code echoEngine 4 configuredRun).2.world.trace ∧
    pushedParams (Code echoEngine 4 configuredRun).2.world.trace
      = [(.ZSTD_p_compressionLevel, 3), (.ZSTD_p_nbWorkers, 4), (.ZSTD_p_contentSizeFlag, 1),
         (.ZSTD_p_enableLongDistanceMatching, 1), (.ZSTD_p_compressionStrategy, 3),
         (.ZSTD_p_windowLog, 27), (.ZSTD_p_targetLength, 0)] ∧
    expectedPushes configuredRun.enc = pushedParams (Code echoEngine 4 configuredRun).2.world.trace ∧
    (∀ f : RangeField,
      f.get configuredRun.enc ≠ -1 ↔
        ∃ x ∈ configuredProps, f.assignedBy zstdConsts x.1 x.2 = true) ∧
    (configuredRun.enc._TargetLen ≠ -1 ↔ ∃ x ∈ configuredProps, x.1 = PROPID.kTargetLen) :=
  have h := Code_pushes zstdConsts echoEngine 4 configuredProps configuredRun
    (Code echoEngine 4 configuredRun).2.world.trace (by decide) (by intro f; cases f <;> decide)
    (by decide) (by decide) (by decide)
  ⟨by decide, by intro f; cases f <;> decide, by decide, by decide, by decide, by decide,
    h.1.symm, h.2.1, h.2.2⟩

/-! ## Theorems: reading again between finish calls -/

theorem finishFollowsRead_quiet (fresh : Bool) (xs ys : List Event)
    (h : ∀ ev ∈ xs, ev.isQuiet = true) :
    finishFollowsRead fresh (xs ++ ys) = finishFollowsRead fresh ys := by
  induction xs with
  | nil => rfl
  | cons ev rest ih =>
    have h1 := h ev (List.mem_cons_self _ _)
    have h2 := ih (fun ev hev => h ev (List.mem_cons_of_mem _ hev))
    cases ev <;> simp_all [finishFollowsRead, Event.isQuiet]

/-- Under the directive discipline every finish call is shown an empty
chunk. -/
theorem directivesOk_finish (last : Option Nat) (xs : List Event)
    (h : directivesOk last xs = true) (inB : ZSTD_inBuffer) (res : CompressResult)
    (hmem : Event.compress inB ZSTD_EndDirective.ZSTD_e_end res ∈ xs) : inB.size = 0 := by
  induction xs generalizing last with
  | nil => simp at hmem
  | cons ev rest ih =>
    cases ev with
    | compress inB1 todo1 res1 =>
      simp only [directivesOk, Bool.and_eq_true] at h
      rcases List.mem_cons.mp hmem with hm | hm
      · injection hm with e1 e2 e3
        subst e1 e2 e3
        cases last with
        | none => simp at h
        | some n =>
          have h1 := h.1
          simp only [decide_eq_true_eq] at h1
          by_cases hn : n = 0
          · rw [h1.1, hn]
          · rw [if_neg hn] at h1
            exact absurd h1.2 (by decide)
      · exact ih last h.2 hm
    | read sz hr n =>
      simp only [directivesOk] at h
      rcases List.mem_cons.mp hmem with hm | hm
      · exact absurd hm (by simp)
      · exact ih _ h hm
    | _ =>
      simp only [directivesOk] at h
      rcases List.mem_cons.mp hmem with hm | hm
      · exact absurd hm (by simp)
      · exact ih _ h hm

/-- A pass of the inner loop that repeats the inner loop saw the engine leave
the position away from the size of the chunk. -/
theorem compressChunk_again {ε : Type} (eng : Engine ε) (L : Locals) (st : St ε)
    (h : (Code.compressChunk eng L st).1 = Next.again) :
    (Code.callEngine eng L st).1.inPos ≠ (Code.inBuff L).size := by
  have hnext : Code.next L (Code.callEngine eng L st).1 = Next.again := by
    by_cases hE : eng.ZSTD_isError (Code.callEngine eng L st).1.err = true
    · rw [(compressChunk_error eng L st hE).1] at h
      exact absurd h (by simp)
    have hE : eng.ZSTD_isError (Code.callEngine eng L st).1.err = false := by simpa using hE
    by_cases hD : (Code.callEngine eng L st).1.dst = []
    · rw [← (compressChunk_quiet eng L st hE hD).1]; exact h
    by_cases hW : scriptHead st.world.writeResults = S_OK
    · by_cases hP : scriptHead st.world.progressResults = S_OK
      · rw [← (compressChunk_ok eng L st hE hD hW hP).1]; exact h
      · rw [(compressChunk_progressFail eng L st hE hD hW hP).1] at h
        exact absurd h (by simp)
    · rw [(compressChunk_writeFail eng L st hE hD hW).1] at h
      exact absurd h (by simp)
  intro heq
  unfold Code.next at hnext
  split_ifs at hnext

/-- Reading again between finish calls, from the head of either loop: when the
engine never leaves the position beyond the chunk and finish calls are shown
empty chunks, every finish call directly follows a zero-length read. -/
theorem loop_rereads {ε : Type} (eng : Engine ε) (fuel : Nat) (inner : Bool) (fresh : Bool)
    (L : Locals) (st : St ε)
    (hinv : inner = true → L.ZSTD_todo = ZSTD_EndDirective.ZSTD_e_end → L.srcSize = 0 →
      fresh = true) :
    ∃ evs, Extends st (Code.loop eng fuel inner L st).2 evs ∧
      ((∀ ev ∈ evs, ev.inBounds = true) →
        (∀ inB res, Event.compress inB ZSTD_EndDirective.ZSTD_e_end res ∈ evs → inB.size = 0) →
        finishFollowsRead fresh evs = true) := by
  induction fuel generalizing inner fresh L st with
  | zero => rw [loop_zero]; exact ⟨[], extends_refl st, fun _ _ => rfl⟩
  | succ fuel ih =>
    cases inner with
    | false =>
      rw [loop_read]
      by_cases h : scriptHead st.world.readResults = S_OK
      · obtain ⟨h1, h2, _, hw⟩ := readChunk_ok L st h
        rcases hr : Code.readChunk L st with ⟨r, L1, st1⟩
        rw [hr] at h1 h2 hw
        simp only [] at h1 h2 hw
        subst h1
        simp only []
        have hx : Extends st st1 _ := congrArg World.trace hw
        have hL1s : L1.srcSize = (st.world.inStream.take st.enc._srcBufSize).length := by
          rw [h2]
        obtain ⟨y, hy, hys⟩ := ih true
          (decide (S_OK = S_OK ∧ (st.world.inStream.take st.enc._srcBufSize).length = 0)) L1 st1
          (by
            intro _ _ h0
            rw [hL1s] at h0
            simp [h0])
        refine ⟨_, extends_trans hx hy, ?_⟩
        intro hb hf
        have hrest := hys (fun ev hev => hb ev (by simp [hev]))
          (fun inB res hev => hf inB res (by simp [hev]))
        simpa [finishFollowsRead] using hrest
      · obtain ⟨h1, _, hw⟩ := readChunk_fail L st h
        rcases hr : Code.readChunk L st with ⟨r, L1, st1⟩
        rw [hr] at h1 hw
        simp only [] at h1 hw
        subst h1
        simp only []
        exact ⟨_, congrArg World.trace hw, fun _ _ => by simp [finishFollowsRead]⟩
    | true =>
      rw [loop_compress]
      obtain ⟨tail, hx, hq, _, _⟩ := compressChunk_events eng L st
      have hag := compressChunk_again eng L st
      rcases hr : Code.compressChunk eng L st with ⟨nx, st1⟩
      rw [hr] at hx hag
      simp only [] at hx hag
      -- the check of the engine call of this pass
      have hhead : ∀ rest : List Event,
          (∀ ev ∈ Event.compress (Code.inBuff L) L.ZSTD_todo (Code.callEngine eng L st).1
            :: tail ++ rest, ev.inBounds = true) →
          (∀ inB res, Event.compress inB ZSTD_EndDirective.ZSTD_e_end res ∈
            Event.compress (Code.inBuff L) L.ZSTD_todo (Code.callEngine eng L st).1
              :: tail ++ rest → inB.size = 0) →
          (fresh || decide (L.ZSTD_todo ≠ ZSTD_EndDirective.ZSTD_e_end)) = true := by
        intro rest _ hf
        by_cases ht : L.ZSTD_todo = ZSTD_EndDirective.ZSTD_e_end
        · have hs : (Code.inBuff L).size = 0 := hf (Code.inBuff L) (Code.callEngine eng L st).1
            (by rw [ht]; simp)
          rw [inBuff_size] at hs
          rw [hinv rfl ht hs]
          rfl
        · simp [ht]
      cases nx with
      | ret hr1 =>
        refine ⟨_, hx, ?_⟩
        intro hb hf
        have := hhead [] (by simpa using hb) (by simpa using hf)
        simp only [finishFollowsRead, this, Bool.true_and]
        have := finishFollowsRead_quiet false tail [] hq
        simpa [finishFollowsRead] using this
      | more =>
        obtain ⟨y, hy, hys⟩ := ih false false L st1 (fun h0 => absurd h0 (by simp))
        refine ⟨_, extends_trans hx hy, ?_⟩
        intro hb hf
        have := hhead y hb hf
        rw [List.cons_append]
        simp only [finishFollowsRead, this, Bool.true_and]
        rw [finishFollowsRead_quiet false tail y hq]
        apply hys
        · intro ev hev
          exact hb ev (by simp [hev])
        · intro inB res hev
          exact hf inB res (by simp [hev])
      | again =>
        have hne := hag rfl
        by_cases ht : L.ZSTD_todo = ZSTD_EndDirective.ZSTD_e_end
        · -- a finish call on the empty chunk cannot repeat the inner loop
          obtain ⟨y, hy, _⟩ := ih true true L st1 (fun _ _ _ => rfl)
          refine ⟨_, extends_trans hx hy, ?_⟩
          intro hb hf
          exfalso
          have hs : (Code.inBuff L).size = 0 := hf (Code.inBuff L) (Code.callEngine eng L st).1
            (by rw [ht]; simp)
          have hp := hb (Event.compress (Code.inBuff L) L.ZSTD_todo (Code.callEngine eng L st).1)
            (by simp)
          simp only [Event.inBounds, decide_eq_true_eq] at hp
          omega
        · obtain ⟨y, hy, hys⟩ := ih true false L st1 (fun _ h0 _ => absurd h0 ht)
          refine ⟨_, extends_trans hx hy, ?_⟩
          intro hb hf
          have := hhead y hb hf
          rw [List.cons_append]
          simp only [finishFollowsRead, this, Bool.true_and]
          rw [finishFollowsRead_quiet false tail y hq]
          apply hys
          · intro ev hev
            exact hb ev (by simp [hev])
          · intro inB res hev
            exact hf inB res (by simp [hev])

/-- A finish pass on the empty chunk that does not return (no failure, work
remaining) and whose engine call stayed inside the chunk leaves the inner loop:
the next event, fuel permitting, is a read of the input source. -/
theorem loop_finish_reads {ε : Type} (eng : Engine ε) (L : Locals) (s : St ε) (k : Nat)
    (ht : L.ZSTD_todo = ZSTD_EndDirective.ZSTD_e_end) (h0 : L.srcSize = 0)
    (hpos : (Code.callEngine eng L s).1.inPos ≤ (Code.inBuff L).size)
    (hres : (Code.compressChunk eng L s).1.result = none) :
    ∃ hr n tail, (Code.loop eng (k + 2) true L s).2.world.trace
      = (Code.compressChunk eng L s).2.world.trace
        ++ Event.read s.enc._srcBufSize hr n :: tail := by
  have _ := ht
  have hmore : (Code.compressChunk eng L s).1 = Next.more := by
    rcases hn : (Code.compressChunk eng L s).1 with hr | _ | _
    · rw [hn] at hres
      simp [Next.result] at hres
    · have := compressChunk_again eng L s hn
      rw [inBuff_size, h0] at hpos this
      omega
    · rfl
  obtain ⟨_, _, _, c1, _⟩ := compressChunk_events eng L s
  rw [loop_compress]
  rcases hc : Code.compressChunk eng L s with ⟨nx, s1⟩
  rw [hc] at hmore c1
  simp only [] at hmore c1
  subst hmore
  simp only []
  rw [loop_read]
  by_cases h : scriptHead s1.world.readResults = S_OK
  · obtain ⟨h1, _, _, hw⟩ := readChunk_ok L s1 h
    rcases hr : Code.readChunk L s1 with ⟨r, L1, s2⟩
    rw [hr] at h1 hw
    simp only [] at h1 hw
    subst h1
    simp only []
    obtain ⟨y, hy, _⟩ := loop_extends eng k true L1 s2
    refine ⟨S_OK, (s1.world.inStream.take s1.enc._srcBufSize).length,
      [Event.wait,
       Event.processedIn ((s1.enc._processedIn
         + (s1.world.inStream.take s1.enc._srcBufSize).length) % 18446744073709551616),
       Event.release] ++ y, ?_⟩
    have hy1 : (Code.loop eng k true L1 s2).2.world.trace = s2.world.trace ++ y := hy
    rw [hy1, hw, ← c1]
    simp
  · obtain ⟨h1, _, hw⟩ := readChunk_fail L s1 h
    rcases hr : Code.readChunk L s1 with ⟨r, L1, s2⟩
    rw [hr] at h1 hw
    simp only [] at h1 hw
    subst h1
    simp only []
    refine ⟨scriptHead s1.world.readResults, 0, [], ?_⟩
    rw [hw, ← c1]

/-- C15 (amended): in every `Code` call, after the first successful read of
zero bytes every engine call is a finish call on the empty chunk and every
later read delivers zero bytes; when the engine never reports a position
beyond the size of the chunk it was shown, every finish call directly follows a
successful read of zero bytes with no engine call in between, so the finish
call is never repeated inside the inner loop; and a finish pass on the empty
chunk that leaves work remaining without failure goes on, fuel permitting, with
a read of the input source as its next event. -/
theorem Code_end_discipline {ε : Type} (eng : Engine ε) (fuel : Nat) (st : St ε)
    (evs : List Event)
    (htrace : (Code eng fuel st).2.world.trace = st.world.trace ++ evs) :
    endDiscipline evs = true ∧
    ((∀ ev ∈ evs, ev.inBounds = true) → finishFollowsRead false evs = true) ∧
    (∀ (L : Locals) (s : St ε) (k : Nat),
      L.ZSTD_todo = ZSTD_EndDirective.ZSTD_e_end → L.srcSize = 0 →
      (Code.callEngine eng L s).1.inPos ≤ (Code.inBuff L).size →
      (Code.compressChunk eng L s).1.result = none →
      ∃ hr n tail, (Code.loop eng (k + 2) true L s).2.world.trace
        = (Code.compressChunk eng L s).2.world.trace
          ++ Event.read s.enc._srcBufSize hr n :: tail) := by
  obtain ⟨pre, y, hx, hpre, h1, _, _, h4⟩ := Code_directives eng fuel st
  have hev : evs = pre ++ y := extends_unique htrace hx
  have hq : ∀ ev ∈ pre, ev.isQuiet = true := fun ev hev => quiet_of_setup ev (hpre ev hev)
  refine ⟨?_, ?_, fun L s k => loop_finish_reads eng L s k⟩
  · rw [hev, endDiscipline_quiet pre y hq]
    exact h4
  · intro hb
    obtain ⟨_, _, _, _, _, _, _, _, _, x, hxs, hxq⟩ := session_frame eng st
    have hx2 := hx
    unfold Code at hx2
    rcases hs : Code.session eng st with ⟨r, st1⟩
    rw [hs] at hxs hx2
    cases r with
    | some hr =>
      simp only [] at hx2 hxs
      have hy0 : pre ++ y = x := extends_unique hx2 hxs
      rw [hev, hy0, ← List.append_nil x,
        finishFollowsRead_quiet false x [] (fun ev h => quiet_of_setup ev (hxq ev h))]
      rfl
    | none =>
      simp only [] at hx2 hxs
      obtain ⟨z, hz, hzs⟩ := loop_rereads eng fuel false false Locals.entry st1
        (fun h0 => absurd h0 (by simp))
      have hxz : pre ++ y = x ++ z := extends_unique hx2 (extends_trans hxs hz)
      have hdir : directivesOk none (x ++ z) = true := by
        rw [← hxz, directivesOk_quiet none pre y hq]
        exact h1
      rw [directivesOk_quiet none x z (fun ev h => quiet_of_setup ev (hxq ev h))] at hdir
      rw [hev, hxz, finishFollowsRead_quiet false x z (fun ev h => quiet_of_setup ev (hxq ev h))]
      apply hzs
      · intro ev hmem
        exact hb ev (by rw [hev, hxz]; exact List.mem_append_right x hmem)
      · intro inB res hmem
        exact directivesOk_finish none z hdir inB res hmem

/-- Witness of C15 (amended): the empty input through the engine that needs
two finish calls and leaves the position at zero: the trace is read, finish
call, read, finish call, and the first finish pass, started on its own, goes on
with a read. -/
theorem Code_end_discipline_witness :
    endDiscipline (Code lazyEngine 4 emptyRun).2.world.trace = true ∧
    (∀ ev ∈ (Code lazyEngine 4 emptyRun).2.world.trace, ev.inBounds = true) ∧
    finishFollowsRead false (Code lazyEngine 4 emptyRun).2.world.trace = true ∧
    ((Code lazyEngine 4 emptyRun).2.world.trace.filter (fun ev => ev.isRead || ev.isCompress))
      = [Event.read 131072 S_OK 0,
         Event.compress ⟨none, 0, 0⟩ ZSTD_EndDirective.ZSTD_e_end ⟨1, 0, [40]⟩,
         Event.read 131072 S_OK 0,
         Event.compress ⟨none, 0, 0⟩ ZSTD_EndDirective.ZSTD_e_end ⟨0, 0, [41]⟩] ∧
    (Code.compressChunk lazyEngine ⟨ZSTD_EndDirective.ZSTD_e_end, 0, []⟩ emptyRun).1.result
      = none ∧
    ∃ hr n tail,
      (Code.loop lazyEngine 2 true ⟨ZSTD_EndDirective.ZSTD_e_end, 0, []⟩ emptyRun).2.world.trace
        = (Code.compressChunk lazyEngine ⟨ZSTD_EndDirective.ZSTD_e_end, 0, []⟩
            emptyRun).2.world.trace
          ++ Event.read emptyRun.enc._srcBufSize hr n :: tail :=
  ⟨(Code_end_discipline lazyEngine 4 emptyRun (Code lazyEngine 4 emptyRun).2.world.trace
      (by decide)).1,
    by decide,
    (Code_end_discipline lazyEngine 4 emptyRun (Code lazyEngine 4 emptyRun).2.world.trace
      (by decide)).2.1 (by decide),
    by decide,
    by decide,
    (Code_end_discipline lazyEngine 4 emptyRun (Code lazyEngine 4 emptyRun).2.world.trace
      (by decide)).2.2 ⟨ZSTD_EndDirective.ZSTD_e_end, 0, []⟩ emptyRun 0 rfl rfl (by decide)
      (by decide)⟩

end NZSTD
end NCompress
